import Mathlib

/-!
# Marionette FSM engine: a shallow embedding of `fsm.go`, `plugins/fte/recv.go`,
`plugins/io/puts.go` and `dialer.go`

The Go type `fsm` becomes a Lean structure and every method becomes a function
that takes the structure and returns the updated structure together with what
the method returned.  A Go call either returns normally, returns a non-nil
error, or does not return because an `assert` panicked; `Ret` keeps the three
apart.  The plugin `fte.recv` is a function of the same shape as every plugin,
`io.puts` is a function of the answers the connection gives to `Write`, and the
dialer is a structure of its own with one function per method.

Everything the engine only calls (the PRNG of `math/rand`, `regexp`, the plugin
registry, the network connection, `Close` and `Open` on ciphers, `Close` on
listeners, `Decrypt`, the cell codec) is a field of `Env`, so every theorem
holds for all behaviours of those collaborators.
-/

namespace Marionette

/-! ## Values, errors and results -/

/-- Go `error` values: the sentinels declared in `fsm.go` and `dialer.go`, and
any other error, identified by its message. -/
inductive Error where
  | ErrNoTransition
  | ErrUUIDMismatch
  | ErrDialerClosed
  | errorString (msg : String)
  deriving DecidableEq, Repr

/-- Outcome of a Go call: a normal return with a value and a nil error, a return
with a non-nil error, or a panic (`assert` calls `panic("assertion failed")`). -/
inductive Ret (α : Type) where
  | val (a : α)
  | err (e : Error)
  | panic (msg : String)
  deriving DecidableEq, Repr

/-- Values of type `interface{}` that documents, plugins and the variable map
exchange: the nil interface, integers, strings, and a method value bound to the
FSM (what the Go expression `fsm.InstanceID`, without a call, denotes). -/
inductive Value where
  | nil
  | int (i : Int)
  | str (s : String)
  | methodValue (name : String)
  deriving DecidableEq, Repr

/-! ## The document model (`mar` package) -/

/-- Modelled from the spec: `mar.Transition` (the `mar` package is not among the
sources), section 3: source, destination, action block name or "NULL",
probability and the error flag.  The probability is a weight that is at least
0; the selection only compares sums of weights of one state with each other, so
it is counted in whole units of a common denominator. -/
structure Transition where
  Source : String
  Destination : String
  ActionBlock : String
  Probability : Nat
  IsErrorTransition : Bool
  deriving DecidableEq, Repr

/-- Modelled from the spec: `mar.Action`, section 3: party, module, method, regex
(empty when absent) and literal arguments. -/
structure Action where
  Party : String
  Module : String
  Method : String
  Regex : String
  Args : List Value
  deriving DecidableEq

/-- Modelled from the spec: `mar.Action.Name`, the dotted plugin name used in
the "action not found" message. -/
def Action.Name (a : Action) : String := a.Module ++ "." ++ a.Method

/-- Modelled from the spec: `mar.Action.ArgValues`, the literal arguments handed
to the plugin. -/
def Action.ArgValues (a : Action) : List Value := a.Args

/-- Modelled from the spec: `mar.ActionBlock`, a named group of actions. -/
structure ActionBlock where
  Name : String
  Actions : List Action
  deriving DecidableEq

/-- Modelled from the spec: `mar.Document`, section 3: UUID, transport, port,
transitions in document order, action blocks by name and the first sender. -/
structure Document where
  UUID : Int
  Transport : String
  Port : String
  Transitions : List Transition
  ActionBlocks : List ActionBlock
  first_sender : String
  deriving DecidableEq

/-- Modelled from the spec: `mar.Document.FirstSender`, the party that speaks
first. -/
def Document.FirstSender (doc : Document) : String := doc.first_sender

/-- Modelled from the spec: `mar.Document.ActionBlock`, the block of that name,
or nothing (Go `nil`) when the document defines none. -/
def Document.ActionBlock (doc : Document) (name : String) : Option ActionBlock :=
  doc.ActionBlocks.find? (fun blk => blk.Name == name)

/-- Modelled from the spec: `mar.FilterTransitionsBySource`, "gather transitions
whose source is the current state", in document order. -/
def FilterTransitionsBySource (a : List Transition) (name : String) : List Transition :=
  a.filter (fun t => t.Source == name)

/-- Modelled from the spec: `mar.FilterErrorTransitions`, the error half of the
partition "into error and non-error". -/
def FilterErrorTransitions (a : List Transition) : List Transition :=
  a.filter (fun t => t.IsErrorTransition)

/-- Modelled from the spec: `mar.FilterNonErrorTransitions`, the non-error half
of the partition. -/
def FilterNonErrorTransitions (a : List Transition) : List Transition :=
  a.filter (fun t => !t.IsErrorTransition)

/-- Modelled from the spec: `mar.FilterActionsByParty`, the actions "whose party
matches the FSM party", in block order. -/
def FilterActionsByParty (actions : List Action) (party : String) : List Action :=
  actions.filter (fun a => a.Party == party)

/-! ## The PRNG (`math/rand`) -/

/-- A `*rand.Rand` built by `rand.New(rand.NewSource(seed))`: the generator is
deterministic, so its state is the seed and the number of values drawn. -/
structure Rand where
  seed : Int
  pos : Nat
  deriving DecidableEq, Repr

/-- Go `rand.Float64` is `float64(Int63n(1<<53)) / (1<<53)`: this is its
numerator, one 63-bit draw reduced to 53 bits, so the value drawn is
`draw53 / 2^53`, in the unit interval.  `Int63 seed k` is draw number `k` of the
source seeded with `seed`. -/
def Rand.draw53 (Int63 : Int → Nat → Nat) (r : Rand) : Nat :=
  Int63 r.seed r.pos % 2 ^ 53

/-- Sum of the weights of a list of transitions. -/
def totalWeight : List Transition → Nat
  | [] => 0
  | t :: rest => t.Probability + totalWeight rest

/-- Modelled from the spec: the weighted pick of section 9, "pick the first
transition whose cumulative weight is at least u", ties going to document
order.  Here u is `d / 2^53` of `total`, and `acc` is the cumulative weight of
the transitions already passed; the comparison `u ≤ acc + weight` is made on
the numerators. -/
def pickWeighted (d total : Nat) (acc : Nat) : List Transition → List Transition
  | [] => []
  | t :: rest =>
    if d * total ≤ (acc + t.Probability) * 2 ^ 53 then [t]
    else pickWeighted d total (acc + t.Probability) rest

/-- Modelled from the spec: `mar.ChooseTransitions` (section 4.6 step 3 and
section 9).  Without a PRNG "all non-error transitions are tried in document
order"; with one, u is drawn uniformly below the sum of the weights and the
first transition whose cumulative weight reaches u is the list to attempt.  The
PRNG advances by the one draw. -/
def ChooseTransitions (Int63 : Int → Nat → Nat) (a : List Transition) (rand : Option Rand) :
    List Transition × Option Rand :=
  match rand with
  | none => (a, none)
  | some r =>
    (pickWeighted (r.draw53 Int63) (totalWeight a) 0 a, some { r with pos := r.pos + 1 })

/-! ## The FSM -/

/-- The key of the cipher cache, `cipherKey` in `fsm.go`. -/
structure cipherKey where
  regex : String
  msgLen : Int
  deriving DecidableEq, Repr

/-- An `*fte.Cipher`: the pointer is an identity, the regex is what it was
created for. -/
structure Cipher where
  id : Nat
  regex : String
  deriving DecidableEq, Repr

/-- A `net.Listener`, by identity. -/
structure Listener where
  id : Nat
  deriving DecidableEq, Repr

/-- Modelled from the spec: `BufferedConn` (section 4.1; its source is not among
the files): the bytes buffered and not yet consumed, and the read cursor. -/
structure BufferedConn where
  buf : List Nat
  cursor : Nat
  deriving DecidableEq, Repr

/-- Modelled from the spec: `Cell` (section 3; `cell.go` is not among the
sources): the envelope fields and the payload bytes. -/
structure Cell where
  UUID : Int
  InstanceID : Int
  StreamID : Nat
  SequenceID : Nat
  Payload : List Nat
  deriving DecidableEq, Repr

/-- Modelled from the spec: `StreamSet` (section 4.4), by the ids of its
streams and the inbound cells it has been handed by `Enqueue`, oldest first. -/
structure StreamSet where
  streams : List Nat
  cells : List Cell := []
  deriving DecidableEq, Repr

/-- What a test double of a collaborator records: `Close` calls on ciphers and
listeners, the `logger().Error` lines of `Reset`, `Open` calls on ciphers, and
`Write` calls on the connection with the bytes they are handed. -/
inductive Event where
  | cipherClose (c : Cipher)
  | listenerClose (ln : Listener)
  | logError (msg : String) (e : Error)
  | cipherOpen (c : Cipher)
  | connWrite (p : List Nat)
  deriving DecidableEq, Repr

/-- The struct `fsm` of `fsm.go`, field by field.  `log` is ghost state: the
calls this FSM has made on its ciphers and listeners.  `stepN` is a Go `int`;
it only ever grows by one per successful transition, so the 64-bit wrap-around
is out of reach and it is a natural number here.  Go maps are association
lists. -/
structure fsm where
  doc : Document
  host : String
  party : String
  conn : BufferedConn
  streamSet : StreamSet
  listeners : List Listener
  state : String
  stepN : Nat
  rand : Option Rand
  transitions : List (String × List Transition)
  vars : List (String × Value)
  ciphers : List (cipherKey × Cipher)
  instanceID : Int
  log : List Event
  deriving DecidableEq

/-- A plugin, `fn(fsm, args...) (bool, error)`: it sees the FSM, returns the FSM
as it leaves it, and reports matched, unmatched, an error or a panic. -/
abbrev PluginFunc := fsm → List Value → fsm × Ret Bool

/-- The collaborators of the engine, all of them outside `fsm.go`. -/
structure Env where
  /-- The generator of `math/rand`: draw number `k` of the source seeded `seed`. -/
  Int63 : Int → Nat → Nat
  /-- The plugin registry, `FindPlugin(module, method)`; `none` is Go `nil`. -/
  FindPlugin : String → String → Option PluginFunc
  /-- The call `regexp.Compile`: the error it returns, if any. -/
  regexpCompile : String → Option Error
  /-- The call `re.Match(buf)` on a regex that compiled. -/
  regexpMatch : String → List Nat → Bool
  /-- The call `conn.Peek(-1)`: it may read from the network into the buffer. -/
  Peek : BufferedConn → BufferedConn × Except Error (List Nat)
  /-- The call `Close` on a cipher: the error it returns, if any. -/
  cipherClose : Cipher → Option Error
  /-- The call `Close` on a listener: the error it returns, if any. -/
  listenerClose : Listener → Option Error
  /-- The call `Open` on a cipher made by `fte.NewCipher`: the error it returns,
  if any. -/
  cipherOpen : Cipher → Option Error := fun _ => none
  /-- The call `cipher.Decrypt(ciphertext)`: plaintext and remainder, or an
  error. -/
  Decrypt : Cipher → List Nat → Except Error (List Nat × List Nat) :=
    fun _ ciphertext => Except.ok (ciphertext, [])
  /-- The call `cell.UnmarshalBinary(plaintext)`: the cell, or an error. -/
  UnmarshalBinary : List Nat → Except Error Cell :=
    fun _ => Except.error (Error.errorString "short buffer")
  /-- What `StreamSet.Enqueue` answers for a cell of a stream the set does not
  hold: the error it returns, if any. -/
  unknownStream : Cell → Option Error := fun _ => none
  /-- The call `d.fsm.Close()` of the dialer: the FSM as closing leaves it and the
  error returned, if any (the method is not declared in `fsm.go`). -/
  fsmClose : fsm → fsm × Option Error := fun f => (f, none)

/-- Insert a transition into the index by source state, as the body of the loop
of `buildTransitions` does: `m[t.Source] = append(m[t.Source], t)`. -/
def indexInsert (t : Transition) :
    List (String × List Transition) → List (String × List Transition)
  | [] => [(t.Source, [t])]
  | (k, ts) :: rest =>
    if k = t.Source then (k, ts ++ [t]) :: rest else (k, ts) :: indexInsert t rest

/-- The method `fsm.buildTransitions`. -/
def fsm.buildTransitions (f : fsm) : fsm :=
  { f with transitions := f.doc.Transitions.foldl (fun m t => indexInsert t m) [] }

/-- The method `fsm.initFirstSender`.  `draw` is the value the global generator
hands to `rand.Int31()`, which keeps 31 bits of it. -/
def fsm.initFirstSender (f : fsm) (draw : Nat) : fsm :=
  if f.party ≠ f.doc.FirstSender then f
  else
    let id : Int := ((draw % 2 ^ 31 : Nat) : Int)
    { f with instanceID := id, rand := some { seed := id, pos := 0 } }

/-- The first loop of `Reset`: `Close` every cached cipher, logging a failure
and going on.  (Go ranges over the map in an unspecified order; the list order
stands for it.) -/
def closeCiphers (env : Env) : List (cipherKey × Cipher) → List Event → List Event
  | [], log => log
  | (_, c) :: rest, log =>
    match env.cipherClose c with
    | some e =>
      closeCiphers env rest (log ++ [Event.cipherClose c, Event.logError "cannot close cipher" e])
    | none => closeCiphers env rest (log ++ [Event.cipherClose c])

/-- The second loop of `Reset`: `Close` every listener, logging a failure and
going on. -/
def closeListeners (env : Env) : List Listener → List Event → List Event
  | [], log => log
  | ln :: rest, log =>
    match env.listenerClose ln with
    | some e =>
      closeListeners env rest
        (log ++ [Event.listenerClose ln, Event.logError "cannot close listener" e])
    | none => closeListeners env rest (log ++ [Event.listenerClose ln])

/-- The method `fsm.Reset`. -/
def fsm.Reset (env : Env) (f : fsm) : fsm :=
  { f with
    state := "start"
    vars := []
    ciphers := []
    listeners := []
    log := closeListeners env f.listeners (closeCiphers env f.ciphers f.log) }

/-- The constructor `NewFSM`.  `conn` is the connection already wrapped by
`NewBufferedConn`; `draw` feeds `rand.Int31()` in `initFirstSender`. -/
def NewFSM (env : Env) (draw : Nat) (doc : Document) (host party : String)
    (conn : BufferedConn) (streamSet : StreamSet) : fsm :=
  let f : fsm :=
    { doc := doc, host := host, party := party, conn := conn, streamSet := streamSet,
      listeners := [], state := "", stepN := 0, rand := none, transitions := [],
      vars := [], ciphers := [], instanceID := 0, log := [] }
  ((f.Reset env).buildTransitions).initFirstSender draw

/-- What a plugin can leave behind.  A plugin holds the `FSM` interface, whose
mutators reach the instance id, the variables, the cipher cache, the listeners,
the connection and the stream set; the interface has no setter for the
document, host, party, PRNG, state or step counter, so these are the caller's.
(A plugin that re-enters `Next`, `Execute` or `Reset` on the FSM that is running
it is outside this model.) -/
def fsm.afterPlugin (f g : fsm) : fsm :=
  { g with
    doc := f.doc
    host := f.host
    party := f.party
    state := f.state
    stepN := f.stepN
    rand := f.rand
    transitions := f.transitions }

/-- The method `fsm.evalAction`: look the plugin up and run it. -/
def fsm.evalAction (env : Env) (f : fsm) (action : Action) : fsm × Ret Bool :=
  match env.FindPlugin action.Module action.Method with
  | none => (f, Ret.err (Error.errorString ("fsm.evalAction(): action not found: " ++ action.Name)))
  | some fn =>
    match fn f action.ArgValues with
    | (g, r) => (f.afterPlugin g, r)

/-- The regex gate at the top of the loop body of `evalActions`: `val true` when
the action is to be dispatched, `val false` when it is skipped (`continue`), an
error when `regexp.Compile` or `Peek` fails. -/
def fsm.regexGate (env : Env) (f : fsm) (action : Action) : fsm × Ret Bool :=
  if action.Regex ≠ "" then
    match env.regexpCompile action.Regex with
    | some e => (f, Ret.err e)
    | none =>
      match env.Peek f.conn with
      | (c, Except.error e) => ({ f with conn := c }, Ret.err e)
      | (c, Except.ok buf) => ({ f with conn := c }, Ret.val (env.regexpMatch action.Regex buf))
  else (f, Ret.val true)

/-- The loop of `evalActions` over the actions that remain. -/
def evalActionsLoop (env : Env) : List Action → fsm → fsm × Ret Bool
  | [], f => (f, Ret.val false)
  | action :: rest, f =>
    match f.regexGate env action with
    | (g, Ret.err e) => (g, Ret.err e)
    | (g, Ret.panic m) => (g, Ret.panic m)
    | (g, Ret.val false) => evalActionsLoop env rest g
    | (g, Ret.val true) =>
      match g.evalAction env action with
      | (h, Ret.err e) => (h, Ret.err e)
      | (h, Ret.panic m) => (h, Ret.panic m)
      | (h, Ret.val true) => (h, Ret.val true)
      | (h, Ret.val false) => evalActionsLoop env rest h

/-- The method `fsm.evalActions`: an empty list matches, otherwise the loop. -/
def fsm.evalActions (env : Env) (f : fsm) (actions : List Action) : fsm × Ret Bool :=
  if actions.length = 0 then (f, Ret.val true) else evalActionsLoop env actions f

/-- The body of the loop of `fsm.next` for one transition: `val true` when the
transition succeeds (the loop returns its destination), `val false` when the
loop goes on to the next transition. -/
def fsm.evalTransition (env : Env) (f : fsm) (t : Transition) : fsm × Ret Bool :=
  if t.ActionBlock = "NULL" then (f, Ret.val true)
  else
    match f.doc.ActionBlock t.ActionBlock with
    | none =>
      (f, Ret.err (Error.errorString
        ("fsm.Next(): action block not found: \"" ++ t.ActionBlock ++ "\"")))
    | some blk => f.evalActions env (FilterActionsByParty blk.Actions f.party)

/-- The loop of `fsm.next` over the attempt list; the empty string is "no
transition succeeded". -/
def tryTransitions (env : Env) : List Transition → fsm → fsm × Ret String
  | [], f => (f, Ret.val "")
  | t :: rest, f =>
    match f.evalTransition env t with
    | (g, Ret.err e) => (g, Ret.err e)
    | (g, Ret.panic m) => (g, Ret.panic m)
    | (g, Ret.val true) => (g, Ret.val t.Destination)
    | (g, Ret.val false) => tryTransitions env rest g

/-- The non-error transitions of the current state, which `fsm.next` hands to
`ChooseTransitions`. -/
def fsm.candidates (f : fsm) : List Transition :=
  FilterNonErrorTransitions (FilterTransitionsBySource f.doc.Transitions f.state)

/-- The error transitions of the current state, `errorTransitions` in
`fsm.next`. -/
def fsm.errorTransitions (f : fsm) : List Transition :=
  FilterErrorTransitions (FilterTransitionsBySource f.doc.Transitions f.state)

/-- The transitions `ChooseTransitions` selects in `fsm.next`. -/
def fsm.chosen (env : Env) (f : fsm) : List Transition :=
  (ChooseTransitions env.Int63 f.candidates f.rand).1

/-- The FSM after the selection of `fsm.next`: the PRNG has advanced. -/
def fsm.afterChoice (env : Env) (f : fsm) : fsm :=
  { f with rand := (ChooseTransitions env.Int63 f.candidates f.rand).2 }

/-- The attempt list of `fsm.next`: `append(transitions, errorTransitions...)`. -/
def fsm.attempts (env : Env) (f : fsm) : List Transition :=
  f.chosen env ++ f.errorTransitions

/-- The method `fsm.next`: select, assert that something was selected, append
the error transitions and try each in turn. -/
def fsm.next (env : Env) (f : fsm) : fsm × Ret String :=
  if (f.chosen env).length > 0 then tryTransitions env (f.attempts env) (f.afterChoice env)
  else (f.afterChoice env, Ret.panic "assertion failed")

/-- The replay loop of `fsm.init` with `n` iterations to go:
`fsm.state, err = fsm.next()`, return on error, `assert(fsm.state != "")`. -/
def initLoop (env : Env) : Nat → fsm → fsm × Ret Unit
  | 0, f => (f, Ret.val ())
  | n + 1, f =>
    match f.next env with
    | (g, Ret.panic m) => (g, Ret.panic m)
    | (g, Ret.err e) => ({ g with state := "" }, Ret.err e)
    | (g, Ret.val s) =>
      if s ≠ "" then initLoop env n { g with state := s }
      else ({ g with state := s }, Ret.panic "assertion failed")

/-- The method `fsm.init`: nothing when the PRNG exists or no instance id is
known; otherwise seed the PRNG, go back to "start" and replay `stepN` steps. -/
def fsm.init (env : Env) (f : fsm) : fsm × Ret Unit :=
  if f.rand.isSome ∨ f.instanceID = 0 then (f, Ret.val ())
  else
    initLoop env f.stepN
      { f with rand := some { seed := f.instanceID, pos := 0 }, state := "start" }

/-- The method `fsm.Next`. -/
def fsm.Next (env : Env) (f : fsm) : fsm × Ret Unit :=
  match f.init env with
  | (g, Ret.err e) => (g, Ret.err e)
  | (g, Ret.panic m) => (g, Ret.panic m)
  | (g, Ret.val _) =>
    match g.next env with
    | (h, Ret.err e) => (h, Ret.err e)
    | (h, Ret.panic m) => (h, Ret.panic m)
    | (h, Ret.val nextState) =>
      if nextState = "" then (h, Ret.err Error.ErrNoTransition)
      else ({ h with stepN := h.stepN + 1, state := nextState }, Ret.val ())

/-- The method `fsm.SetInstanceID`. -/
def fsm.SetInstanceID (f : fsm) (id : Int) : fsm := { f with instanceID := id }

/-- The method `fsm.Dead`. -/
def fsm.Dead (f : fsm) : Bool := f.state == "dead"

/-- The method `fsm.Var`.  The first case returns `fsm.InstanceID`, the method
itself and not the result of calling it; a key that is not in the map reads as
the nil interface. -/
def fsm.Var (f : fsm) (key : String) : Value :=
  if key = "model_instance_id" then Value.methodValue "InstanceID"
  else if key = "model_uuid" then Value.int f.doc.UUID
  else if key = "party" then Value.str f.party
  else (f.vars.lookup key).getD Value.nil

/-- The method `fsm.SetVar`: `fsm.vars[key] = value`. -/
def fsm.SetVar (f : fsm) (key : String) (value : Value) : fsm :=
  { f with vars := (key, value) :: f.vars.filter (fun kv => kv.1 != key) }

/-! ## Vocabulary of the properties -/

/-- Evaluate the transitions of `ts` in turn, each in the FSM the one before
left, as long as each evaluates to unmatched without error: the FSM left behind
when all of them did, `none` as soon as one matched or failed. -/
def skipAll (env : Env) : List Transition → fsm → Option fsm
  | [], f => some f
  | t :: rest, f =>
    match f.evalTransition env t with
    | (g, Ret.val false) => skipAll env rest g
    | _ => none

/-- The second half of `Next`, after the initialisation: the real step. -/
def fsm.realStep (env : Env) (g : fsm) : fsm × Ret Unit :=
  match g.next env with
  | (h, Ret.err e) => (h, Ret.err e)
  | (h, Ret.panic m) => (h, Ret.panic m)
  | (h, Ret.val nextState) =>
    if nextState = "" then (h, Ret.err Error.ErrNoTransition)
    else ({ h with stepN := h.stepN + 1, state := nextState }, Ret.val ())

/-- In the words of the spec: apply the transition-selection step `n` times,
each step moving the state to the destination it selected; `none` when a step
selects nothing or fails. -/
def replay (env : Env) : Nat → fsm → Option fsm
  | 0, f => some f
  | n + 1, f =>
    match f.next env with
    | (g, Ret.val s) => if s = "" then none else replay env n { g with state := s }
    | _ => none

/-- The states the replay of `fsm.init` passes through, the starting state
first: one more per replayed step that selected a destination. -/
def replayStates (env : Env) : Nat → fsm → List String
  | 0, f => [f.state]
  | n + 1, f =>
    match f.next env with
    | (g, Ret.val s) =>
      if s = "" then [f.state] else f.state :: replayStates env n { g with state := s }
    | _ => [f.state]

/-- Successive calls of `Next`, one per environment of the list (the world may
change between calls): the FSM left behind and the results, first call first. -/
def runNext : List Env → fsm → fsm × List (Ret Unit)
  | [], f => (f, [])
  | env :: rest, f =>
    match f.Next env with
    | (g, r) => ((runNext rest g).1, r :: (runNext rest g).2)

/-- The number of calls that returned no error. -/
def countOK : List (Ret Unit) → Nat
  | [] => 0
  | Ret.val _ :: rest => countOK rest + 1
  | _ :: rest => countOK rest

/-- The fields of `g` that no plugin can reach are those of `f`. -/
def SameControl (f g : fsm) : Prop :=
  g.doc = f.doc ∧ g.host = f.host ∧ g.party = f.party ∧ g.state = f.state ∧
    g.stepN = f.stepN ∧ g.rand = f.rand ∧ g.transitions = f.transitions

/-- Successive successful calls of `Next` made without a PRNG, one per
environment of the list: each call finds no PRNG and the instance id 0, and
returns no error.  The result is the FSM left behind and the states visited,
the starting state first; `none` when a call is seeded or does not succeed. -/
def unseededRun : List Env → fsm → Option (fsm × List String)
  | [], f => some (f, [f.state])
  | env :: rest, f =>
    if f.rand = none ∧ f.instanceID = 0 then
      match f.Next env with
      | (g, Ret.val _) =>
        match unseededRun rest g with
        | some (h, path) => some (h, f.state :: path)
        | none => none
      | _ => none
    else none

/-- The action outcomes the loop of `fsm.next` observes on the attempt list
`ts`: one result per transition it evaluates, up to and including the one at
which it stops. -/
def observed (env : Env) : List Transition → fsm → List (Ret Bool)
  | [], _ => []
  | t :: rest, f =>
    match f.evalTransition env t with
    | (g, Ret.val false) => Ret.val false :: observed env rest g
    | (_, r) => [r]

/-- The action outcomes one selection step observes; none when nothing was
selected. -/
def fsm.nextObserved (env : Env) (f : fsm) : List (Ret Bool) :=
  if (f.chosen env).length > 0 then observed env (f.attempts env) (f.afterChoice env) else []

/-- The action outcomes the replay loop of `fsm.init` observes, step by step. -/
def initLoopObserved (env : Env) : Nat → fsm → List (List (Ret Bool))
  | 0, _ => []
  | n + 1, f =>
    f.nextObserved env ::
      (match f.next env with
       | (g, Ret.val s) => if s ≠ "" then initLoopObserved env n { g with state := s } else []
       | _ => [])

/-- What one call of `Next` is given from outside the selection: the instance id
the FSM holds when called, the action outcomes of the replay (if the call
initialises the PRNG) and those of the real step (if it gets that far). -/
structure Observation where
  instanceID : Int
  replayed : List (List (Ret Bool))
  real : List (Ret Bool)
  deriving DecidableEq

/-- The observation of one call of `Next`. -/
def fsm.NextObserved (env : Env) (f : fsm) : Observation :=
  { instanceID := f.instanceID
    replayed :=
      if f.rand.isSome ∨ f.instanceID = 0 then []
      else initLoopObserved env f.stepN
        { f with rand := some { seed := f.instanceID, pos := 0 }, state := "start" }
    real :=
      match f.init env with
      | (g, Ret.val _) => g.nextObserved env
      | _ => [] }

/-- The observations of successive calls of `Next`, one per environment. -/
def runObserved : List Env → fsm → List Observation
  | [], _ => []
  | env :: rest, f => f.NextObserved env :: runObserved rest (f.Next env).1

/-- What one call of `Next` did: the transitions the selection of its real step
chose (none if the initialisation failed), what the call returned, and the
state, step counter and PRNG it left. -/
structure Visit where
  selected : List Transition
  result : Ret Unit
  state : String
  stepN : Nat
  rand : Option Rand
  deriving DecidableEq

/-- The visit of one call of `Next`. -/
def fsm.NextVisit (env : Env) (f : fsm) : Visit :=
  { selected :=
      match f.init env with
      | (g, Ret.val _) => g.chosen env
      | _ => []
    result := (f.Next env).2
    state := (f.Next env).1.state
    stepN := (f.Next env).1.stepN
    rand := (f.Next env).1.rand }

/-- The visits of successive calls of `Next`, one per environment. -/
def runVisits : List Env → fsm → List Visit
  | [], _ => []
  | env :: rest, f => f.NextVisit env :: runVisits rest (f.Next env).1

/-- Two FSMs are at the same point of the same document with the same PRNG
stream. -/
def Sync (f g : fsm) : Prop :=
  f.doc = g.doc ∧ f.state = g.state ∧ f.stepN = g.stepN ∧ f.rand = g.rand

/-- The PRNG the next call of `Next` selects with: the one the FSM has, or, for
an FSM that sits in "start" with no step taken, holds an instance id and has no
PRNG yet, the one `fsm.init` is about to build from that id. -/
def fsm.pendingRand (f : fsm) : Option Rand :=
  match f.rand with
  | some r => some r
  | none =>
    if f.instanceID ≠ 0 ∧ f.stepN = 0 ∧ f.state = "start" then
      some { seed := f.instanceID, pos := 0 }
    else none

/-- The FSM with its pending PRNG in place. -/
def fsm.primed (f : fsm) : fsm := { f with rand := f.pendingRand }

/-! ## Sample documents and collaborators -/

/-- The document `start → a` through the block "blk", whose one server action
is gated by a regex. -/
def gatedDoc : Document :=
  { UUID := 100, Transport := "tcp", Port := "8080",
    Transitions :=
      [{ Source := "start", Destination := "a", ActionBlock := "blk",
         Probability := 1, IsErrorTransition := false }],
    ActionBlocks :=
      [{ Name := "blk",
         Actions := [{ Party := "server", Module := "fte", Method := "recv",
                       Regex := "^x", Args := [] }] }],
    first_sender := "client" }

/-- The document `start → a` with no action block, where "a" has only an error
transition, through the block "blk". -/
def errorOnlyDoc : Document :=
  { UUID := 100, Transport := "tcp", Port := "8080",
    Transitions :=
      [{ Source := "start", Destination := "a", ActionBlock := "NULL",
         Probability := 1, IsErrorTransition := false },
       { Source := "a", Destination := "dead", ActionBlock := "blk",
         Probability := 0, IsErrorTransition := true }],
    ActionBlocks :=
      [{ Name := "blk",
         Actions := [{ Party := "server", Module := "fte", Method := "recv",
                       Regex := "^x", Args := [] }] }],
    first_sender := "client" }

/-- Collaborators that never fail: no plugin is registered, every regex
compiles and matches, `Peek` returns the buffered bytes. -/
def quietEnv : Env :=
  { Int63 := fun _ _ => 0
    FindPlugin := fun _ _ => none
    regexpCompile := fun _ => none
    regexpMatch := fun _ _ => true
    Peek := fun c => (c, Except.ok c.buf)
    cipherClose := fun _ => none
    listenerClose := fun _ => none }

/-- A connection with nothing buffered. -/
def idleConn : BufferedConn := { buf := [], cursor := 0 }

/-- The document `start → dead` with no action block, the client speaking
first. -/
def oneStepDoc : Document :=
  { UUID := 100, Transport := "tcp", Port := "8080",
    Transitions :=
      [{ Source := "start", Destination := "dead", ActionBlock := "NULL",
         Probability := 1, IsErrorTransition := false }],
    ActionBlocks := [], first_sender := "client" }

/-- A server FSM on `oneStepDoc`, freshly built: not the first sender. -/
def oneStepServer : fsm :=
  NewFSM quietEnv 0 oneStepDoc "127.0.0.1" "server" idleConn { streams := [] }

/-- A server FSM on `gatedDoc`, freshly built. -/
def gatedServer : fsm :=
  NewFSM quietEnv 0 gatedDoc "127.0.0.1" "server" idleConn { streams := [] }

/-- Collaborators as in `quietEnv`, except that no regex matches the buffer. -/
def deafEnv : Env := { quietEnv with regexpMatch := fun _ _ => false }

/-- The server of `oneStepServer` after its one step: it sits in "dead", a state
`oneStepDoc` gives no outgoing transition. -/
def deadServer : fsm := (oneStepServer.Next quietEnv).1

/-- A server FSM on `errorOnlyDoc` after its first step: it sits in "a", a state
with only an error transition. -/
def errorOnlyServer : fsm :=
  ((NewFSM quietEnv 0 errorOnlyDoc "127.0.0.1" "server" idleConn { streams := [] }).Next
    quietEnv).1

/-- A client FSM on `oneStepDoc` built when `rand.Int31()` returns 0; the client
is the first sender. -/
def zeroDrawClient : fsm :=
  NewFSM quietEnv 0 oneStepDoc "127.0.0.1" "client" idleConn { streams := [] }

/-- The document `start → a → dead`, neither transition with an action block. -/
def twoStepDoc : Document :=
  { UUID := 100, Transport := "tcp", Port := "8080",
    Transitions :=
      [{ Source := "start", Destination := "a", ActionBlock := "NULL",
         Probability := 1, IsErrorTransition := false },
       { Source := "a", Destination := "dead", ActionBlock := "NULL",
         Probability := 1, IsErrorTransition := false }],
    ActionBlocks := [], first_sender := "client" }

/-- A server FSM on `twoStepDoc`, freshly built. -/
def twoStepServer : fsm :=
  NewFSM quietEnv 0 twoStepDoc "127.0.0.1" "server" idleConn { streams := [] }

/-- The server of `twoStepServer` after it took its first step without a PRNG
and then learned the instance id 200. -/
def lateServer : fsm := (twoStepServer.Next quietEnv).1.SetInstanceID 200

/-- A plugin in the manner of `io.gets`: it matches when bytes are buffered and
consumes them, and does not match on an empty buffer. -/
def getsOnce : PluginFunc := fun f _ =>
  if f.conn.buf = [] then (f, Ret.val false)
  else
    ({ f with conn := { buf := [], cursor := f.conn.cursor + f.conn.buf.length } }, Ret.val true)

/-- Collaborators as in `quietEnv`, with `getsOnce` registered as `io.gets`. -/
def getsEnv : Env :=
  { quietEnv with
    FindPlugin := fun m n => if m = "io" ∧ n = "gets" then some getsOnce else none }

/-- The document `start → a` through the block "greet", in which the server
reads a greeting; it is the only transition of "start". -/
def greetDoc : Document :=
  { UUID := 100, Transport := "tcp", Port := "8080",
    Transitions :=
      [{ Source := "start", Destination := "a", ActionBlock := "greet",
         Probability := 1, IsErrorTransition := false }],
    ActionBlocks :=
      [{ Name := "greet",
         Actions := [{ Party := "server", Module := "io", Method := "gets",
                       Regex := "", Args := [Value.str "HELLO"] }] }],
    first_sender := "client" }

/-- A server FSM on `greetDoc`, freshly built, with the greeting buffered. -/
def greetServer : fsm :=
  NewFSM quietEnv 0 greetDoc "127.0.0.1" "server" { buf := [72, 69, 76, 76, 79], cursor := 0 }
    { streams := [] }

/-- The server of `greetServer` after its one unseeded step, once it has learned
the instance id 200. -/
def greetedServer : fsm := (greetServer.Next getsEnv).1.SetInstanceID 200

/-- A client FSM on `twoStepDoc` built with the draw 200: the first sender. -/
def twoStepClient : fsm :=
  NewFSM quietEnv 200 twoStepDoc "127.0.0.1" "client" idleConn { streams := [] }

/-- A server FSM on `twoStepDoc`, on another host and with bytes buffered, that
was told the instance id 200 before its first call of `Next`. -/
def toldServer : fsm :=
  (NewFSM quietEnv 0 twoStepDoc "10.0.0.1" "server" { buf := [1, 2, 3], cursor := 0 }
    { streams := [7] }).SetInstanceID 200

/-! ## Vocabulary of action evaluation and of `Execute` -/

/-- The body of the loop of `evalActions` for one action: the regex gate, then
the dispatch when the gate lets the action through.  `val false` is `continue`:
the action was skipped, or its plugin returned false. -/
def fsm.tryAction (env : Env) (f : fsm) (action : Action) : fsm × Ret Bool :=
  match f.regexGate env action with
  | (g, Ret.val true) => g.evalAction env action
  | (g, r) => (g, r)

/-- Go through the actions in turn, each in the FSM the one before left, as long
as each is skipped or dispatched to a plugin that returns false: the FSM left
behind when all of them were, `none` as soon as a plugin returned true or
something failed. -/
def passAll (env : Env) : List Action → fsm → Option fsm
  | [], f => some f
  | a :: rest, f =>
    match f.tryAction env a with
    | (g, Ret.val false) => passAll env rest g
    | _ => none

/-- A selection step on `g` that fails with the error `e` and leaves `h`, and
what follows for `Next`: `e` is not `ErrNoTransition`; a call of `Next` whose
real step this is returns `e` and leaves `h`; a call of `Next` that makes this
step as step `k` of its replay returns `e` as well. -/
def FatalStep (env : Env) (g h : fsm) (e : Error) : Prop :=
  e ≠ Error.ErrNoTransition ∧ g.next env = (h, Ret.err e) ∧
  (∀ f : fsm, f.init env = (g, Ret.val ()) → f.Next env = (h, Ret.err e)) ∧
  (∀ (f : fsm) (k : Nat), f.rand = none → f.instanceID ≠ 0 → k < f.stepN →
    replay env k { f with rand := some { seed := f.instanceID, pos := 0 }, state := "start" } =
      some g →
    f.Next env = ({ h with state := "" }, Ret.err e))

/-- The loop of `Execute`, with one environment per call of `Next` it may make
(the world as it is at that call, after the pauses before it).  `some r` is what
`Execute` comes to: it returns nil, returns an error, or panics; `none` means
that the loop is still running when the calls provided are used up. -/
def ExecuteLoop : List Env → fsm → fsm × Option (Ret Unit)
  | [], f => if f.Dead then (f, some (Ret.val ())) else (f, none)
  | env :: rest, f =>
    if f.Dead then (f, some (Ret.val ()))
    else
      match f.Next env with
      | (g, Ret.val _) => ExecuteLoop rest g
      | (g, Ret.err e) =>
        if e = Error.ErrNoTransition then ExecuteLoop rest g else (g, some (Ret.err e))
      | (g, Ret.panic m) => (g, some (Ret.panic m))

/-- The method `fsm.Execute`: `Reset`, then the loop.  `env` is the world at the
`Reset`. -/
def fsm.Execute (env : Env) (envs : List Env) (f : fsm) : fsm × Option (Ret Unit) :=
  ExecuteLoop envs (f.Reset env)

/-- A result of `Next` on which the loop of `Execute` goes on: nil or
`ErrNoTransition`. -/
def Ret.goesOn (r : Ret Unit) : Prop := r = Ret.val () ∨ r = Ret.err Error.ErrNoTransition

/-- Collaborators as in `quietEnv`, except that no regex compiles. -/
def badRegexEnv : Env :=
  { quietEnv with regexpCompile := fun _ => some (Error.errorString "error parsing regexp") }

/-- A plugin that always returns false. -/
def neverPlugin : PluginFunc := fun f _ => (f, Ret.val false)

/-- A plugin that always returns true. -/
def alwaysPlugin : PluginFunc := fun f _ => (f, Ret.val true)

/-- Collaborators as in `quietEnv`, with `neverPlugin` registered as `io.gets`
and `alwaysPlugin` as `io.puts`, and regexes that match no buffer. -/
def mixedEnv : Env :=
  { quietEnv with
    regexpMatch := fun _ _ => false
    FindPlugin := fun m n =>
      if m = "io" ∧ n = "gets" then some neverPlugin
      else if m = "io" ∧ n = "puts" then some alwaysPlugin
      else none }

/-- Four actions: one skipped by its regex under `mixedEnv`, one whose plugin
returns false, one whose plugin returns true, and one that has no plugin. -/
def mixedActions : List Action :=
  [{ Party := "server", Module := "fte", Method := "recv", Regex := "^x", Args := [] },
   { Party := "server", Module := "io", Method := "gets", Regex := "", Args := [] },
   { Party := "server", Module := "io", Method := "puts", Regex := "", Args := [] },
   { Party := "server", Module := "no", Method := "plugin", Regex := "", Args := [] }]

/-- The document `start → a` through the block "ghost", which it does not
define. -/
def ghostDoc : Document :=
  { UUID := 100, Transport := "tcp", Port := "8080",
    Transitions :=
      [{ Source := "start", Destination := "a", ActionBlock := "ghost",
         Probability := 1, IsErrorTransition := false }],
    ActionBlocks := [], first_sender := "client" }

/-- A server FSM on `ghostDoc`, freshly built. -/
def ghostServer : fsm :=
  NewFSM quietEnv 0 ghostDoc "127.0.0.1" "server" idleConn { streams := [] }

/-! ## The cipher cache and the plugin `fte.recv` -/

/-- The method `fsm.Cipher`: the cached cipher of the pair, or a new cipher that
is opened and, when `Open` succeeds, cached.  `fte.NewCipher` returns a fresh
pointer; its identity here is the length of the log, which grows with every
cipher this FSM opens. -/
def fsm.Cipher (env : Env) (f : fsm) (regex : String) (msgLen : Int) :
    fsm × Ret Marionette.Cipher :=
  match f.ciphers.lookup { regex := regex, msgLen := msgLen } with
  | some cipher => (f, Ret.val cipher)
  | none =>
    let cipher : Marionette.Cipher := { id := f.log.length, regex := regex }
    match env.cipherOpen cipher with
    | some e => ({ f with log := f.log ++ [Event.cipherOpen cipher] }, Ret.err e)
    | none =>
      ({ f with
         ciphers := f.ciphers ++ [({ regex := regex, msgLen := msgLen }, cipher)]
         log := f.log ++ [Event.cipherOpen cipher] }, Ret.val cipher)

/-- Modelled from the spec: `BufferedConn.Seek` with `io.SeekCurrent` (section
4.1, "seek_forward(k)": it "advances the read cursor by k, discarding", and "k
must not exceed last-peeked length").  An offset outside the buffered bytes is
refused with an error and changes nothing. -/
def BufferedConn.Seek (c : BufferedConn) (offset : Int) : BufferedConn × Option Error :=
  if 0 ≤ offset ∧ offset ≤ (c.buf.length : Int) then
    ({ buf := c.buf.drop offset.toNat, cursor := c.cursor + offset.toNat }, none)
  else (c, some (Error.errorString "seek out of range"))

/-- Modelled from the spec: `StreamSet.Enqueue` (section 4.4, "delivers an
inbound cell": it is buffered for its target stream).  The spec does not say
what becomes of a cell for a stream the set does not hold: `unknownStream` is
the error returned for it, if any; a cell that is refused is not taken, a cell
that is not refused opens its stream. -/
def StreamSet.Enqueue (unknownStream : Cell → Option Error) (ss : StreamSet) (cell : Cell) :
    StreamSet × Option Error :=
  if cell.StreamID ∈ ss.streams then ({ ss with cells := ss.cells ++ [cell] }, none)
  else
    match unknownStream cell with
    | some e => (ss, some e)
    | none => ({ streams := ss.streams ++ [cell.StreamID], cells := ss.cells ++ [cell] }, none)

/-- The function `recv` of `plugins/fte/recv.go`. -/
def recv (env : Env) (f : fsm) (args : List Value) : fsm × Ret Bool :=
  match args with
  | Value.str regex :: Value.int msgLen :: _ =>
    match env.Peek f.conn with
    | (c, Except.error e) => ({ f with conn := c }, Ret.err e)
    | (c, Except.ok ciphertext) =>
      if ciphertext.length = 0 then ({ f with conn := c }, Ret.val false)
      else
        match ({ f with conn := c } : fsm).Cipher env regex msgLen with
        | (f2, Ret.err e) => (f2, Ret.err e)
        | (f2, Ret.panic m) => (f2, Ret.panic m)
        | (f2, Ret.val cipher) =>
          match env.Decrypt cipher ciphertext with
          | Except.error e => (f2, Ret.err e)
          | Except.ok (plaintext, remainder) =>
            match env.UnmarshalBinary plaintext with
            | Except.error e => (f2, Ret.err e)
            | Except.ok cell =>
              if f2.doc.UUID ≠ cell.UUID then (f2, Ret.panic "assertion failed")
              else
                if f2.instanceID = 0 ∨ cell.StreamID = 0 then
                  (f2.SetInstanceID cell.InstanceID, Ret.val false)
                else
                  match (f2.SetInstanceID cell.InstanceID).streamSet.Enqueue
                      env.unknownStream cell with
                  | (ss, some e) =>
                    ({ f2.SetInstanceID cell.InstanceID with streamSet := ss }, Ret.err e)
                  | (ss, none) =>
                    match f2.conn.Seek ((ciphertext.length : Int) - (remainder.length : Int)) with
                    | (c2, some e) =>
                      ({ f2.SetInstanceID cell.InstanceID with streamSet := ss, conn := c2 },
                        Ret.err e)
                    | (c2, none) =>
                      ({ f2.SetInstanceID cell.InstanceID with streamSet := ss, conn := c2 },
                        Ret.val true)
  | Value.str _ :: _ :: _ =>
    (f, Ret.err (Error.errorString "fte.send: invalid msg_len argument type"))
  | _ :: _ :: _ => (f, Ret.err (Error.errorString "fte.send: invalid regex argument type"))
  | _ => (f, Ret.err (Error.errorString "fte.send: not enough arguments"))

/-- The plugin `fte.Recv`. -/
def Recv (env : Env) : PluginFunc := fun f args => recv env f args

/-- The plugin `fte.RecvAsync`. -/
def RecvAsync (env : Env) : PluginFunc := fun f args => recv env f args

/-- The cell of the tests of `recv_test.go`: sequence 0, payload "foo". -/
def testCell (uuid instanceID : Int) (streamID : Nat) : Cell :=
  { UUID := uuid, InstanceID := instanceID, StreamID := streamID, SequenceID := 0,
    Payload := [102, 111, 111] }

/-- Collaborators as in `quietEnv`, with a cipher that decrypts every ciphertext
to the bytes of `cell` and the remainder `remainder`, as the mock cipher of
`recv_test.go` does. -/
def recvEnv (cell : Cell) (remainder : List Nat) : Env :=
  { quietEnv with
    Decrypt := fun _ _ => Except.ok (cell.Payload, remainder)
    UnmarshalBinary := fun _ => Except.ok cell }

/-- The FSM of the tests of `recv_test.go`: UUID 100, the given instance id,
"bar" buffered, and a stream set that holds the stream 300. -/
def recvFsm (instanceID : Int) : fsm :=
  (NewFSM quietEnv 0 oneStepDoc "127.0.0.1" "server" { buf := [98, 97, 114], cursor := 0 }
    { streams := [300] }).SetInstanceID instanceID

/-- The arguments of the tests of `recv_test.go`: the regex and the message
length 128. -/
def recvArgs : List Value := [Value.str "([a-z0-9]+)", Value.int 128]

/-- The FSM of the test "OK" of `recv_test.go`: as `recvFsm 200`, with "barbaz"
buffered. -/
def okFsm : fsm :=
  (NewFSM quietEnv 0 oneStepDoc "127.0.0.1" "server"
    { buf := [98, 97, 114, 98, 97, 122], cursor := 0 } { streams := [300] }).SetInstanceID 200

/-- Collaborators as in `quietEnv`, with a cipher whose `Decrypt` fails, as in the
test "ErrDecrypt" of `recv_test.go`. -/
def markerEnv : Env :=
  { quietEnv with Decrypt := fun _ _ => Except.error (Error.errorString "marker") }

/-! ## The dialer (`dialer.go`) -/

/-- Modelled from the spec: the constant `PartyClient` (section 3, party
"client"). -/
def PartyClient : String := "client"

/-- Modelled from the spec: `StreamSet.Create` (section 4.4: it "allocates a
fresh non-zero random stream ID").  `draw` is the random number; the id made of
it is above every id of the set, hence fresh, and at least 1. -/
def StreamSet.Create (ss : StreamSet) (draw : Nat) : StreamSet × Nat :=
  ({ ss with streams := ss.streams ++ [draw + 1 + ss.streams.sum] }, draw + 1 + ss.streams.sum)

/-- The struct `Dialer` of `dialer.go`.  `fsm` is nil until `Open`; `cancelled`
stands for the context `ctx` having been cancelled.  `locked` stands for the
mutex `mu`: every method that takes it releases it before it returns, so
between calls it is held only when a call of `close` panicked after
`d.mu.Lock()` and before `d.mu.Unlock()`.  Every method runs as one step; the
wait group is not state of the model. -/
structure Dialer where
  addr : String
  doc : Document
  fsm : Option fsm
  streamSet : StreamSet
  cancelled : Bool
  closed : Bool
  locked : Bool
  deriving DecidableEq

/-- The constructor `NewDialer`. -/
def NewDialer (doc : Document) (addr : String) (streamSet : StreamSet) : Dialer :=
  { addr := addr, doc := doc, fsm := none, streamSet := streamSet, cancelled := false,
    closed := false, locked := false }

/-- The method `Dialer.Open`.  `dialed` is what `DialContext` returns, `draw`
feeds `NewFSM`; the driver it starts is the step `DialerOp.driverCycle`. -/
def Dialer.Open (env : Env) (draw : Nat) (dialed : Except Error BufferedConn) (d : Dialer) :
    Dialer × Option Error :=
  match dialed with
  | Except.error e => (d, some e)
  | Except.ok conn =>
    ({ d with fsm := some (NewFSM env draw d.doc d.addr PartyClient conn d.streamSet) }, none)

/-- The method `Dialer.close`: `d.mu.Lock()`, set the flag, close the FSM,
`d.mu.Unlock()`, cancel the context.  The result is `none` when the call does
not return because the mutex is held and never released.  The call
`d.fsm.Close()` on a dialer that was never opened is a call on a nil interface:
it panics, after the flag is set and with the mutex still held, because the
unlock is not deferred. -/
def Dialer.close (env : Env) (d : Dialer) : Dialer × Option (Ret Unit) :=
  if d.locked then (d, none)
  else
    match d.fsm with
    | none =>
      ({ d with closed := true, locked := true }, some (Ret.panic "nil pointer dereference"))
    | some f =>
      match env.fsmClose f with
      | (f', some e) =>
        ({ d with closed := true, fsm := some f', cancelled := true }, some (Ret.err e))
      | (f', none) =>
        ({ d with closed := true, fsm := some f', cancelled := true }, some (Ret.val ()))

/-- The method `Dialer.Close`: `close`, then wait for the driver. -/
def Dialer.Close (env : Env) (d : Dialer) : Dialer × Option (Ret Unit) := d.close env

/-- The method `Dialer.Closed`: read the flag under `d.mu.RLock()`; `none` when
the call does not return because the mutex is held and never released. -/
def Dialer.Closed (d : Dialer) : Option Bool :=
  if d.locked then none else some d.closed

/-- The method `Dialer.Dial`: the id of the stream created, or the error;
`none` when the call does not return because `Closed` does not. -/
def Dialer.Dial (d : Dialer) (draw : Nat) : Dialer × Option (Except Error Nat) :=
  match d.Closed with
  | none => (d, none)
  | some true => (d, some (Except.error Error.ErrDialerClosed))
  | some false =>
    ({ d with streamSet := (d.streamSet.Create draw).1 },
      some (Except.ok (d.streamSet.Create draw).2))

/-- One pass of the loop of `Dialer.execute`, the driver: unless the dialer is
closed, run the FSM with `Execute` and reset it when that returned nil.  The
loop assigns no field of the dialer, and does nothing more when `Closed` does
not return; its `defer d.close()` is the step `DialerOp.driverExit`. -/
def Dialer.driverCycle (env : Env) (envs : List Env) (d : Dialer) : Dialer :=
  match d.Closed with
  | none => d
  | some true => d
  | some false =>
    match d.fsm with
    | none => d
    | some f =>
      match f.Execute env envs with
      | (f', some (Ret.val _)) => { d with fsm := some (f'.Reset env) }
      | (f', _) => { d with fsm := some f' }

/-- The operations on a dialer: the calls of its methods by the application and
the steps of its driver. -/
inductive DialerOp where
  | Open (draw : Nat) (dialed : Except Error BufferedConn)
  | Close
  | Closed
  | Dial (draw : Nat)
  | driverCycle (envs : List Env)
  | driverExit

/-- The dialer after one operation. -/
def Dialer.step (env : Env) (d : Dialer) : DialerOp → Dialer
  | DialerOp.Open draw dialed => (d.Open env draw dialed).1
  | DialerOp.Close => (d.Close env).1
  | DialerOp.Closed => d
  | DialerOp.Dial draw => (d.Dial draw).1
  | DialerOp.driverCycle envs => d.driverCycle env envs
  | DialerOp.driverExit => (d.close env).1

/-- The dialer after a sequence of operations, first operation first. -/
def Dialer.run (env : Env) (d : Dialer) : List DialerOp → Dialer
  | [] => d
  | op :: rest => Dialer.run env (d.step env op) rest

/-- A dialer on `twoStepDoc` that has never been opened. -/
def unopenedDialer : Dialer := NewDialer twoStepDoc "127.0.0.1" { streams := [] }

/-- A dialer on `twoStepDoc` that has been opened on an idle connection. -/
def openDialer : Dialer := (unopenedDialer.Open quietEnv 7 (Except.ok idleConn)).1

/-! ## `Clone` -/

/-- The method `fsm.Clone`: a struct literal that takes the document from the
argument and host, party, connection, stream set, instance id and variable map
from the receiver (the fields it does not name are zero: no listeners, the
empty state, no step, no PRNG, no cipher), then `Reset`, `buildTransitions` and
`initFirstSender`.  `draw` feeds `rand.Int31()` in `initFirstSender`.  The
receiver is only read: `Reset` assigns a new map to `other.vars` and finds no
cipher and no listener to close. -/
def fsm.Clone (env : Env) (draw : Nat) (f : fsm) (doc : Document) : fsm :=
  let other : fsm :=
    { doc := doc, host := f.host, party := f.party, conn := f.conn, streamSet := f.streamSet,
      listeners := [], state := "", stepN := 0, rand := none, transitions := [],
      vars := f.vars, ciphers := [], instanceID := f.instanceID, log := [] }
  ((other.Reset env).buildTransitions).initFirstSender draw

/-! ## The plugin `io.puts` -/

/-- The bytes of a Go string, `[]byte(data)`: its UTF-8 encoding. -/
def stringBytes (s : String) : List Nat :=
  (s.data.flatMap String.utf8EncodeChar).map UInt8.toNat

/-- What one call of `fsm.Conn().Write(p)` answers: the byte count, a Go `int`,
and the error, `none` for nil.  The flag beside the error says whether the
error has a method `Timeout() bool` that reports true. -/
structure WriteReply where
  n : Int
  err : Option (Error × Bool)
  deriving DecidableEq, Repr

/-- The write side of the connection as `Puts` meets it: what call number `i` of
`Write`, counted from 0, answers when it is handed `p`. -/
abbrev Writer := Nat → List Nat → WriteReply

/-- The function `isTimeoutError` of `puts.go`. -/
def isTimeoutError : Option (Error × Bool) → Bool
  | none => false
  | some (_, timeout) => timeout

/-- The loop of `Puts`, `for len(data) > 0`, with a bound on the number of
iterations; each call of `Write` is logged with the bytes it is handed, and the
calls after it are those of `write` from number 1 on.  `data = data[n:]` panics
when `n` is outside `0..len(data)`.  The result is `none` when the loop is
still running at the bound. -/
def putsLoop : Nat → Writer → List Nat → fsm → fsm × Option (Ret Unit)
  | 0, _, data, f => if data.length > 0 then (f, none) else (f, some (Ret.val ()))
  | fuel + 1, write, data, f =>
    if data.length > 0 then
      if (write 0 data).n < 0 ∨ (data.length : Int) < (write 0 data).n then
        ({ f with log := f.log ++ [Event.connWrite data] },
          some (Ret.panic "slice bounds out of range"))
      else if isTimeoutError (write 0 data).err then
        putsLoop fuel (fun i => write (i + 1)) (data.drop (write 0 data).n.toNat)
          { f with log := f.log ++ [Event.connWrite data] }
      else
        match (write 0 data).err with
        | some (e, _) => ({ f with log := f.log ++ [Event.connWrite data] }, some (Ret.err e))
        | none =>
          putsLoop fuel (fun i => write (i + 1)) (data.drop (write 0 data).n.toNat)
            { f with log := f.log ++ [Event.connWrite data] }
    else (f, some (Ret.val ()))

/-- The plugin `io.puts`, `Puts(fsm, args...) error`; `Ret.val ()` is the nil
error. -/
def Puts (write : Writer) (fuel : Nat) (f : fsm) (args : List Value) :
    fsm × Option (Ret Unit) :=
  match args with
  | [] => (f, some (Ret.err (Error.errorString "io.puts: not enough arguments")))
  | Value.str data :: _ => putsLoop fuel write (stringBytes data) f
  | _ :: _ => (f, some (Ret.err (Error.errorString "io.puts: invalid argument type")))

/-- The error on which the loop of `Puts` returns: the error of the answer when
it is not a timeout. -/
def WriteReply.fatal (r : WriteReply) : Option Error :=
  if isTimeoutError r.err then none else r.err.map Prod.fst

/-- The first `k` calls of `Write` of a loop that runs that far on `data`: what
each call is handed, and what it answers. -/
def writeCalls : Nat → Writer → List Nat → List (List Nat × WriteReply)
  | 0, _, _ => []
  | k + 1, write, data =>
    (data, write 0 data) ::
      writeCalls k (fun i => write (i + 1)) (data.drop (write 0 data).n.toNat)

/-! ## Sample values for the variables, the cipher cache, `Clone`, `io.puts` and failed calls of `Next` -/

/-- The server of `greetServer` with the variable "k" set to "v". -/
def taggedServer : fsm := greetServer.SetVar "k" (Value.str "v")

/-- Collaborators as in `quietEnv`, except that no cipher opens. -/
def noCipherEnv : Env :=
  { quietEnv with cipherOpen := fun _ => some (Error.errorString "fte: cannot open cipher") }

/-- The server of `greetServer` once it holds the cipher of the pair
("[a-z]+", 128). -/
def cipherServer : fsm := (greetServer.Cipher quietEnv "[a-z]+" 128).1

/-- A connection that accepts one byte and times out, then accepts the rest. -/
def slowWriter : Writer := fun i p =>
  if i = 0 then { n := min 1 p.length, err := some (Error.errorString "i/o timeout", true) }
  else { n := p.length, err := none }

/-- A connection that accepts one byte and then breaks. -/
def brokenWriter : Writer := fun i p =>
  if i = 1 then { n := 0, err := some (Error.errorString "broken pipe", false) }
  else { n := min 1 p.length, err := none }

/-- A plugin in the manner of `io.gets` on a connection that the peer closes
after its greeting: it matches when bytes are buffered and consumes them, and
returns the error of the read on an empty buffer. -/
def getsOrEOF : PluginFunc := fun f _ =>
  if f.conn.buf = [] then (f, Ret.err (Error.errorString "EOF"))
  else
    ({ f with conn := { buf := [], cursor := f.conn.cursor + f.conn.buf.length } }, Ret.val true)

/-- Collaborators as in `quietEnv`, with `getsOrEOF` registered as `io.gets`. -/
def eofEnv : Env :=
  { quietEnv with
    FindPlugin := fun m n => if m = "io" ∧ n = "gets" then some getsOrEOF else none }

/-- The server of `greetServer` after its one unseeded step, which consumed the
greeting, once it has learned the instance id 200. -/
def hungServer : fsm := (greetServer.Next eofEnv).1.SetInstanceID 200

/-- A run of calls of `Cipher`, each with its own collaborators and its own pair,
in the FSM the call before left. -/
def runCiphers : List (Env × String × Int) → fsm → fsm
  | [], f => f
  | (env, regex, msgLen) :: rest, f => runCiphers rest (f.Cipher env regex msgLen).1

/-! ## Plugins and action evaluation leave the control fields alone -/

theorem SameControl.refl (f : fsm) : SameControl f f :=
  ⟨rfl, rfl, rfl, rfl, rfl, rfl, rfl⟩

theorem SameControl.trans {f g h : fsm} (hfg : SameControl f g) (hgh : SameControl g h) :
    SameControl f h := by
  obtain ⟨a1, a2, a3, a4, a5, a6, a7⟩ := hfg
  obtain ⟨b1, b2, b3, b4, b5, b6, b7⟩ := hgh
  exact ⟨b1.trans a1, b2.trans a2, b3.trans a3, b4.trans a4, b5.trans a5, b6.trans a6,
    b7.trans a7⟩

theorem evalAction_control (env : Env) (f : fsm) (a : Action) :
    SameControl f (f.evalAction env a).1 := by
  unfold fsm.evalAction
  cases env.FindPlugin a.Module a.Method with
  | none => exact SameControl.refl f
  | some fn => exact ⟨rfl, rfl, rfl, rfl, rfl, rfl, rfl⟩

theorem regexGate_control (env : Env) (f : fsm) (a : Action) :
    SameControl f (f.regexGate env a).1 := by
  unfold fsm.regexGate
  split
  · split
    · exact SameControl.refl f
    · split <;> exact ⟨rfl, rfl, rfl, rfl, rfl, rfl, rfl⟩
  · exact SameControl.refl f

theorem evalActionsLoop_control (env : Env) :
    ∀ (actions : List Action) (f : fsm), SameControl f (evalActionsLoop env actions f).1
  | [], f => SameControl.refl f
  | a :: rest, f => by
    have hg := regexGate_control env f a
    rw [evalActionsLoop]
    rcases hgate : f.regexGate env a with ⟨g, r⟩
    rw [hgate] at hg
    rcases r with b | e | m
    · cases b
      · exact hg.trans (evalActionsLoop_control env rest g)
      · have hh := evalAction_control env g a
        dsimp only
        rcases hact : g.evalAction env a with ⟨h, r2⟩
        rw [hact] at hh
        rcases r2 with b2 | e2 | m2
        · cases b2
          · exact (hg.trans hh).trans (evalActionsLoop_control env rest h)
          · exact hg.trans hh
        · exact hg.trans hh
        · exact hg.trans hh
    · exact hg
    · exact hg

theorem evalActions_control (env : Env) (f : fsm) (actions : List Action) :
    SameControl f (f.evalActions env actions).1 := by
  unfold fsm.evalActions
  split
  · exact SameControl.refl f
  · exact evalActionsLoop_control env actions f

theorem evalTransition_control (env : Env) (f : fsm) (t : Transition) :
    SameControl f (f.evalTransition env t).1 := by
  unfold fsm.evalTransition
  split
  · exact SameControl.refl f
  · split
    · exact SameControl.refl f
    · exact evalActions_control env f _

theorem tryTransitions_control (env : Env) :
    ∀ (ts : List Transition) (f : fsm), SameControl f (tryTransitions env ts f).1
  | [], f => SameControl.refl f
  | t :: rest, f => by
    have hg := evalTransition_control env f t
    rw [tryTransitions]
    rcases hev : f.evalTransition env t with ⟨g, r⟩
    rw [hev] at hg
    rcases r with b | e | m
    · cases b
      · exact hg.trans (tryTransitions_control env rest g)
      · exact hg
    · exact hg
    · exact hg

/-! ## The loop of `fsm.next` -/

theorem tryTransitions_of_skipAll (env : Env) :
    ∀ (ts : List Transition) (f g : fsm), skipAll env ts f = some g →
      tryTransitions env ts f = (g, Ret.val "")
  | [], f, g, h => by
    simp only [skipAll, Option.some.injEq] at h
    simp [tryTransitions, h]
  | t :: rest, f, g, h => by
    rw [skipAll] at h
    rw [tryTransitions]
    rcases hev : f.evalTransition env t with ⟨k, r⟩
    rw [hev] at h
    rcases r with b | e | m
    · cases b
      · exact tryTransitions_of_skipAll env rest k g h
      · simp at h
    · simp at h
    · simp at h

theorem tryTransitions_append (env : Env) (errs : List Transition) :
    ∀ (ts : List Transition) (f : fsm),
      tryTransitions env (ts ++ errs) f =
        match skipAll env ts f with
        | some g => tryTransitions env errs g
        | none => tryTransitions env ts f
  | [], f => by simp [skipAll]
  | t :: rest, f => by
    rw [List.cons_append, tryTransitions, skipAll, tryTransitions]
    rcases hev : f.evalTransition env t with ⟨k, r⟩
    rcases r with b | e | m
    · cases b
      · exact tryTransitions_append env errs rest k
      · rfl
    · rfl
    · rfl

theorem tryTransitions_val (env : Env) :
    ∀ (ts : List Transition) (f h : fsm) (s : String),
      tryTransitions env ts f = (h, Ret.val s) → s ≠ "" →
      ∃ (pre : List Transition) (t : Transition) (post : List Transition) (g : fsm),
        ts = pre ++ t :: post ∧ skipAll env pre f = some g ∧
          g.evalTransition env t = (h, Ret.val true) ∧ s = t.Destination
  | [], f, h, s, hrun, hs => by
    simp only [tryTransitions, Prod.mk.injEq, Ret.val.injEq] at hrun
    exact absurd hrun.2.symm hs
  | t :: rest, f, h, s, hrun, hs => by
    rw [tryTransitions] at hrun
    rcases hev : f.evalTransition env t with ⟨k, r⟩
    rw [hev] at hrun
    rcases r with b | e | m
    · cases b
      · obtain ⟨pre, t', post, g, h1, h2, h3, h4⟩ :=
          tryTransitions_val env rest k h s hrun hs
        refine ⟨t :: pre, t', post, g, by rw [h1, List.cons_append], ?_, h3, h4⟩
        rw [skipAll, hev]
        exact h2
      · simp only [Prod.mk.injEq, Ret.val.injEq] at hrun
        refine ⟨[], t, rest, f, rfl, rfl, ?_, hrun.2.symm⟩
        rw [hev, hrun.1]
    · simp at hrun
    · simp at hrun

theorem evalTransition_matched (env : Env) (f g : fsm) (t : Transition)
    (h : f.evalTransition env t = (g, Ret.val true)) :
    t.ActionBlock = "NULL" ∨ ∃ blk, f.doc.ActionBlock t.ActionBlock = some blk ∧
      f.evalActions env (FilterActionsByParty blk.Actions f.party) = (g, Ret.val true) := by
  unfold fsm.evalTransition at h
  by_cases hnull : t.ActionBlock = "NULL"
  · exact Or.inl hnull
  · rw [if_neg hnull] at h
    cases hblk : f.doc.ActionBlock t.ActionBlock with
    | none => rw [hblk] at h; simp at h
    | some blk => rw [hblk] at h; exact Or.inr ⟨blk, rfl, h⟩

/-! ## The selection -/

theorem pickWeighted_sublist (d total : Nat) :
    ∀ (a : List Transition) (acc : Nat), (pickWeighted d total acc a).Sublist a
  | [], _ => by simp [pickWeighted]
  | t :: rest, acc => by
    rw [pickWeighted]
    split
    · simp
    · exact (pickWeighted_sublist d total rest _).trans (List.sublist_cons_self t rest)

theorem pickWeighted_ne_nil (d total : Nat) :
    ∀ (a : List Transition) (acc : Nat), a ≠ [] →
      d * total ≤ (acc + totalWeight a) * 2 ^ 53 → pickWeighted d total acc a ≠ []
  | [], _, h, _ => absurd rfl h
  | t :: rest, acc, _, hle => by
    rw [pickWeighted]
    split
    · simp
    · rename_i hnot
      cases rest with
      | nil =>
        simp only [totalWeight, Nat.add_zero] at hle
        exact absurd hle hnot
      | cons t2 rest2 =>
        apply pickWeighted_ne_nil d total (t2 :: rest2) _ (by simp)
        simpa [totalWeight, Nat.add_assoc] using hle

theorem draw53_lt (Int63 : Int → Nat → Nat) (r : Rand) : r.draw53 Int63 < 2 ^ 53 :=
  Nat.mod_lt _ (by norm_num)

theorem ChooseTransitions_sublist (Int63 : Int → Nat → Nat) (a : List Transition)
    (rand : Option Rand) : (ChooseTransitions Int63 a rand).1.Sublist a := by
  cases rand with
  | none => exact List.Sublist.refl a
  | some r => exact pickWeighted_sublist _ _ a 0

theorem ChooseTransitions_eq_nil_iff (Int63 : Int → Nat → Nat) (a : List Transition)
    (rand : Option Rand) : (ChooseTransitions Int63 a rand).1 = [] ↔ a = [] := by
  constructor
  · intro h
    cases rand with
    | none => exact h
    | some r =>
      by_contra hne
      refine pickWeighted_ne_nil (r.draw53 Int63) (totalWeight a) a 0 hne ?_ h
      rw [Nat.zero_add, Nat.mul_comm]
      exact Nat.mul_le_mul_left _ (Nat.le_of_lt (draw53_lt Int63 r))
  · intro h
    subst h
    cases rand <;> rfl

theorem chosen_eq_nil_iff (env : Env) (f : fsm) : f.chosen env = [] ↔ f.candidates = [] :=
  ChooseTransitions_eq_nil_iff env.Int63 f.candidates f.rand

/-! ## What `next`, `init` and `Next` leave alone -/

theorem next_control (env : Env) (f : fsm) :
    SameControl (f.afterChoice env) (f.next env).1 := by
  unfold fsm.next
  split
  · exact tryTransitions_control env _ _
  · exact SameControl.refl _

theorem next_stepN (env : Env) (f : fsm) : (f.next env).1.stepN = f.stepN :=
  (next_control env f).2.2.2.2.1

theorem initLoop_stepN (env : Env) :
    ∀ (n : Nat) (f : fsm), (initLoop env n f).1.stepN = f.stepN
  | 0, f => rfl
  | n + 1, f => by
    have hs := next_stepN env f
    rw [initLoop]
    rcases hn : f.next env with ⟨g, r⟩
    rw [hn] at hs
    rcases r with s | e | m
    · dsimp only
      split
      · rw [initLoop_stepN env n]
        exact hs
      · exact hs
    · exact hs
    · exact hs

theorem init_stepN (env : Env) (f : fsm) : (f.init env).1.stepN = f.stepN := by
  unfold fsm.init
  split
  · rfl
  · rw [initLoop_stepN]

theorem Next_eq_realStep (env : Env) (f g : fsm) (h : f.init env = (g, Ret.val ())) :
    f.Next env = g.realStep env := by
  unfold fsm.Next fsm.realStep
  rw [h]

theorem realStep_val (env : Env) (g f' : fsm) (h : g.realStep env = (f', Ret.val ())) :
    ∃ (k : fsm) (s : String), g.next env = (k, Ret.val s) ∧ s ≠ "" ∧
      f' = { k with stepN := k.stepN + 1, state := s } := by
  unfold fsm.realStep at h
  rcases hn : g.next env with ⟨k, r⟩
  rw [hn] at h
  rcases r with s | e | m
  · dsimp only at h
    split at h
    · simp at h
    · rename_i hs
      simp only [Prod.mk.injEq, and_true] at h
      exact ⟨k, s, rfl, hs, h.symm⟩
  · simp at h
  · simp at h

theorem Next_val_init (env : Env) (f f' : fsm) (h : f.Next env = (f', Ret.val ())) :
    ∃ g, f.init env = (g, Ret.val ()) := by
  unfold fsm.Next at h
  rcases hi : f.init env with ⟨g, r⟩
  rw [hi] at h
  rcases r with u | e | m
  · exact ⟨g, rfl⟩
  · simp at h
  · simp at h

/-! ## C1: a successful `Next` -/

/-- C1: when `Next` returns no error, `stepN` has grown by exactly one and the
new state is the destination of the first transition `t` of the attempt list
(of the FSM as the initialisation left it) that matched: every transition
before `t` was evaluated to unmatched, `t` has the action block "NULL" or its
party-filtered actions evaluated to matched, and the FSM returned is the one
that the evaluation of `t` left, with only `stepN` and `state` updated, so no
transition after `t` was evaluated. -/
theorem Next_success (env : Env) (f f' : fsm) (h : f.Next env = (f', Ret.val ())) :
    f'.stepN = f.stepN + 1 ∧
    ∃ (g g1 g2 : fsm) (pre : List Transition) (t : Transition) (post : List Transition),
      f.init env = (g, Ret.val ()) ∧
      g.attempts env = pre ++ t :: post ∧
      skipAll env pre (g.afterChoice env) = some g1 ∧
      g1.evalTransition env t = (g2, Ret.val true) ∧
      (t.ActionBlock = "NULL" ∨ ∃ blk, g1.doc.ActionBlock t.ActionBlock = some blk ∧
        g1.evalActions env (FilterActionsByParty blk.Actions g1.party) = (g2, Ret.val true)) ∧
      f'.state = t.Destination ∧
      f' = { g2 with stepN := g2.stepN + 1, state := t.Destination } := by
  obtain ⟨g, hi⟩ := Next_val_init env f f' h
  rw [Next_eq_realStep env f g hi] at h
  obtain ⟨k, s, hn, hs, hf'⟩ := realStep_val env g f' h
  have hstep : k.stepN = f.stepN := by
    have h1 := next_stepN env g
    have h2 := init_stepN env f
    rw [hn] at h1
    rw [hi] at h2
    exact h1.trans h2
  have hrun : tryTransitions env (g.attempts env) (g.afterChoice env) = (k, Ret.val s) := by
    unfold fsm.next at hn
    split at hn
    · exact hn
    · simp at hn
  obtain ⟨pre, t, post, g1, hsplit, hskip, hev, hdest⟩ :=
    tryTransitions_val env _ _ k s hrun hs
  refine ⟨?_, g, g1, k, pre, t, post, hi, hsplit, hskip, hev,
    evalTransition_matched env g1 k t hev, ?_, ?_⟩
  · rw [hf']
    exact congrArg (· + 1) hstep
  · rw [hf', hdest]
  · rw [hf', hdest]

/-- C1, at a concrete input: the server on `start → dead` moves to "dead" and
counts one step. -/
theorem Next_success_witness :
    (oneStepServer.Next quietEnv).1.stepN = oneStepServer.stepN + 1 :=
  (Next_success quietEnv oneStepServer (oneStepServer.Next quietEnv).1 (by decide)).1

/-! ## C2: no transition -/

/-- C2, the failing inputs: in "dead", a state with no outgoing transition, and
in a state with only an error transition, which does not match, `Next` does not
return `ErrNoTransition`: the assertion `len(transitions) > 0` of `fsm.next`,
which comes before the error transitions are appended, panics. -/
theorem Next_without_candidates_panics :
    deadServer.state = "dead" ∧
    FilterTransitionsBySource deadServer.doc.Transitions deadServer.state = [] ∧
    (deadServer.Next quietEnv).2 = Ret.panic "assertion failed" ∧
    errorOnlyServer.state = "a" ∧
    errorOnlyServer.candidates = [] ∧
    errorOnlyServer.errorTransitions.length = 1 ∧
    skipAll deafEnv errorOnlyServer.errorTransitions errorOnlyServer = some errorOnlyServer ∧
    (errorOnlyServer.Next deafEnv).2 = Ret.panic "assertion failed" := by
  decide

/-- Where `Next` does return `ErrNoTransition`: once its initialisation has
returned, if the current state has a non-error transition and every transition
of the attempt list evaluates to unmatched without error.  Where it does not:
if the current state has no non-error transition, the assertion of `fsm.next`
fails. -/
theorem Next_no_transition (env : Env) (f g : fsm) (hinit : f.init env = (g, Ret.val ())) :
    (g.candidates ≠ [] →
      (skipAll env (g.attempts env) (g.afterChoice env)).isSome = true →
      (f.Next env).2 = Ret.err Error.ErrNoTransition) ∧
    (g.candidates = [] → (f.Next env).2 = Ret.panic "assertion failed") := by
  rw [Next_eq_realStep env f g hinit]
  constructor
  · intro hne hskip
    obtain ⟨g', hg'⟩ := Option.isSome_iff_exists.mp hskip
    have hlen : (g.chosen env).length > 0 :=
      List.length_pos.mpr (fun hnil => hne ((chosen_eq_nil_iff env g).mp hnil))
    unfold fsm.realStep fsm.next
    rw [if_pos hlen, tryTransitions_of_skipAll env _ _ g' hg']
    rfl
  · intro hnil
    have hlen : ¬ (g.chosen env).length > 0 := by
      rw [(chosen_eq_nil_iff env g).mpr hnil]
      simp
    unfold fsm.realStep fsm.next
    rw [if_neg hlen]

/-- The error `ErrNoTransition` at a concrete input: the server waits in "start"
while the buffer does not match the regex of its only action. -/
theorem Next_no_transition_witness :
    (gatedServer.Next deafEnv).2 = Ret.err Error.ErrNoTransition :=
  (Next_no_transition deafEnv gatedServer gatedServer (by decide)).1 (by decide) (by decide)

/-! ## C6 and C8: `Reset` -/

/-- C6: `Reset` leaves the instance id, the step counter and the PRNG as they
were, and also the document, host, party, connection and stream set. -/
theorem Reset_frame (env : Env) (f : fsm) :
    (f.Reset env).instanceID = f.instanceID ∧ (f.Reset env).stepN = f.stepN ∧
    (f.Reset env).rand = f.rand ∧ (f.Reset env).doc = f.doc ∧
    (f.Reset env).host = f.host ∧ (f.Reset env).party = f.party ∧
    (f.Reset env).conn = f.conn ∧ (f.Reset env).streamSet = f.streamSet :=
  ⟨rfl, rfl, rfl, rfl, rfl, rfl, rfl, rfl⟩

theorem closeCiphers_spec (env : Env) :
    ∀ (cs : List (cipherKey × Cipher)) (log : List Event),
      ∃ added, closeCiphers env cs log = log ++ added ∧
        ∀ kc ∈ cs, Event.cipherClose kc.2 ∈ added
  | [], log => ⟨[], by simp [closeCiphers], by simp⟩
  | (k, c) :: rest, log => by
    rw [closeCiphers]
    cases env.cipherClose c with
    | none =>
      obtain ⟨added, h1, h2⟩ := closeCiphers_spec env rest (log ++ [Event.cipherClose c])
      refine ⟨Event.cipherClose c :: added, by simp [h1], ?_⟩
      intro kc hkc
      rcases List.mem_cons.mp hkc with rfl | hin
      · simp
      · exact List.mem_cons_of_mem _ (h2 kc hin)
    | some e =>
      obtain ⟨added, h1, h2⟩ := closeCiphers_spec env rest
        (log ++ [Event.cipherClose c, Event.logError "cannot close cipher" e])
      refine ⟨Event.cipherClose c :: Event.logError "cannot close cipher" e :: added,
        by simp [h1], ?_⟩
      intro kc hkc
      rcases List.mem_cons.mp hkc with rfl | hin
      · simp
      · exact List.mem_cons_of_mem _ (List.mem_cons_of_mem _ (h2 kc hin))

theorem closeListeners_spec (env : Env) :
    ∀ (ls : List Listener) (log : List Event),
      ∃ added, closeListeners env ls log = log ++ added ∧
        ∀ ln ∈ ls, Event.listenerClose ln ∈ added
  | [], log => ⟨[], by simp [closeListeners], by simp⟩
  | l :: rest, log => by
    rw [closeListeners]
    cases env.listenerClose l with
    | none =>
      obtain ⟨added, h1, h2⟩ := closeListeners_spec env rest (log ++ [Event.listenerClose l])
      refine ⟨Event.listenerClose l :: added, by simp [h1], ?_⟩
      intro ln hln
      rcases List.mem_cons.mp hln with rfl | hin
      · simp
      · exact List.mem_cons_of_mem _ (h2 ln hin)
    | some e =>
      obtain ⟨added, h1, h2⟩ := closeListeners_spec env rest
        (log ++ [Event.listenerClose l, Event.logError "cannot close listener" e])
      refine ⟨Event.listenerClose l :: Event.logError "cannot close listener" e :: added,
        by simp [h1], ?_⟩
      intro ln hln
      rcases List.mem_cons.mp hln with rfl | hin
      · simp
      · exact List.mem_cons_of_mem _ (List.mem_cons_of_mem _ (h2 ln hin))

/-- C8: after `Reset` the state is "start", the variable map is empty (`Var` of
every key that is not reserved is nil), the cipher cache and the listener list
are empty, and the calls the FSM made during `Reset` include a `Close` on every
cipher and on every listener it held, whether or not any of these `Close` calls
returned an error. -/
theorem Reset_clears (env : Env) (f : fsm) :
    (f.Reset env).state = "start" ∧ (f.Reset env).vars = [] ∧
    (∀ k, k ≠ "model_instance_id" → k ≠ "model_uuid" → k ≠ "party" →
      (f.Reset env).Var k = Value.nil) ∧
    (f.Reset env).ciphers = [] ∧ (f.Reset env).listeners = [] ∧
    ∃ added, (f.Reset env).log = f.log ++ added ∧
      (∀ kc ∈ f.ciphers, Event.cipherClose kc.2 ∈ added) ∧
      (∀ ln ∈ f.listeners, Event.listenerClose ln ∈ added) := by
  refine ⟨rfl, rfl, ?_, rfl, rfl, ?_⟩
  · intro k h1 h2 h3
    simp [fsm.Var, fsm.Reset, h1, h2, h3]
  · obtain ⟨a1, h1, hc⟩ := closeCiphers_spec env f.ciphers f.log
    obtain ⟨a2, h2, hl⟩ := closeListeners_spec env f.listeners (closeCiphers env f.ciphers f.log)
    refine ⟨a1 ++ a2, ?_, ?_, ?_⟩
    · show closeListeners env f.listeners (closeCiphers env f.ciphers f.log) = _
      rw [h2, h1, List.append_assoc]
    · intro kc hkc
      exact List.mem_append_left _ (hc kc hkc)
    · intro ln hln
      exact List.mem_append_right _ (hl ln hln)

/-! ## C9: `NewFSM` -/

/-- What `NewFSM` does guarantee: the state is "start" and no step is counted;
for the first sender the instance id is the 31-bit draw, at least 0 and below
2^31, and the PRNG is seeded with it; for the other party the instance id is 0
and there is no PRNG. -/
theorem NewFSM_shape (env : Env) (draw : Nat) (doc : Document) (host party : String)
    (conn : BufferedConn) (streamSet : StreamSet) :
    (NewFSM env draw doc host party conn streamSet).state = "start" ∧
    (NewFSM env draw doc host party conn streamSet).stepN = 0 ∧
    (party = doc.FirstSender →
      0 ≤ (NewFSM env draw doc host party conn streamSet).instanceID ∧
      (NewFSM env draw doc host party conn streamSet).instanceID < 2 ^ 31 ∧
      (NewFSM env draw doc host party conn streamSet).rand =
        some { seed := (NewFSM env draw doc host party conn streamSet).instanceID, pos := 0 }) ∧
    (party ≠ doc.FirstSender →
      (NewFSM env draw doc host party conn streamSet).instanceID = 0 ∧
      (NewFSM env draw doc host party conn streamSet).rand = none) := by
  unfold NewFSM fsm.initFirstSender fsm.buildTransitions fsm.Reset
  by_cases hp : party = doc.FirstSender
  · simp only [hp, ne_eq, not_true_eq_false, if_false, true_implies, false_implies, and_true,
      true_and]
    refine ⟨Int.ofNat_nonneg _, ?_⟩
    have : draw % 2 ^ 31 < 2 ^ 31 := Nat.mod_lt _ (by norm_num)
    exact_mod_cast this
  · simp [hp]

/-- C9, the failing input: when `rand.Int31()` returns 0, `NewFSM` gives the
first sender the instance id 0, the value that `fsm.init` reads as "no instance
id yet", and a PRNG seeded with 0. -/
theorem NewFSM_first_sender_zero_id :
    zeroDrawClient.party = zeroDrawClient.doc.FirstSender ∧
    zeroDrawClient.state = "start" ∧ zeroDrawClient.stepN = 0 ∧
    zeroDrawClient.instanceID = 0 ∧
    zeroDrawClient.rand = some { seed := 0, pos := 0 } := by
  decide

/-! ## C10: error transitions come last -/

/-- C10: in every selection step `fsm.next` hands only non-error transitions of
the current state to `ChooseTransitions`, what it selects is a sublist of them,
and the error transitions of the state, all of them and in document order
whatever their probabilities, are tried only when every selected transition
has been evaluated to unmatched: if one of the selected transitions matches or
fails, the step ends there and no error transition is evaluated. -/
theorem next_error_transitions_last (env : Env) (f : fsm) :
    (∀ t ∈ f.candidates, t.IsErrorTransition = false) ∧
    (f.chosen env).Sublist f.candidates ∧
    (∀ t ∈ f.chosen env, t.IsErrorTransition = false) ∧
    f.errorTransitions =
      f.doc.Transitions.filter (fun t => t.Source == f.state && t.IsErrorTransition) ∧
    f.next env =
      (if (f.chosen env).length > 0 then
        match skipAll env (f.chosen env) (f.afterChoice env) with
        | some g => tryTransitions env f.errorTransitions g
        | none => tryTransitions env (f.chosen env) (f.afterChoice env)
      else (f.afterChoice env, Ret.panic "assertion failed")) := by
  have hcand : ∀ t ∈ f.candidates, t.IsErrorTransition = false := by
    intro t ht
    have := (List.mem_filter.mp ht).2
    simpa using this
  have hsub : (f.chosen env).Sublist f.candidates :=
    ChooseTransitions_sublist env.Int63 f.candidates f.rand
  refine ⟨hcand, hsub, fun t ht => hcand t (hsub.subset ht), ?_, ?_⟩
  · simp [fsm.errorTransitions, FilterErrorTransitions, FilterTransitionsBySource,
      List.filter_filter, Bool.and_comm]
  · unfold fsm.next fsm.attempts
    rw [tryTransitions_append]

/-! ## C7: the step counter -/

theorem Next_stepN (env : Env) (f : fsm) :
    (f.Next env).1.stepN = f.stepN + countOK [(f.Next env).2] := by
  have hi := init_stepN env f
  unfold fsm.Next
  rcases hinit : f.init env with ⟨g, r⟩
  rw [hinit] at hi
  dsimp only at hi
  rcases r with u | e | m
  · have hn := next_stepN env g
    dsimp only
    rcases hnext : g.next env with ⟨h, r2⟩
    rw [hnext] at hn
    dsimp only at hn
    rcases r2 with s | e2 | m2
    · dsimp only
      split
      · simp only [countOK]
        omega
      · simp only [countOK]
        omega
    · simp only [countOK]
      omega
    · simp only [countOK]
      omega
  · simp only [countOK]
    omega
  · simp only [countOK]
    omega

theorem countOK_cons (r : Ret Unit) (rest : List (Ret Unit)) :
    countOK (r :: rest) = countOK [r] + countOK rest := by
  rcases r with u | e | m <;> simp [countOK, Nat.add_comm]

theorem runNext_stepN :
    ∀ (envs : List Env) (f : fsm),
      (runNext envs f).1.stepN = f.stepN + countOK (runNext envs f).2
  | [], f => rfl
  | env :: rest, f => by
    rw [runNext]
    rcases hN : f.Next env with ⟨g, r⟩
    have h1 := Next_stepN env f
    rw [hN] at h1
    dsimp only at h1 ⊢
    rw [runNext_stepN rest g, countOK_cons r, h1]
    omega

/-- C7, refuted as stated: the server takes one step, is reset, and takes one
more step; one call of `Next` has succeeded since the reset, yet `stepN` is 2. -/
theorem stepN_not_since_reset :
    (oneStepServer.Next quietEnv).2 = Ret.val () ∧
    countOK (runNext [quietEnv] ((oneStepServer.Next quietEnv).1.Reset quietEnv)).2 = 1 ∧
    (runNext [quietEnv] ((oneStepServer.Next quietEnv).1.Reset quietEnv)).1.stepN = 2 := by
  decide

/-- C7, amended: `Reset` keeps the step counter, and after a `Reset` followed by
any sequence of `Next` calls `stepN` is its value before the `Reset` plus the
number of those calls that returned no error; counted from `NewFSM`, which
starts it at 0, it is the number of successful calls since construction. -/
theorem stepN_counts_from_construction (env : Env) (envs : List Env) (f : fsm)
    (draw : Nat) (doc : Document) (host party : String) (conn : BufferedConn)
    (streamSet : StreamSet) :
    (runNext envs (f.Reset env)).1.stepN =
      f.stepN + countOK (runNext envs (f.Reset env)).2 ∧
    (runNext envs (NewFSM env draw doc host party conn streamSet)).1.stepN =
      countOK (runNext envs (NewFSM env draw doc host party conn streamSet)).2 := by
  constructor
  · rw [runNext_stepN]
    rfl
  · rw [runNext_stepN]
    rw [(NewFSM_shape env draw doc host party conn streamSet).2.1, Nat.zero_add]

/-! ## C3: the late initialisation of the PRNG -/

theorem next_rand (env : Env) (f : fsm) (r : Rand) (h : f.rand = some r) :
    (f.next env).1.rand = some { r with pos := r.pos + 1 } := by
  have hc := (next_control env f).2.2.2.2.2.1
  rw [hc]
  simp [fsm.afterChoice, ChooseTransitions, h]

theorem initLoop_iff_replay (env : Env) :
    ∀ (n : Nat) (f g : fsm), initLoop env n f = (g, Ret.val ()) ↔ replay env n f = some g
  | 0, f, g => by simp [initLoop, replay]
  | n + 1, f, g => by
    rw [initLoop, replay]
    rcases f.next env with ⟨k, r⟩
    rcases r with s | e | m
    · dsimp only
      by_cases hs : s = ""
      · simp [hs]
      · simp only [hs, ne_eq, not_false_eq_true, if_true, if_false]
        exact initLoop_iff_replay env n _ g
    · simp
    · simp

theorem replay_rand (env : Env) :
    ∀ (n : Nat) (f g : fsm) (r : Rand), f.rand = some r → replay env n f = some g →
      g.rand = some { r with pos := r.pos + n }
  | 0, f, g, r, hr, h => by
    simp only [replay, Option.some.injEq] at h
    rw [← h, hr]
    rfl
  | n + 1, f, g, r, hr, h => by
    have hn := next_rand env f r hr
    rw [replay] at h
    rcases hnext : f.next env with ⟨k, res⟩
    rw [hnext] at h hn
    rcases res with s | e | m
    · dsimp only at h
      split at h
      · simp at h
      · have := replay_rand env n { k with state := s } g { r with pos := r.pos + 1 } hn h
        rw [this]
        simp [Nat.add_assoc, Nat.add_comm 1 n]
    · simp at h
    · simp at h

/-- C3: for an FSM with no PRNG and a nonzero instance id, the initialisation of
`Next` returns exactly when the replay does: the PRNG seeded with the instance
id, the state set to "start", and the selection step applied `stepN` times,
each step moving the state to the destination it selected.  It leaves `stepN`
as it was, the PRNG has then made `stepN` draws, and only then is the real step
attempted, on the FSM the replay left; when the replay breaks off, `Next` does
not succeed.  For an FSM whose PRNG exists or whose instance id is 0 the
initialisation returns the FSM unchanged. -/
theorem init_replays (env : Env) (f : fsm) :
    (f.rand = none → f.instanceID ≠ 0 →
      (∀ g, f.init env = (g, Ret.val ()) ↔
        replay env f.stepN
          { f with rand := some { seed := f.instanceID, pos := 0 }, state := "start" } = some g) ∧
      (f.init env).1.stepN = f.stepN ∧
      (∀ g, f.init env = (g, Ret.val ()) →
        g.rand = some { seed := f.instanceID, pos := f.stepN } ∧
        f.Next env = g.realStep env) ∧
      (replay env f.stepN
          { f with rand := some { seed := f.instanceID, pos := 0 }, state := "start" } = none →
        ∀ f', f.Next env ≠ (f', Ret.val ()))) ∧
    (f.rand.isSome ∨ f.instanceID = 0 →
      f.init env = (f, Ret.val ()) ∧ f.Next env = f.realStep env) := by
  constructor
  · intro hrand hid
    have hcond : ¬ (f.rand.isSome ∨ f.instanceID = 0) := by
      simp [hrand, hid]
    have hinit : f.init env = initLoop env f.stepN
        { f with rand := some { seed := f.instanceID, pos := 0 }, state := "start" } := by
      unfold fsm.init
      rw [if_neg hcond]
    refine ⟨?_, init_stepN env f, ?_, ?_⟩
    · intro g
      rw [hinit]
      exact initLoop_iff_replay env f.stepN _ g
    swap
    · intro hnone f' hN
      obtain ⟨g, hg⟩ := Next_val_init env f f' hN
      rw [hinit] at hg
      rw [(initLoop_iff_replay env f.stepN _ g).mp hg] at hnone
      exact Option.noConfusion hnone
    · intro g hg
      refine ⟨?_, Next_eq_realStep env f g hg⟩
      rw [hinit] at hg
      have hrep := (initLoop_iff_replay env f.stepN _ g).mp hg
      have := replay_rand env f.stepN _ g { seed := f.instanceID, pos := 0 } rfl hrep
      simpa using this
  · intro hcond
    have hinit : f.init env = (f, Ret.val ()) := by
      unfold fsm.init
      rw [if_pos hcond]
    exact ⟨hinit, Next_eq_realStep env f f hinit⟩

/-- C3, at a concrete input: the server that learned the instance id 200 after
one step replays that one step, ends in "a" with the PRNG one draw on, and its
`stepN` is still 1. -/
theorem init_replays_witness :
    (lateServer.init quietEnv).1.stepN = 1 ∧
    (lateServer.init quietEnv).1.state = "a" ∧
    (lateServer.init quietEnv).1.rand = some { seed := 200, pos := 1 } :=
  ⟨((init_replays quietEnv lateServer).1 (by decide) (by decide)).2.1,
    by decide,
    (((init_replays quietEnv lateServer).1 (by decide) (by decide)).2.2.1
      (lateServer.init quietEnv).1 (by decide)).1⟩

/-! ## C5: the replay retraces the unseeded path -/

theorem pickWeighted_single (d : Nat) (t : Transition) (hd : d < 2 ^ 53) :
    pickWeighted d (totalWeight [t]) 0 [t] = [t] := by
  rw [pickWeighted, if_pos]
  simp only [totalWeight, Nat.add_zero, Nat.zero_add]
  rw [Nat.mul_comm]
  exact Nat.mul_le_mul_left _ (Nat.le_of_lt hd)

theorem chosen_single (env : Env) (f : fsm) (t : Transition) (h : f.candidates = [t]) :
    f.chosen env = [t] := by
  unfold fsm.chosen ChooseTransitions
  rw [h]
  cases f.rand with
  | none => rfl
  | some r => exact pickWeighted_single _ t (draw53_lt env.Int63 r)

theorem attempts_single (env : Env) (f : fsm) (t : Transition)
    (h : FilterTransitionsBySource f.doc.Transitions f.state = [t])
    (hne : t.IsErrorTransition = false) : f.attempts env = [t] := by
  have hc : f.candidates = [t] := by
    unfold fsm.candidates FilterNonErrorTransitions
    rw [h]
    simp [hne]
  have he : f.errorTransitions = [] := by
    unfold fsm.errorTransitions FilterErrorTransitions
    rw [h]
    simp [hne]
  unfold fsm.attempts
  rw [chosen_single env f t hc, he]
  rfl

theorem next_single (env : Env) (f : fsm) (t : Transition)
    (h : FilterTransitionsBySource f.doc.Transitions f.state = [t])
    (hne : t.IsErrorTransition = false) :
    f.next env = tryTransitions env [t] (f.afterChoice env) := by
  have ha := attempts_single env f t h hne
  have hc : f.chosen env = [t] := by
    have : f.chosen env ++ f.errorTransitions = [t] := ha
    have he : f.errorTransitions = [] := by
      unfold fsm.errorTransitions FilterErrorTransitions
      rw [h]
      simp [hne]
    rw [he, List.append_nil] at this
    exact this
  unfold fsm.next
  rw [ha, hc]
  simp

theorem Next_unseeded_single (env : Env) (f g : fsm) (t : Transition)
    (hseed : f.rand.isSome ∨ f.instanceID = 0)
    (h : FilterTransitionsBySource f.doc.Transitions f.state = [t])
    (hne : t.IsErrorTransition = false) (hN : f.Next env = (g, Ret.val ())) :
    g.state = t.Destination ∧ t.Destination ≠ "" ∧ g.doc = f.doc ∧ g.party = f.party ∧
      g.stepN = f.stepN + 1 := by
  have hinit : f.init env = (f, Ret.val ()) := by
    unfold fsm.init
    rw [if_pos hseed]
  rw [Next_eq_realStep env f f hinit] at hN
  obtain ⟨k, s, hn, hs, hg⟩ := realStep_val env f g hN
  have hctl := next_control env f
  rw [hn] at hctl
  rw [next_single env f t h hne, tryTransitions] at hn
  rcases hev : (f.afterChoice env).evalTransition env t with ⟨k2, r⟩
  rw [hev] at hn
  rcases r with b | e | m
  · cases b
    · simp only [tryTransitions, Prod.mk.injEq, Ret.val.injEq] at hn
      exact absurd hn.2.symm hs
    · simp only [Prod.mk.injEq, Ret.val.injEq] at hn
      obtain ⟨c1, _, c3, _, c5, _, _⟩ := hctl
      rw [hg]
      refine ⟨hn.2.symm, ?_, c1, c3, ?_⟩
      · rw [hn.2]
        exact hs
      · show k.stepN + 1 = f.stepN + 1
        rw [c5]
        rfl
  · simp at hn
  · simp at hn

theorem dropLast_cons_of_ne_nil {α : Type} (a : α) (l : List α) (h : l ≠ []) :
    (a :: l).dropLast = a :: l.dropLast := by
  cases l with
  | nil => exact absurd rfl h
  | cons b rest => rfl

theorem unseededRun_path_ne_nil :
    ∀ (envs : List Env) (f h : fsm) (path : List String),
      unseededRun envs f = some (h, path) → path ≠ []
  | [], f, h, path, hrun => by
    simp only [unseededRun, Option.some.injEq, Prod.mk.injEq] at hrun
    rw [← hrun.2]
    simp
  | env :: rest, f, h, path, hrun => by
    rw [unseededRun] at hrun
    split at hrun
    · rcases hN : f.Next env with ⟨g, r⟩
      rw [hN] at hrun
      rcases r with u | e | m
      · dsimp only at hrun
        rcases hrest : unseededRun rest g with _ | ⟨h2, p2⟩
        · rw [hrest] at hrun
          simp at hrun
        · rw [hrest] at hrun
          simp only [Option.some.injEq, Prod.mk.injEq] at hrun
          rw [← hrun.2]
          simp
      · simp at hrun
      · simp at hrun
    · simp at hrun

/-- The heart of C5: an unseeded run and a replay that start in the same state of
the same document pass through the same states, as long as each state left has
one transition and that transition matches when the replay evaluates it. -/
theorem replay_follows_run (env' : Env) :
    ∀ (envs : List Env) (f fn r : fsm) (path : List String),
      unseededRun envs f = some (fn, path) →
      r.doc = f.doc → r.party = f.party → r.state = f.state →
      (∀ s ∈ path.dropLast, ∃ t, FilterTransitionsBySource f.doc.Transitions s = [t] ∧
        t.IsErrorTransition = false ∧
        (t.ActionBlock = "NULL" ∨ ∀ h : fsm, h.doc = f.doc → h.party = f.party →
          (h.evalTransition env' t).2 = Ret.val true)) →
      fn.doc = f.doc ∧ fn.party = f.party ∧ fn.stepN = f.stepN + envs.length ∧
      ∃ g, initLoop env' envs.length r = (g, Ret.val ()) ∧ g.state = fn.state ∧
        replayStates env' envs.length r = path
  | [], f, fn, r, path, hrun, _, _, hstate, _ => by
    simp only [unseededRun, Option.some.injEq, Prod.mk.injEq] at hrun
    obtain ⟨h1, h2⟩ := hrun
    subst h1
    refine ⟨rfl, rfl, rfl, r, rfl, hstate, ?_⟩
    rw [← h2, ← hstate]
    rfl
  | env :: rest, f, fn, r, path, hrun, hdoc, hparty, hstate, hpath => by
    rw [unseededRun] at hrun
    split at hrun
    swap
    · simp at hrun
    rename_i hunseeded
    rcases hN : f.Next env with ⟨f1, res⟩
    rw [hN] at hrun
    rcases res with u | e | m
    swap
    · simp at hrun
    swap
    · simp at hrun
    dsimp only at hrun
    rcases hrest : unseededRun rest f1 with _ | ⟨h2, p2⟩
    · rw [hrest] at hrun
      simp at hrun
    rw [hrest] at hrun
    simp only [Option.some.injEq, Prod.mk.injEq] at hrun
    obtain ⟨hfn, hp⟩ := hrun
    subst hfn
    have hp2 : p2 ≠ [] := unseededRun_path_ne_nil rest f1 h2 p2 hrest
    have hdrop : path.dropLast = f.state :: p2.dropLast := by
      rw [← hp]
      exact dropLast_cons_of_ne_nil _ _ hp2
    obtain ⟨t, ht, hne, hmatch⟩ := hpath f.state (by rw [hdrop]; simp)
    obtain ⟨hs1, hdest, hd1, hpa1, hst1⟩ :=
      Next_unseeded_single env f f1 t (Or.inr hunseeded.2) ht hne hN
    -- the replayed step
    have hr : FilterTransitionsBySource r.doc.Transitions r.state = [t] := by
      rw [hdoc, hstate]
      exact ht
    have hev : ((r.afterChoice env').evalTransition env' t).2 = Ret.val true := by
      rcases hmatch with hnull | hall
      · unfold fsm.evalTransition
        rw [if_pos hnull]
      · exact hall _ hdoc hparty
    have hctl := evalTransition_control env' (r.afterChoice env') t
    rcases hk : (r.afterChoice env').evalTransition env' t with ⟨k, rk⟩
    rw [hk] at hev hctl
    dsimp only at hev hctl
    subst hev
    have hnext : r.next env' = (k, Ret.val t.Destination) := by
      rw [next_single env' r t hr hne, tryTransitions, hk]
    obtain ⟨c1, _, c3, _, _, _, _⟩ := hctl
    have hpath' : ∀ s ∈ p2.dropLast, ∃ t, FilterTransitionsBySource f1.doc.Transitions s = [t] ∧
        t.IsErrorTransition = false ∧
        (t.ActionBlock = "NULL" ∨ ∀ h : fsm, h.doc = f1.doc → h.party = f1.party →
          (h.evalTransition env' t).2 = Ret.val true) := by
      intro s hs
      rw [hd1, hpa1]
      exact hpath s (by rw [hdrop]; exact List.mem_cons_of_mem _ hs)
    obtain ⟨i1, i2, i3, g, i4, i5, i6⟩ :=
      replay_follows_run env' rest f1 h2 { k with state := t.Destination } p2 hrest
        (by show k.doc = f1.doc; rw [c1, hd1]; exact hdoc)
        (by show k.party = f1.party; rw [c3, hpa1]; exact hparty)
        (by show t.Destination = f1.state; exact hs1.symm) hpath'
    refine ⟨i1.trans hd1, i2.trans hpa1, ?_, g, ?_, i5, ?_⟩
    · rw [i3, hst1, List.length_cons]
      omega
    · rw [List.length_cons, initLoop, hnext]
      dsimp only
      rw [if_pos hdest]
      exact i4
    · rw [List.length_cons, replayStates, hnext]
      dsimp only
      rw [if_neg hdest, i6, hstate, hp]

/-- C5, the failing input: the server reaches "a" by one successful unseeded
`Next` from "start", whose only transition reads a greeting; after the instance
id is learned the replay runs the action of that transition again, on a buffer
that no longer holds the greeting, finds no match and the assertion of
`fsm.init` panics, so the replay does not end in "a", and neither does the call
of `Next` that started it return. -/
theorem replay_can_diverge :
    greetServer.state = "start" ∧ greetServer.rand = none ∧ greetServer.instanceID = 0 ∧
    (FilterTransitionsBySource greetDoc.Transitions "start").length = 1 ∧
    (greetServer.Next getsEnv).2 = Ret.val () ∧
    greetedServer.state = "a" ∧ greetedServer.stepN = 1 ∧ greetedServer.rand = none ∧
    (greetedServer.init getsEnv).2 = Ret.panic "assertion failed" ∧
    (greetedServer.init getsEnv).1.state ≠ "a" ∧
    (greetedServer.Next getsEnv).2 = Ret.panic "assertion failed" := by
  decide

/-- Where the replay does retrace the path: let an FSM reach the state `s` by
`stepN` successful unseeded `Next` calls from "start", and let every state it
left on that path have a single transition, not an error transition, whose
action block is "NULL" or evaluates to matched on every FSM of that document
and party.  Then for the FSM in that state, once it holds a nonzero instance
id, the replay of `fsm.init` returns, ends in `s` and passes through the states
of the path, in order. -/
theorem replay_retraces_path (env' : Env) (envs : List Env) (f0 fn f : fsm)
    (path : List String)
    (hstart : f0.state = "start") (hzero : f0.stepN = 0)
    (hrun : unseededRun envs f0 = some (fn, path))
    (hpath : ∀ s ∈ path.dropLast, ∃ t, FilterTransitionsBySource f0.doc.Transitions s = [t] ∧
      t.IsErrorTransition = false ∧
      (t.ActionBlock = "NULL" ∨ ∀ h : fsm, h.doc = f0.doc → h.party = f0.party →
        (h.evalTransition env' t).2 = Ret.val true))
    (hdoc : f.doc = fn.doc) (hparty : f.party = fn.party) (hstate : f.state = fn.state)
    (hstep : f.stepN = fn.stepN) (hrand : f.rand = none) (hid : f.instanceID ≠ 0) :
    ∃ g, f.init env' = (g, Ret.val ()) ∧ g.state = f.state ∧
      replayStates env' f.stepN
        { f with rand := some { seed := f.instanceID, pos := 0 }, state := "start" } = path := by
  have hcond : ¬ (f.rand.isSome ∨ f.instanceID = 0) := by
    simp [hrand, hid]
  have hfacts := replay_follows_run env' envs f0 fn
    { f0 with rand := some { seed := f.instanceID, pos := 0 } } path hrun rfl rfl rfl hpath
  obtain ⟨i1, i2, i3, _⟩ := hfacts
  obtain ⟨_, _, _, g, i4, i5, i6⟩ := replay_follows_run env' envs f0 fn
    { f with rand := some { seed := f.instanceID, pos := 0 }, state := "start" } path hrun
    (by show f.doc = f0.doc; rw [hdoc, i1])
    (by show f.party = f0.party; rw [hparty, i2])
    (by show "start" = f0.state; exact hstart.symm) hpath
  have hlen : f.stepN = envs.length := by
    rw [hstep, i3, hzero, Nat.zero_add]
  rw [← hlen] at i4 i6
  refine ⟨g, ?_, i5.trans hstate.symm, i6⟩
  unfold fsm.init
  rw [if_neg hcond]
  exact i4

/-- The replay at a concrete input: the server on `start → a → dead`, whose
transitions have no action block, took one unseeded step, learned the instance
id 200, and its replay ends in "a" again. -/
theorem replay_retraces_path_witness :
    ∃ g, lateServer.init quietEnv = (g, Ret.val ()) ∧ g.state = lateServer.state ∧
      replayStates quietEnv lateServer.stepN
        { lateServer with rand := some { seed := lateServer.instanceID, pos := 0 },
                          state := "start" } = ["start", "a"] :=
  replay_retraces_path quietEnv [quietEnv] twoStepServer (twoStepServer.Next quietEnv).1
    lateServer ["start", "a"] (by decide) (by decide) (by decide)
    (by
      intro s hs
      have hs' : s = "start" := by simpa using hs
      subst hs'
      exact ⟨_, rfl, rfl, Or.inl rfl⟩)
    (by decide) (by decide) (by decide) (by decide) (by decide) (by decide)

/-! ## C4: the same seed and the same outcomes give the same transitions -/

theorem tryTransitions_congr (env1 env2 : Env) :
    ∀ (ts : List Transition) (f g : fsm), observed env1 ts f = observed env2 ts g →
      (tryTransitions env1 ts f).2 = (tryTransitions env2 ts g).2
  | [], _, _, _ => rfl
  | t :: rest, f, g, h => by
    rw [observed, observed] at h
    rw [tryTransitions, tryTransitions]
    rcases hf : f.evalTransition env1 t with ⟨f1, r1⟩
    rcases hg : g.evalTransition env2 t with ⟨g1, r2⟩
    rw [hf, hg] at h
    rcases r1 with b1 | e1 | m1 <;> rcases r2 with b2 | e2 | m2
    · cases b1 <;> cases b2
      · simp only [List.cons.injEq, true_and] at h
        exact tryTransitions_congr env1 env2 rest f1 g1 h
      · simp at h
      · simp at h
      · rfl
    · cases b1 <;> simp at h
    · cases b1 <;> simp at h
    · cases b2 <;> simp at h
    · simp only [List.cons.injEq, Ret.err.injEq, and_true] at h
      rw [h]
    · simp at h
    · cases b2 <;> simp at h
    · simp at h
    · simp only [List.cons.injEq, Ret.panic.injEq, and_true] at h
      rw [h]

theorem chosen_congr (env1 env2 : Env) (f g : fsm) (hprng : env1.Int63 = env2.Int63)
    (hdoc : f.doc = g.doc) (hstate : f.state = g.state) (hrand : f.rand = g.rand) :
    f.chosen env1 = g.chosen env2 ∧ f.attempts env1 = g.attempts env2 ∧
      (f.afterChoice env1).rand = (g.afterChoice env2).rand := by
  have hc : f.candidates = g.candidates := by
    unfold fsm.candidates
    rw [hdoc, hstate]
  have he : f.errorTransitions = g.errorTransitions := by
    unfold fsm.errorTransitions
    rw [hdoc, hstate]
  have h1 : f.chosen env1 = g.chosen env2 := by
    unfold fsm.chosen
    rw [hc, hrand, hprng]
  refine ⟨h1, ?_, ?_⟩
  · unfold fsm.attempts
    rw [h1, he]
  · unfold fsm.afterChoice
    simp only
    rw [hc, hrand, hprng]

theorem next_sync (env1 env2 : Env) (f g : fsm) (hprng : env1.Int63 = env2.Int63)
    (hs : Sync f g) :
    Sync (f.next env1).1 (g.next env2).1 ∧
      (f.nextObserved env1 = g.nextObserved env2 → (f.next env1).2 = (g.next env2).2) := by
  obtain ⟨hdoc, hstate, hstep, hrand⟩ := hs
  obtain ⟨hch, hat, hra⟩ := chosen_congr env1 env2 f g hprng hdoc hstate hrand
  constructor
  · obtain ⟨a1, _, _, a4, a5, a6, _⟩ := next_control env1 f
    obtain ⟨b1, _, _, b4, b5, b6, _⟩ := next_control env2 g
    refine ⟨?_, ?_, ?_, ?_⟩
    · rw [a1, b1]
      exact hdoc
    · rw [a4, b4]
      exact hstate
    · rw [a5, b5]
      exact hstep
    · rw [a6, b6]
      exact hra
  · intro hobs
    unfold fsm.nextObserved at hobs
    unfold fsm.next
    rw [← hch] at hobs ⊢
    by_cases hlen : (f.chosen env1).length > 0
    · rw [if_pos hlen, if_pos hlen] at hobs
      rw [if_pos hlen, if_pos hlen]
      rw [← hat] at hobs ⊢
      exact tryTransitions_congr env1 env2 _ _ _ hobs
    · rw [if_neg hlen, if_neg hlen]

theorem Sync.with_state {f g : fsm} (hs : Sync f g) (s : String) :
    Sync { f with state := s } { g with state := s } :=
  ⟨hs.1, rfl, hs.2.2.1, hs.2.2.2⟩

theorem initLoop_sync (env1 env2 : Env) (hprng : env1.Int63 = env2.Int63) :
    ∀ (n : Nat) (f g : fsm), Sync f g →
      initLoopObserved env1 n f = initLoopObserved env2 n g →
      Sync (initLoop env1 n f).1 (initLoop env2 n g).1 ∧
        (initLoop env1 n f).2 = (initLoop env2 n g).2
  | 0, f, g, hs, _ => ⟨hs, rfl⟩
  | n + 1, f, g, hs, hobs => by
    rw [initLoopObserved, initLoopObserved] at hobs
    simp only [List.cons.injEq] at hobs
    obtain ⟨hhead, htail⟩ := hobs
    obtain ⟨hsn, hres⟩ := next_sync env1 env2 f g hprng hs
    have hr := hres hhead
    rw [initLoop, initLoop]
    rcases hf : f.next env1 with ⟨f1, r1⟩
    rcases hg : g.next env2 with ⟨g1, r2⟩
    rw [hf, hg] at hsn hr
    rw [hf, hg] at htail
    dsimp only at hsn hr htail
    subst hr
    rcases r1 with s | e | m
    · dsimp only at htail ⊢
      by_cases hne : s ≠ ""
      · rw [if_pos hne, if_pos hne] at htail
        rw [if_pos hne, if_pos hne]
        exact initLoop_sync env1 env2 hprng n _ _ (hsn.with_state s) htail
      · rw [if_neg hne, if_neg hne]
        exact ⟨hsn.with_state s, rfl⟩
    · exact ⟨hsn.with_state "", rfl⟩
    · exact ⟨hsn, rfl⟩

theorem init_sync (env1 env2 : Env) (hprng : env1.Int63 = env2.Int63) (f g : fsm)
    (hs : Sync f g) (hobs : f.NextObserved env1 = g.NextObserved env2) :
    Sync (f.init env1).1 (g.init env2).1 ∧ (f.init env1).2 = (g.init env2).2 := by
  have hid : f.instanceID = g.instanceID := congrArg Observation.instanceID hobs
  have hrep := congrArg Observation.replayed hobs
  simp only [fsm.NextObserved] at hrep
  unfold fsm.init
  rw [← hs.2.2.2, ← hid, ← hs.2.2.1] at hrep ⊢
  by_cases hc : f.rand.isSome ∨ f.instanceID = 0
  · rw [if_pos hc, if_pos hc]
    exact ⟨hs, rfl⟩
  · rw [if_neg hc, if_neg hc] at hrep
    rw [if_neg hc, if_neg hc]
    exact initLoop_sync env1 env2 hprng f.stepN _ _ ⟨hs.1, rfl, rfl, rfl⟩ hrep

theorem Next_sync (env1 env2 : Env) (hprng : env1.Int63 = env2.Int63) (f g : fsm)
    (hs : Sync f g) (hobs : f.NextObserved env1 = g.NextObserved env2) :
    Sync (f.Next env1).1 (g.Next env2).1 ∧ f.NextVisit env1 = g.NextVisit env2 := by
  obtain ⟨hsi, hri⟩ := init_sync env1 env2 hprng f g hs hobs
  have hreal := congrArg Observation.real hobs
  simp only [fsm.NextObserved] at hreal
  have hkey : Sync (f.Next env1).1 (g.Next env2).1 ∧ (f.Next env1).2 = (g.Next env2).2 ∧
      (match f.init env1 with
        | (k, Ret.val _) => k.chosen env1
        | _ => []) =
      (match g.init env2 with
        | (k, Ret.val _) => k.chosen env2
        | _ => []) := by
    unfold fsm.Next
    rcases hf : f.init env1 with ⟨f1, r1⟩
    rcases hg : g.init env2 with ⟨g1, r2⟩
    rw [hf, hg] at hsi hri hreal
    dsimp only at hsi hri hreal
    subst hri
    rcases r1 with u | e | m
    · dsimp only at hreal ⊢
      obtain ⟨hsn, hres⟩ := next_sync env1 env2 f1 g1 hprng hsi
      have hr := hres hreal
      have hch := (chosen_congr env1 env2 f1 g1 hprng hsi.1 hsi.2.1 hsi.2.2.2).1
      rcases hf2 : f1.next env1 with ⟨f2, q1⟩
      rcases hg2 : g1.next env2 with ⟨g2, q2⟩
      rw [hf2, hg2] at hsn hr
      dsimp only at hsn hr
      subst hr
      rcases q1 with s | e | m
      · dsimp only
        by_cases hempty : s = ""
        · rw [if_pos hempty, if_pos hempty]
          exact ⟨hsn, rfl, hch⟩
        · rw [if_neg hempty, if_neg hempty]
          exact ⟨⟨hsn.1, rfl, congrArg (· + 1) hsn.2.2.1, hsn.2.2.2⟩, rfl, hch⟩
      · exact ⟨hsn, rfl, hch⟩
      · exact ⟨hsn, rfl, hch⟩
    · exact ⟨hsi, rfl, rfl⟩
    · exact ⟨hsi, rfl, rfl⟩
  obtain ⟨k1, k2, k3⟩ := hkey
  refine ⟨k1, ?_⟩
  unfold fsm.NextVisit
  rw [k2, k3, k1.2.1, k1.2.2.1, k1.2.2.2]

theorem runVisits_sync :
    ∀ (envs : List (Env × Env)) (f g : fsm), (∀ p ∈ envs, p.1.Int63 = p.2.Int63) →
      Sync f g →
      runObserved (envs.map Prod.fst) f = runObserved (envs.map Prod.snd) g →
      runVisits (envs.map Prod.fst) f = runVisits (envs.map Prod.snd) g
  | [], _, _, _, _, _ => rfl
  | p :: rest, f, g, hprng, hs, hobs => by
    simp only [List.map_cons, runObserved, List.cons.injEq] at hobs
    obtain ⟨hhead, htail⟩ := hobs
    obtain ⟨hsn, hv⟩ := Next_sync p.1 p.2 (hprng p (List.mem_cons_self _ _)) f g hs hhead
    simp only [List.map_cons, runVisits, List.cons.injEq]
    exact ⟨hv, runVisits_sync rest _ _
      (fun q hq => hprng q (List.mem_cons_of_mem _ hq)) hsn htail⟩

theorem primed_cases (f : fsm) :
    f.primed = f ∨
      (f.rand = none ∧ f.instanceID ≠ 0 ∧ f.stepN = 0 ∧ f.state = "start" ∧
        f.primed = { f with rand := some { seed := f.instanceID, pos := 0 } }) := by
  unfold fsm.primed fsm.pendingRand
  cases hr : f.rand with
  | some r =>
    left
    simp only
    rw [← hr]
  | none =>
    simp only
    by_cases hc : f.instanceID ≠ 0 ∧ f.stepN = 0 ∧ f.state = "start"
    · right
      rw [if_pos hc]
      exact ⟨trivial, hc.1, hc.2.1, hc.2.2, rfl⟩
    · left
      rw [if_neg hc, ← hr]

theorem primed_init (env : Env) (f : fsm) : f.primed.init env = f.init env := by
  rcases primed_cases f with h | ⟨hr, hid, h0, hstart, hp⟩
  · rw [h]
  · have hc : ¬ (f.rand.isSome ∨ f.instanceID = 0) := by
      simp [hr, hid]
    have hinit : f.init env = (f.primed, Ret.val ()) := by
      unfold fsm.init
      rw [if_neg hc, hp, h0]
      rw [initLoop]
      cases f
      simp only at hstart
      subst hstart
      rfl
    rw [hinit]
    unfold fsm.init
    rw [if_pos]
    left
    rw [hp]
    rfl

theorem primed_Next (env : Env) (f : fsm) : f.primed.Next env = f.Next env := by
  unfold fsm.Next
  rw [primed_init]

theorem primed_NextVisit (env : Env) (f : fsm) : f.primed.NextVisit env = f.NextVisit env := by
  unfold fsm.NextVisit
  rw [primed_init, primed_Next]

theorem primed_NextObserved (env : Env) (f : fsm) :
    f.primed.NextObserved env = f.NextObserved env := by
  unfold fsm.NextObserved
  rw [primed_init]
  rcases primed_cases f with h | ⟨hr, hid, h0, hstart, hp⟩
  · rw [h]
  · have hc : ¬ (f.rand.isSome ∨ f.instanceID = 0) := by
      simp [hr, hid]
    have hc' : f.primed.rand.isSome ∨ f.primed.instanceID = 0 := by
      left
      rw [hp]
      rfl
    rw [if_pos hc', if_neg hc, h0]
    rfl

theorem primed_run (env : Env) (rest : List Env) (f : fsm) :
    runObserved (env :: rest) f.primed = runObserved (env :: rest) f ∧
      runVisits (env :: rest) f.primed = runVisits (env :: rest) f := by
  simp only [runObserved, runVisits, primed_NextObserved, primed_NextVisit, primed_Next,
    and_self]

/-- C4: take two FSMs on the same document, in the same state (in particular
"start") with the same step count and the same PRNG stream ahead of them: the
same PRNG state, or one of them seeded by `NewFSM` and the other, still in
"start", about to be seeded from the same instance id.  Let each make a sequence
of `Next` calls, each side with its own plugins, connection and regex engine
but the same generator.  If call after call the two hold the same instance id
and observe the same action outcomes, then call after call they select the same
transitions, return the same result and are left in the same state, with the
same step count and PRNG state. -/
theorem Next_lockstep (envs : List (Env × Env)) (f g : fsm)
    (hprng : ∀ p ∈ envs, p.1.Int63 = p.2.Int63)
    (hdoc : f.doc = g.doc) (hstate : f.state = g.state) (hstep : f.stepN = g.stepN)
    (hrand : f.pendingRand = g.pendingRand)
    (hobs : runObserved (envs.map Prod.fst) f = runObserved (envs.map Prod.snd) g) :
    runVisits (envs.map Prod.fst) f = runVisits (envs.map Prod.snd) g := by
  cases envs with
  | nil => rfl
  | cons p rest =>
    have hsync : Sync f.primed g.primed := ⟨hdoc, hstate, hstep, hrand⟩
    simp only [List.map_cons] at hobs ⊢
    rw [← (primed_run p.1 _ f).1, ← (primed_run p.2 _ g).1] at hobs
    rw [← (primed_run p.1 _ f).2, ← (primed_run p.2 _ g).2]
    have := runVisits_sync (p :: rest) f.primed g.primed hprng hsync
    simp only [List.map_cons] at this
    exact this hobs

/-- C4, at a concrete input: a client seeded by `NewFSM` with the draw 200 and a
server that holds the instance id 200 and has no PRNG yet, each with its own
collaborators, visit the same states in two calls of `Next`. -/
theorem Next_lockstep_witness :
    runVisits [quietEnv, quietEnv] twoStepClient = runVisits [deafEnv, deafEnv] toldServer :=
  Next_lockstep [(quietEnv, deafEnv), (quietEnv, deafEnv)] twoStepClient toldServer
    (by
      intro p hp
      simp only [List.mem_cons, List.mem_singleton, List.not_mem_nil, or_false, or_self] at hp
      subst hp
      rfl)
    (by decide) (by decide) (by decide) (by decide) (by decide)

/-! ## C11: action-block evaluation -/

theorem evalActionsLoop_cons (env : Env) (a : Action) (rest : List Action) (f : fsm) :
    evalActionsLoop env (a :: rest) f =
      match f.tryAction env a with
      | (g, Ret.val false) => evalActionsLoop env rest g
      | (g, r) => (g, r) := by
  rw [evalActionsLoop]
  unfold fsm.tryAction
  rcases f.regexGate env a with ⟨g, r⟩
  rcases r with b | e | m
  · cases b
    · rfl
    · dsimp only
      rcases g.evalAction env a with ⟨h, r2⟩
      rcases r2 with b2 | e2 | m2
      · cases b2 <;> rfl
      · rfl
      · rfl
  · rfl
  · rfl

theorem evalActionsLoop_of_passAll (env : Env) :
    ∀ (actions : List Action) (f g : fsm), passAll env actions f = some g →
      evalActionsLoop env actions f = (g, Ret.val false)
  | [], f, g, h => by
    simp only [passAll, Option.some.injEq] at h
    simp [evalActionsLoop, h]
  | a :: rest, f, g, h => by
    rw [passAll] at h
    rw [evalActionsLoop_cons]
    rcases hta : f.tryAction env a with ⟨k, r⟩
    rw [hta] at h
    rcases r with b | e | m
    · cases b
      · exact evalActionsLoop_of_passAll env rest k g h
      · simp at h
    · simp at h
    · simp at h

theorem passAll_of_evalActionsLoop (env : Env) :
    ∀ (actions : List Action) (f g : fsm), evalActionsLoop env actions f = (g, Ret.val false) →
      passAll env actions f = some g
  | [], f, g, h => by
    simp only [evalActionsLoop, Prod.mk.injEq, and_true] at h
    simp [passAll, h]
  | a :: rest, f, g, h => by
    rw [evalActionsLoop_cons] at h
    rw [passAll]
    rcases hta : f.tryAction env a with ⟨k, r⟩
    rw [hta] at h
    rcases r with b | e | m
    · cases b
      · exact passAll_of_evalActionsLoop env rest k g h
      · simp at h
    · simp at h
    · simp at h

theorem evalActionsLoop_stop (env : Env) (a : Action) (post : List Action) (r : Ret Bool)
    (hr : r ≠ Ret.val false) :
    ∀ (pre : List Action) (f g h : fsm), passAll env pre f = some g →
      g.tryAction env a = (h, r) → evalActionsLoop env (pre ++ a :: post) f = (h, r)
  | [], f, g, h, hp, ha => by
    simp only [passAll, Option.some.injEq] at hp
    subst hp
    rw [List.nil_append, evalActionsLoop_cons, ha]
    rcases r with b | e | m
    · cases b
      · exact absurd rfl hr
      · rfl
    · rfl
    · rfl
  | p :: pre, f, g, h, hp, ha => by
    rw [passAll] at hp
    rw [List.cons_append, evalActionsLoop_cons]
    rcases hta : f.tryAction env p with ⟨k, r2⟩
    rw [hta] at hp
    rcases r2 with b | e | m
    · cases b
      · exact evalActionsLoop_stop env a post r hr pre k g h hp ha
      · simp at hp
    · simp at hp
    · simp at hp

theorem evalActionsLoop_true (env : Env) :
    ∀ (actions : List Action) (f h : fsm), evalActionsLoop env actions f = (h, Ret.val true) →
      ∃ (pre : List Action) (a : Action) (post : List Action) (g : fsm),
        actions = pre ++ a :: post ∧ passAll env pre f = some g ∧
          g.tryAction env a = (h, Ret.val true)
  | [], f, h, hrun => by
    simp [evalActionsLoop] at hrun
  | a :: rest, f, h, hrun => by
    rw [evalActionsLoop_cons] at hrun
    rcases hta : f.tryAction env a with ⟨k, r⟩
    rw [hta] at hrun
    rcases r with b | e | m
    · cases b
      · obtain ⟨pre, a', post, g, h1, h2, h3⟩ := evalActionsLoop_true env rest k h hrun
        refine ⟨a :: pre, a', post, g, by rw [h1, List.cons_append], ?_, h3⟩
        rw [passAll, hta]
        exact h2
      · simp only [Prod.mk.injEq, and_true] at hrun
        refine ⟨[], a, rest, f, rfl, rfl, ?_⟩
        rw [hta, hrun]
    · simp at hrun
    · simp at hrun

theorem evalActions_nonempty (env : Env) (f : fsm) (actions : List Action)
    (h : actions ≠ []) : f.evalActions env actions = evalActionsLoop env actions f := by
  unfold fsm.evalActions
  rw [if_neg]
  intro hlen
  exact h (List.length_eq_zero.mp hlen)

/-- C11: `evalActions` returns matched on an empty list.  On a non-empty list it
takes the actions in order: an action with a non-empty regex that compiles and
does not match the bytes `Peek(-1)` returned is skipped, the FSM being left as
`Peek` left it, with no plugin run; an action with an empty regex, or a regex
that matches, is dispatched to its plugin.  The result is matched exactly when
some action's plugin returned true after every action before it was skipped or
returned false, and then the FSM is the one that plugin left, whatever actions
follow; it is unmatched exactly when every action was skipped or returned
false. -/
theorem evalActions_in_order (env : Env) (f : fsm) :
    f.evalActions env [] = (f, Ret.val true) ∧
    (∀ (a : Action) (c : BufferedConn) (buf : List Nat), a.Regex ≠ "" →
      env.regexpCompile a.Regex = none → env.Peek f.conn = (c, Except.ok buf) →
      (env.regexpMatch a.Regex buf = false →
        f.tryAction env a = ({ f with conn := c }, Ret.val false)) ∧
      (env.regexpMatch a.Regex buf = true →
        f.tryAction env a = ({ f with conn := c } : fsm).evalAction env a)) ∧
    (∀ a : Action, a.Regex = "" → f.tryAction env a = f.evalAction env a) ∧
    (∀ (actions : List Action) (h : fsm), actions ≠ [] →
      (f.evalActions env actions = (h, Ret.val true) ↔
        ∃ (pre : List Action) (a : Action) (post : List Action) (g : fsm),
          actions = pre ++ a :: post ∧ passAll env pre f = some g ∧
            g.tryAction env a = (h, Ret.val true)) ∧
      (f.evalActions env actions = (h, Ret.val false) ↔ passAll env actions f = some h)) := by
  refine ⟨rfl, ?_, ?_, ?_⟩
  · intro a c buf hre hcomp hpeek
    constructor
    · intro hm
      unfold fsm.tryAction fsm.regexGate
      rw [if_pos hre, hcomp]
      simp only [hpeek, hm]
    · intro hm
      unfold fsm.tryAction fsm.regexGate
      rw [if_pos hre, hcomp]
      simp only [hpeek, hm]
  · intro a hre
    unfold fsm.tryAction fsm.regexGate
    rw [if_neg (by simp [hre])]
  · intro actions h hne
    rw [evalActions_nonempty env f actions hne]
    constructor
    · constructor
      · exact evalActionsLoop_true env actions f h
      · rintro ⟨pre, a, post, g, rfl, hp, ha⟩
        exact evalActionsLoop_stop env a post (Ret.val true) (by simp) pre f g h hp ha
    · exact ⟨passAll_of_evalActionsLoop env actions f h,
        evalActionsLoop_of_passAll env actions f h⟩

/-- C11, at a concrete input: of four actions the first is skipped by its regex,
the second is dispatched and returns false, the third is dispatched and returns
true, and the block is matched although the fourth has no plugin. -/
theorem evalActions_in_order_witness :
    oneStepServer.evalActions mixedEnv mixedActions = (oneStepServer, Ret.val true) :=
  ((evalActions_in_order mixedEnv oneStepServer).2.2.2 mixedActions oneStepServer
    (by decide)).1.mpr
    ⟨[{ Party := "server", Module := "fte", Method := "recv", Regex := "^x", Args := [] },
      { Party := "server", Module := "io", Method := "gets", Regex := "", Args := [] }],
     { Party := "server", Module := "io", Method := "puts", Regex := "", Args := [] },
     [{ Party := "server", Module := "no", Method := "plugin", Regex := "", Args := [] }],
     oneStepServer, by decide, by decide, by decide⟩

/-! ## C12: fatal errors -/

theorem tryTransitions_err (env : Env) (t : Transition) (post : List Transition) (e : Error) :
    ∀ (pre : List Transition) (f g h : fsm), skipAll env pre f = some g →
      g.evalTransition env t = (h, Ret.err e) →
      tryTransitions env (pre ++ t :: post) f = (h, Ret.err e)
  | [], f, g, h, hp, ht => by
    simp only [skipAll, Option.some.injEq] at hp
    subst hp
    rw [List.nil_append, tryTransitions, ht]
  | p :: pre, f, g, h, hp, ht => by
    rw [skipAll] at hp
    rw [List.cons_append, tryTransitions]
    rcases hev : f.evalTransition env p with ⟨k, r⟩
    rw [hev] at hp
    rcases r with b | e2 | m
    · cases b
      · exact tryTransitions_err env t post e pre k g h hp ht
      · simp at hp
    · simp at hp
    · simp at hp

theorem next_err (env : Env) (g g1 h : fsm) (pre post : List Transition) (t : Transition)
    (e : Error) (hsel : g.chosen env ≠ []) (hatt : g.attempts env = pre ++ t :: post)
    (hskip : skipAll env pre (g.afterChoice env) = some g1)
    (hev : g1.evalTransition env t = (h, Ret.err e)) : g.next env = (h, Ret.err e) := by
  unfold fsm.next
  rw [if_pos (List.length_pos.mpr hsel), hatt]
  exact tryTransitions_err env t post e pre _ g1 h hskip hev

theorem initLoop_err (env : Env) (g h : fsm) (e : Error) (hn : g.next env = (h, Ret.err e)) :
    ∀ (k n : Nat) (f0 : fsm), replay env k f0 = some g → k < n →
      initLoop env n f0 = ({ h with state := "" }, Ret.err e)
  | 0, n, f0, hrep, hk => by
    simp only [replay, Option.some.injEq] at hrep
    subst hrep
    obtain ⟨m, rfl⟩ : ∃ m, n = m + 1 := ⟨n - 1, by omega⟩
    rw [initLoop, hn]
  | k + 1, n, f0, hrep, hk => by
    obtain ⟨m, rfl⟩ : ∃ m, n = m + 1 := ⟨n - 1, by omega⟩
    rw [replay] at hrep
    rw [initLoop]
    rcases hnext : f0.next env with ⟨g', r⟩
    rw [hnext] at hrep
    rcases r with s | e2 | m2
    · dsimp only at hrep ⊢
      by_cases hs : s = ""
      · rw [if_pos hs] at hrep
        simp at hrep
      · rw [if_neg hs] at hrep
        rw [if_pos hs]
        exact initLoop_err env g h e hn k m _ hrep (by omega)
    · simp at hrep
    · simp at hrep

theorem fatalStep_of_next_err (env : Env) (g h : fsm) (e : Error)
    (hne : e ≠ Error.ErrNoTransition) (hn : g.next env = (h, Ret.err e)) :
    FatalStep env g h e := by
  refine ⟨hne, hn, ?_, ?_⟩
  · intro f hinit
    unfold fsm.Next
    rw [hinit]
    dsimp only
    rw [hn]
  · intro f k hrand hid hk hrep
    have hcond : ¬ (f.rand.isSome ∨ f.instanceID = 0) := by
      simp [hrand, hid]
    have hinit : f.init env = ({ h with state := "" }, Ret.err e) := by
      unfold fsm.init
      rw [if_neg hcond]
      exact initLoop_err env g h e hn k f.stepN _ hrep hk
    unfold fsm.Next
    rw [hinit]

/-- C12: let a selection step reach the transition `t` (every transition before
it in the attempt list evaluated to unmatched).  If the document defines no
block of the name `t` gives; or the block's party-filtered actions reach an
action `a` (every action before it skipped or returned false) that is let
through by the regex gate and has no registered plugin; or they reach an action
whose non-empty regex fails to compile: then the step fails there with an error
that is not `ErrNoTransition`, leaving the FSM as it was at that point, so no
later action or transition is evaluated, and a `Next` that makes this step, as
its real step or in its replay, returns that error. -/
theorem Next_fatal_errors (env : Env) (g g1 : fsm) (pre post : List Transition)
    (t : Transition) (hsel : g.chosen env ≠ []) (hatt : g.attempts env = pre ++ t :: post)
    (hskip : skipAll env pre (g.afterChoice env) = some g1) (hblk : t.ActionBlock ≠ "NULL") :
    (g1.doc.ActionBlock t.ActionBlock = none →
      FatalStep env g g1
        (Error.errorString ("fsm.Next(): action block not found: \"" ++ t.ActionBlock ++ "\""))) ∧
    (∀ (blk : ActionBlock) (preA postA : List Action) (a : Action) (g2 : fsm),
      g1.doc.ActionBlock t.ActionBlock = some blk →
      FilterActionsByParty blk.Actions g1.party = preA ++ a :: postA →
      passAll env preA g1 = some g2 →
      (∀ g3 : fsm, g2.regexGate env a = (g3, Ret.val true) →
        env.FindPlugin a.Module a.Method = none →
        FatalStep env g g3
          (Error.errorString ("fsm.evalAction(): action not found: " ++ a.Name))) ∧
      (∀ e : Error, a.Regex ≠ "" → env.regexpCompile a.Regex = some e →
        e ≠ Error.ErrNoTransition → FatalStep env g g2 e)) := by
  constructor
  · intro hnone
    apply fatalStep_of_next_err env g g1 _ (by simp)
    apply next_err env g g1 g1 pre post t _ hsel hatt hskip
    unfold fsm.evalTransition
    rw [if_neg hblk, hnone]
  · intro blk preA postA a g2 hsome hfilter hpass
    have hblock : ∀ (h : fsm) (e : Error), g2.tryAction env a = (h, Ret.err e) →
        g.next env = (h, Ret.err e) := by
      intro h e hta
      apply next_err env g g1 h pre post t e hsel hatt hskip
      unfold fsm.evalTransition
      rw [if_neg hblk, hsome]
      dsimp only
      rw [hfilter, evalActions_nonempty env g1 _ (by simp)]
      exact evalActionsLoop_stop env a postA (Ret.err e) (by simp) preA g1 g2 h hpass hta
    constructor
    · intro g3 hgate hfind
      apply fatalStep_of_next_err env g g3 _ (by simp)
      apply hblock
      unfold fsm.tryAction
      rw [hgate]
      dsimp only
      unfold fsm.evalAction
      rw [hfind]
    · intro e hre hcomp hne
      apply fatalStep_of_next_err env g g2 e hne
      apply hblock
      unfold fsm.tryAction fsm.regexGate
      rw [if_pos hre, hcomp]

/-- C12, at concrete inputs: a server whose only transition names a block the
document does not define, and a server whose only action has a regex that does
not compile; `Next` returns the error of that failure. -/
theorem Next_fatal_errors_witness :
    ghostServer.Next quietEnv =
      (ghostServer,
        Ret.err (Error.errorString "fsm.Next(): action block not found: \"ghost\"")) ∧
    gatedServer.Next badRegexEnv =
      (gatedServer, Ret.err (Error.errorString "error parsing regexp")) :=
  ⟨((Next_fatal_errors quietEnv ghostServer ghostServer []
      [] { Source := "start", Destination := "a", ActionBlock := "ghost",
           Probability := 1, IsErrorTransition := false }
      (by decide) (by decide) (by decide) (by decide)).1 (by decide)).2.2.1
      ghostServer (by decide),
   ((((Next_fatal_errors badRegexEnv gatedServer gatedServer []
      [] { Source := "start", Destination := "a", ActionBlock := "blk",
           Probability := 1, IsErrorTransition := false }
      (by decide) (by decide) (by decide) (by decide)).2
      { Name := "blk",
        Actions := [{ Party := "server", Module := "fte", Method := "recv",
                      Regex := "^x", Args := [] }] }
      [] [] { Party := "server", Module := "fte", Method := "recv", Regex := "^x", Args := [] }
      gatedServer (by decide) (by decide) (by decide)).2
      (Error.errorString "error parsing regexp") (by decide) (by decide) (by decide)).2.2.1)
      gatedServer (by decide)⟩

/-! ## C13: `Execute` -/

theorem dead_state (f : fsm) (h : f.Dead = true) : f.state = "dead" := by
  unfold fsm.Dead at h
  exact eq_of_beq h

theorem runNext_cons (env : Env) (rest : List Env) (f : fsm) :
    runNext (env :: rest) f =
      ((runNext rest (f.Next env).1).1, (f.Next env).2 :: (runNext rest (f.Next env).1).2) := by
  rw [runNext]

theorem ExecuteLoop_spec :
    ∀ (envs : List Env) (f f' : fsm) (r : Ret Unit), ExecuteLoop envs f = (f', some r) →
      ∃ k, k ≤ envs.length ∧ f' = (runNext (envs.take k) f).1 ∧
        (r = Ret.val () → f'.state = "dead" ∧
          ∀ x ∈ (runNext (envs.take k) f).2, x.goesOn) ∧
        (∀ e, r = Ret.err e → e ≠ Error.ErrNoTransition ∧
          ∃ before, (runNext (envs.take k) f).2 = before ++ [Ret.err e] ∧
            ∀ x ∈ before, x.goesOn) ∧
        (∀ m, r = Ret.panic m →
          ∃ before, (runNext (envs.take k) f).2 = before ++ [Ret.panic m] ∧
            ∀ x ∈ before, x.goesOn)
  | [], f, f', r, h => by
    rw [ExecuteLoop] at h
    split at h
    · rename_i hdead
      simp only [Prod.mk.injEq, Option.some.injEq] at h
      obtain ⟨h1, h2⟩ := h
      subst h1 h2
      refine ⟨0, Nat.le_refl _, rfl, ?_, ?_, ?_⟩
      · intro _
        exact ⟨dead_state f hdead, by simp [runNext]⟩
      · intro e he
        simp at he
      · intro m hm
        simp at hm
    · simp at h
  | env :: rest, f, f', r, h => by
    rw [ExecuteLoop] at h
    split at h
    · rename_i hdead
      simp only [Prod.mk.injEq, Option.some.injEq] at h
      obtain ⟨h1, h2⟩ := h
      subst h1 h2
      refine ⟨0, Nat.zero_le _, rfl, ?_, ?_, ?_⟩
      · intro _
        exact ⟨dead_state f hdead, by simp [runNext]⟩
      · intro e he
        simp at he
      · intro m hm
        simp at hm
    · rcases hN : f.Next env with ⟨g, q⟩
      rw [hN] at h
      have hcons : ∀ k, runNext ((env :: rest).take (k + 1)) f =
          ((runNext (rest.take k) g).1, q :: (runNext (rest.take k) g).2) := by
        intro k
        rw [List.take_succ_cons, runNext_cons, hN]
      have hgo : ∀ (hq : q.goesOn), ExecuteLoop rest g = (f', some r) →
          ∃ k, k ≤ (env :: rest).length ∧ f' = (runNext ((env :: rest).take k) f).1 ∧
            (r = Ret.val () → f'.state = "dead" ∧
              ∀ x ∈ (runNext ((env :: rest).take k) f).2, x.goesOn) ∧
            (∀ e, r = Ret.err e → e ≠ Error.ErrNoTransition ∧
              ∃ before, (runNext ((env :: rest).take k) f).2 = before ++ [Ret.err e] ∧
                ∀ x ∈ before, x.goesOn) ∧
            (∀ m, r = Ret.panic m →
              ∃ before, (runNext ((env :: rest).take k) f).2 = before ++ [Ret.panic m] ∧
                ∀ x ∈ before, x.goesOn) := by
        intro hq hrest
        obtain ⟨k, hk, hf, hv, he, hp⟩ := ExecuteLoop_spec rest g f' r hrest
        refine ⟨k + 1, by simp only [List.length_cons]; omega, ?_, ?_, ?_, ?_⟩
        · rw [hcons]
          exact hf
        · intro hr
          rw [hcons]
          refine ⟨(hv hr).1, ?_⟩
          intro x hx
          rcases List.mem_cons.mp hx with rfl | hin
          · exact hq
          · exact (hv hr).2 x hin
        · intro e hr
          obtain ⟨hne, before, hb, hall⟩ := he e hr
          refine ⟨hne, q :: before, ?_, ?_⟩
          · rw [hcons]
            simp only [hb, List.cons_append]
          · intro x hx
            rcases List.mem_cons.mp hx with rfl | hin
            · exact hq
            · exact hall x hin
        · intro m hr
          obtain ⟨before, hb, hall⟩ := hp m hr
          refine ⟨q :: before, ?_, ?_⟩
          · rw [hcons]
            simp only [hb, List.cons_append]
          · intro x hx
            rcases List.mem_cons.mp hx with rfl | hin
            · exact hq
            · exact hall x hin
      rcases q with u | e | m
      · exact hgo (Or.inl rfl) h
      · dsimp only at h
        by_cases hnt : e = Error.ErrNoTransition
        · rw [if_pos hnt] at h
          subst hnt
          exact hgo (Or.inr rfl) h
        · rw [if_neg hnt] at h
          simp only [Prod.mk.injEq, Option.some.injEq] at h
          obtain ⟨h1, h2⟩ := h
          subst h1 h2
          refine ⟨1, by simp, ?_, ?_, ?_, ?_⟩
          · rw [hcons 0]
            rfl
          · intro hr
            simp at hr
          · intro e' hr
            simp only [Ret.err.injEq] at hr
            subst hr
            refine ⟨hnt, [], ?_, by simp⟩
            rw [hcons 0]
            rfl
          · intro m hr
            simp at hr
      · simp only [Prod.mk.injEq, Option.some.injEq] at h
        obtain ⟨h1, h2⟩ := h
        subst h1 h2
        refine ⟨1, by simp, ?_, ?_, ?_, ?_⟩
        · rw [hcons 0]
          rfl
        · intro hr
          simp at hr
        · intro e hr
          simp at hr
        · intro m' hr
          simp only [Ret.panic.injEq] at hr
          subst hr
          refine ⟨[], ?_, by simp⟩
          rw [hcons 0]
          rfl

theorem ExecuteLoop_running :
    ∀ (envs : List Env) (f f' : fsm), ExecuteLoop envs f = (f', none) →
      f' = (runNext envs f).1 ∧ f'.Dead = false ∧ ∀ x ∈ (runNext envs f).2, x.goesOn
  | [], f, f', h => by
    rw [ExecuteLoop] at h
    split at h
    · simp at h
    · rename_i hdead
      simp only [Prod.mk.injEq, and_true] at h
      subst h
      exact ⟨rfl, by simpa using hdead, by simp [runNext]⟩
  | env :: rest, f, f', h => by
    rw [ExecuteLoop] at h
    split at h
    · simp at h
    · rcases hN : f.Next env with ⟨g, q⟩
      rw [hN] at h
      have hgo : q.goesOn → ExecuteLoop rest g = (f', none) →
          f' = (runNext (env :: rest) f).1 ∧ f'.Dead = false ∧
            ∀ x ∈ (runNext (env :: rest) f).2, x.goesOn := by
        intro hq hrest
        obtain ⟨h1, h2, h3⟩ := ExecuteLoop_running rest g f' hrest
        rw [runNext_cons, hN]
        refine ⟨h1, h2, ?_⟩
        intro x hx
        rcases List.mem_cons.mp hx with rfl | hin
        · exact hq
        · exact h3 x hin
      rcases q with u | e | m
      · exact hgo (Or.inl rfl) h
      · dsimp only at h
        by_cases hnt : e = Error.ErrNoTransition
        · rw [if_pos hnt] at h
          subst hnt
          exact hgo (Or.inr rfl) h
        · rw [if_neg hnt] at h
          simp at h
      · simp at h

theorem ExecuteLoop_more (more : List Env) :
    ∀ (envs : List Env) (f f' : fsm) (r : Ret Unit), ExecuteLoop envs f = (f', some r) →
      ExecuteLoop (envs ++ more) f = (f', some r)
  | [], f, f', r, h => by
    rw [ExecuteLoop] at h
    split at h
    · rename_i hdead
      rw [List.nil_append]
      cases more with
      | nil => rw [ExecuteLoop, if_pos hdead]; exact h
      | cons e rest => rw [ExecuteLoop, if_pos hdead]; exact h
    · simp at h
  | env :: rest, f, f', r, h => by
    rw [ExecuteLoop] at h
    rw [List.cons_append, ExecuteLoop]
    split at h
    · rename_i hdead
      rw [if_pos hdead]
      exact h
    · rename_i hdead
      rw [if_neg hdead]
      rcases hN : f.Next env with ⟨g, q⟩
      rw [hN] at h
      rcases q with u | e | m
      · exact ExecuteLoop_more more rest g f' r h
      · dsimp only at h ⊢
        by_cases hnt : e = Error.ErrNoTransition
        · rw [if_pos hnt] at h ⊢
          exact ExecuteLoop_more more rest g f' r h
        · rw [if_neg hnt] at h ⊢
          exact h
      · exact h

/-- C13: `Execute` resets the FSM and then makes successive calls of `Next` on
it.  If it returns nil, the state is "dead" and every call made returned nil or
`ErrNoTransition`; if it returns an error `e`, then `e` is not `ErrNoTransition`
and is the result of the last call made, every call before it having returned
nil or `ErrNoTransition`.  While it has not returned, every call made returned
nil or `ErrNoTransition` and the state is not "dead"; and a result it has come
to with some calls stands when more calls are provided. -/
theorem Execute_spec (env : Env) (envs : List Env) (f : fsm) :
    (f.Execute env []).1 = f.Reset env ∧
    (∀ (f' : fsm) (r : Ret Unit), f.Execute env envs = (f', some r) →
      (∃ k, k ≤ envs.length ∧ f' = (runNext (envs.take k) (f.Reset env)).1 ∧
        (r = Ret.val () → f'.state = "dead" ∧
          ∀ x ∈ (runNext (envs.take k) (f.Reset env)).2, x.goesOn) ∧
        (∀ e, r = Ret.err e → e ≠ Error.ErrNoTransition ∧
          ∃ before, (runNext (envs.take k) (f.Reset env)).2 = before ++ [Ret.err e] ∧
            ∀ x ∈ before, x.goesOn)) ∧
      ∀ more, f.Execute env (envs ++ more) = (f', some r)) ∧
    (∀ f' : fsm, f.Execute env envs = (f', none) →
      f' = (runNext envs (f.Reset env)).1 ∧ f'.state ≠ "dead" ∧
        ∀ x ∈ (runNext envs (f.Reset env)).2, x.goesOn) := by
  refine ⟨?_, ?_, ?_⟩
  · unfold fsm.Execute
    rw [ExecuteLoop]
    split <;> rfl
  · intro f' r h
    unfold fsm.Execute at h ⊢
    obtain ⟨k, hk, hf, hv, he, _⟩ := ExecuteLoop_spec envs (f.Reset env) f' r h
    exact ⟨⟨k, hk, hf, hv, he⟩, fun more => ExecuteLoop_more more envs _ f' r h⟩
  · intro f' h
    unfold fsm.Execute at h
    obtain ⟨h1, h2, h3⟩ := ExecuteLoop_running envs (f.Reset env) f' h
    refine ⟨h1, ?_, h3⟩
    intro hs
    unfold fsm.Dead at h2
    rw [hs] at h2
    simp at h2

/-- C13, at concrete inputs: the server on `start → a → dead` returns nil in
"dead" after two calls of `Next`, also when it first waits through a call that
finds no transition; the server whose block is not defined returns that
error. -/
theorem Execute_spec_witness :
    (twoStepServer.Execute quietEnv [quietEnv, quietEnv]).2 = some (Ret.val ()) ∧
    (twoStepServer.Execute quietEnv [quietEnv, quietEnv]).1.state = "dead" ∧
    (gatedServer.Execute quietEnv [deafEnv, deafEnv]).2 = none ∧
    (ghostServer.Execute quietEnv [quietEnv, quietEnv, quietEnv]).2 =
      some (Ret.err (Error.errorString "fsm.Next(): action block not found: \"ghost\"")) :=
  ⟨by decide,
   by
    obtain ⟨k, _, _, hv, _⟩ := ((Execute_spec quietEnv [quietEnv, quietEnv] twoStepServer).2.1
      (twoStepServer.Execute quietEnv [quietEnv, quietEnv]).1 (Ret.val ()) (by decide)).1
    exact (hv rfl).1,
   by decide,
   congrArg Prod.snd (((Execute_spec quietEnv [quietEnv] ghostServer).2.1
      (ghostServer.Execute quietEnv [quietEnv]).1
      (Ret.err (Error.errorString "fsm.Next(): action block not found: \"ghost\""))
      (by decide)).2 [quietEnv, quietEnv])⟩

/-! ## The plugin `fte.recv` -/

theorem Cipher_frame (env : Env) (f : fsm) (regex : String) (msgLen : Int) :
    (f.Cipher env regex msgLen).1.doc = f.doc ∧
    (f.Cipher env regex msgLen).1.conn = f.conn ∧
    (f.Cipher env regex msgLen).1.streamSet = f.streamSet ∧
    (f.Cipher env regex msgLen).1.instanceID = f.instanceID := by
  unfold fsm.Cipher
  split
  · exact ⟨rfl, rfl, rfl, rfl⟩
  · dsimp only
    split <;> exact ⟨rfl, rfl, rfl, rfl⟩

theorem Seek_in_range (c : BufferedConn) (n : Nat) (h : n ≤ c.buf.length) :
    c.Seek ((c.buf.length : Int) - (n : Int)) =
      ({ buf := c.buf.drop (c.buf.length - n), cursor := c.cursor + (c.buf.length - n) },
        none) := by
  unfold BufferedConn.Seek
  have h1 : (0 : Int) ≤ (c.buf.length : Int) - (n : Int) := by omega
  have h2 : (c.buf.length : Int) - (n : Int) ≤ (c.buf.length : Int) := by omega
  have h3 : ((c.buf.length : Int) - (n : Int)).toNat = c.buf.length - n := by omega
  rw [if_pos ⟨h1, h2⟩, h3]

theorem recv_decoded (env : Env) (f f2 : fsm) (regex : String) (msgLen : Int)
    (rest : List Value) (c : BufferedConn) (ct pt rem : List Nat) (cipher : Cipher)
    (cell : Cell) (hpeek : env.Peek f.conn = (c, Except.ok ct)) (hne : ct ≠ [])
    (hcipher : ({ f with conn := c } : fsm).Cipher env regex msgLen = (f2, Ret.val cipher))
    (hdec : env.Decrypt cipher ct = Except.ok (pt, rem))
    (hcell : env.UnmarshalBinary pt = Except.ok cell) :
    recv env f (Value.str regex :: Value.int msgLen :: rest) =
      if f2.doc.UUID ≠ cell.UUID then (f2, Ret.panic "assertion failed")
      else
        if f2.instanceID = 0 ∨ cell.StreamID = 0 then
          (f2.SetInstanceID cell.InstanceID, Ret.val false)
        else
          match (f2.SetInstanceID cell.InstanceID).streamSet.Enqueue env.unknownStream cell with
          | (ss, some e) =>
            ({ f2.SetInstanceID cell.InstanceID with streamSet := ss }, Ret.err e)
          | (ss, none) =>
            match f2.conn.Seek ((ct.length : Int) - (rem.length : Int)) with
            | (c2, some e) =>
              ({ f2.SetInstanceID cell.InstanceID with streamSet := ss, conn := c2 }, Ret.err e)
            | (c2, none) =>
              ({ f2.SetInstanceID cell.InstanceID with streamSet := ss, conn := c2 },
                Ret.val true) := by
  have hlen : ¬ ct.length = 0 := fun h => hne (List.length_eq_zero.mp h)
  unfold recv
  simp only [hpeek, hlen, if_false, hcipher, hdec, hcell]

/-- C14, the failing input (the test "SetInstanceID"): the FSM has the instance
id 0 and the buffer decrypts to a cell with the FSM's UUID and the instance id
200.  `recv` adopts the id 200 and then returns false with a nil error: it
reports unmatched, and returns no error for the caller to retry on. -/
theorem recv_adopts_and_returns_unmatched :
    (recvFsm 0).instanceID = 0 ∧ (recvFsm 0).doc.UUID = (testCell 100 200 300).UUID ∧
    (Recv (recvEnv (testCell 100 200 300) []) (recvFsm 0) recvArgs).1.instanceID = 200 ∧
    (Recv (recvEnv (testCell 100 200 300) []) (recvFsm 0) recvArgs).2 = Ret.val false := by
  decide

/-- C15, the failing input (the test "ErrUUIDMismatch"): the FSM has the UUID 100
and the buffer decrypts to a cell with the UUID 400.  `recv` does not return:
its assertion on the UUID panics. -/
theorem recv_uuid_mismatch_panics :
    (recvFsm 200).doc.UUID = 100 ∧ (testCell 400 200 300).UUID = 400 ∧
    (Recv (recvEnv (testCell 400 200 300) []) (recvFsm 200) recvArgs).2 =
      Ret.panic "assertion failed" := by
  decide

/-- C16, the failing input (the test "ErrInstanceIDMismatch"): the FSM has the
instance id 200 and the buffer decrypts to a cell with the FSM's UUID and the
instance id 400.  `recv` overwrites the FSM's instance id with 400, enqueues
the cell, consumes the ciphertext and reports success. -/
theorem recv_overwrites_instance_id :
    (recvFsm 200).instanceID = 200 ∧
    (Recv (recvEnv (testCell 100 400 300) []) (recvFsm 200) recvArgs).2 = Ret.val true ∧
    (Recv (recvEnv (testCell 100 400 300) []) (recvFsm 200) recvArgs).1.instanceID = 400 ∧
    (Recv (recvEnv (testCell 100 400 300) []) (recvFsm 200) recvArgs).1.streamSet.cells =
      [testCell 100 400 300] := by
  decide

/-- C17: let the FSM have a nonzero instance id, let `Peek` return a non-empty
ciphertext (the bytes buffered, with the cursor where it was), and let it
decrypt to a remainder no longer than the ciphertext and to a plaintext that
unmarshals to a cell with the FSM's UUID, the FSM's instance id and the nonzero
id of a stream of the set.  Then `fte.Recv` reports success with no error, the
stream set has been handed exactly that one cell more, the read cursor has
advanced by the length of the ciphertext less that of the remainder, and the
instance id is as it was. -/
theorem Recv_delivers (env : Env) (f f2 : fsm) (regex : String) (msgLen : Int)
    (rest : List Value) (c : BufferedConn) (ct pt rem : List Nat) (cipher : Cipher)
    (cell : Cell) (hpeek : env.Peek f.conn = (c, Except.ok ct)) (hbuf : ct = c.buf)
    (hcur : c.cursor = f.conn.cursor) (hne : ct ≠ [])
    (hcipher : ({ f with conn := c } : fsm).Cipher env regex msgLen = (f2, Ret.val cipher))
    (hdec : env.Decrypt cipher ct = Except.ok (pt, rem)) (hrem : rem.length ≤ ct.length)
    (hcell : env.UnmarshalBinary pt = Except.ok cell) (huuid : cell.UUID = f.doc.UUID)
    (hid : cell.InstanceID = f.instanceID) (hnz : f.instanceID ≠ 0)
    (hstream : cell.StreamID ≠ 0) (hex : cell.StreamID ∈ f.streamSet.streams) :
    ∃ f', Recv env f (Value.str regex :: Value.int msgLen :: rest) = (f', Ret.val true) ∧
      f'.streamSet.cells = f.streamSet.cells ++ [cell] ∧
      f'.streamSet.streams = f.streamSet.streams ∧
      f'.conn.cursor = f.conn.cursor + (ct.length - rem.length) ∧
      f'.conn.buf = ct.drop (ct.length - rem.length) ∧
      f'.instanceID = f.instanceID := by
  obtain ⟨fdoc, fconn, fss, fid⟩ := Cipher_frame env { f with conn := c } regex msgLen
  rw [hcipher] at fdoc fconn fss fid
  dsimp only at fdoc fconn fss fid
  have h1 : ¬ f2.doc.UUID ≠ cell.UUID := by
    rw [fdoc, huuid]
    simp
  have h2 : ¬ (f2.instanceID = 0 ∨ cell.StreamID = 0) := by
    rw [fid]
    simp [hnz, hstream]
  have henq : (f2.SetInstanceID cell.InstanceID).streamSet.Enqueue env.unknownStream cell =
      ({ f.streamSet with cells := f.streamSet.cells ++ [cell] }, none) := by
    unfold StreamSet.Enqueue fsm.SetInstanceID
    dsimp only
    rw [fss, if_pos hex]
  have hseek : f2.conn.Seek ((ct.length : Int) - (rem.length : Int)) =
      ({ buf := ct.drop (ct.length - rem.length),
         cursor := f.conn.cursor + (ct.length - rem.length) }, none) := by
    rw [fconn, hbuf, ← hcur]
    exact Seek_in_range c rem.length (by rw [← hbuf]; exact hrem)
  refine ⟨{ f2.SetInstanceID cell.InstanceID with
            streamSet := { f.streamSet with cells := f.streamSet.cells ++ [cell] }
            conn := { buf := ct.drop (ct.length - rem.length),
                      cursor := f.conn.cursor + (ct.length - rem.length) } }, ?_, ?_⟩
  · unfold Recv
    rw [recv_decoded env f f2 regex msgLen rest c ct pt rem cipher cell hpeek hne hcipher hdec
      hcell, if_neg h1, if_neg h2, henq]
    dsimp only
    rw [hseek]
  · exact ⟨rfl, rfl, rfl, rfl, hid⟩

/-- C17, at a concrete input (the test "OK"): "barbaz" is buffered and decrypts
to a cell of the stream 300 with the remainder "baz"; the cell is enqueued and
the cursor advances by 3. -/
theorem Recv_delivers_witness :
    ∃ f', Recv (recvEnv (testCell 100 200 300) [98, 97, 122]) okFsm
        (Value.str "([a-z0-9]+)" :: Value.int 128 :: []) = (f', Ret.val true) ∧
      f'.streamSet.cells = okFsm.streamSet.cells ++ [testCell 100 200 300] ∧
      f'.streamSet.streams = okFsm.streamSet.streams ∧
      f'.conn.cursor = okFsm.conn.cursor + (6 - 3) ∧
      f'.conn.buf = [98, 97, 122] ∧
      f'.instanceID = okFsm.instanceID :=
  Recv_delivers (recvEnv (testCell 100 200 300) [98, 97, 122]) okFsm
    (okFsm.Cipher (recvEnv (testCell 100 200 300) [98, 97, 122]) "([a-z0-9]+)" 128).1
    "([a-z0-9]+)" 128 [] okFsm.conn [98, 97, 114, 98, 97, 122] [102, 111, 111] [98, 97, 122]
    { id := 0, regex := "([a-z0-9]+)" } (testCell 100 200 300)
    rfl (by decide) (by decide) (by decide) (by decide) rfl (by decide)
    rfl (by decide) (by decide) (by decide) (by decide) (by decide)

theorem recv_args (env : Env) (f : fsm) (args : List Value) :
    (∃ regex msgLen rest, args = Value.str regex :: Value.int msgLen :: rest) ∨
      ∃ e, recv env f args = (f, Ret.err e) := by
  rcases args with _ | ⟨a0, _ | ⟨a1, rest⟩⟩
  · exact Or.inr ⟨_, rfl⟩
  · cases a0 <;> exact Or.inr ⟨_, rfl⟩
  · cases a0 <;> cases a1 <;>
      first
        | exact Or.inl ⟨_, _, _, rfl⟩
        | exact Or.inr ⟨_, rfl⟩

theorem recv_failure_frame (env : Env) (f f' : fsm) (regex : String) (msgLen : Int)
    (rest : List Value) (r : Ret Bool)
    (hcur : (env.Peek f.conn).1.cursor = f.conn.cursor)
    (hbuf : ∀ ct, (env.Peek f.conn).2 = Except.ok ct → ct = (env.Peek f.conn).1.buf)
    (hdec : ∀ cipher ct pt rem, env.Decrypt cipher ct = Except.ok (pt, rem) →
      rem.length ≤ ct.length)
    (hrun : recv env f (Value.str regex :: Value.int msgLen :: rest) = (f', r))
    (hfail : r = Ret.val false ∨ ∃ e, r = Ret.err e) :
    f'.conn.cursor = f.conn.cursor ∧ f'.streamSet = f.streamSet := by
  rcases hp : env.Peek f.conn with ⟨c, pk⟩
  rw [hp] at hcur hbuf
  dsimp only at hcur hbuf
  rcases pk with e | ct
  · have h : recv env f (Value.str regex :: Value.int msgLen :: rest) =
        ({ f with conn := c }, Ret.err e) := by
      unfold recv
      simp only [hp]
    rw [h] at hrun
    simp only [Prod.mk.injEq] at hrun
    rw [← hrun.1]
    exact ⟨hcur, rfl⟩
  by_cases hlen : ct.length = 0
  · have h : recv env f (Value.str regex :: Value.int msgLen :: rest) =
        ({ f with conn := c }, Ret.val false) := by
      unfold recv
      simp only [hp, hlen, if_true]
    rw [h] at hrun
    simp only [Prod.mk.injEq] at hrun
    rw [← hrun.1]
    exact ⟨hcur, rfl⟩
  have hne : ct ≠ [] := fun h => hlen (by rw [h]; rfl)
  obtain ⟨_, fconn, fss, _⟩ := Cipher_frame env { f with conn := c } regex msgLen
  rcases hc : ({ f with conn := c } : fsm).Cipher env regex msgLen with ⟨f2, rc⟩
  rw [hc] at fconn fss
  dsimp only at fconn fss
  have hf2 : f2.conn.cursor = f.conn.cursor ∧ f2.streamSet = f.streamSet := by
    rw [fconn, fss]
    exact ⟨hcur, rfl⟩
  rcases rc with cipher | e | m
  swap
  · have h : recv env f (Value.str regex :: Value.int msgLen :: rest) = (f2, Ret.err e) := by
      unfold recv
      simp only [hp, hlen, if_false, hc]
    rw [h] at hrun
    simp only [Prod.mk.injEq] at hrun
    rw [← hrun.1]
    exact hf2
  swap
  · have h : recv env f (Value.str regex :: Value.int msgLen :: rest) = (f2, Ret.panic m) := by
      unfold recv
      simp only [hp, hlen, if_false, hc]
    rw [h] at hrun
    simp only [Prod.mk.injEq] at hrun
    rw [← hrun.1]
    exact hf2
  rcases hd : env.Decrypt cipher ct with e | ⟨pt, rem⟩
  · have h : recv env f (Value.str regex :: Value.int msgLen :: rest) = (f2, Ret.err e) := by
      unfold recv
      simp only [hp, hlen, if_false, hc, hd]
    rw [h] at hrun
    simp only [Prod.mk.injEq] at hrun
    rw [← hrun.1]
    exact hf2
  rcases hu : env.UnmarshalBinary pt with e | cell
  · have h : recv env f (Value.str regex :: Value.int msgLen :: rest) = (f2, Ret.err e) := by
      unfold recv
      simp only [hp, hlen, if_false, hc, hd, hu]
    rw [h] at hrun
    simp only [Prod.mk.injEq] at hrun
    rw [← hrun.1]
    exact hf2
  rw [recv_decoded env f f2 regex msgLen rest c ct pt rem cipher cell hp hne hc hd hu] at hrun
  have hseek : f2.conn.Seek ((ct.length : Int) - (rem.length : Int)) =
      ({ buf := c.buf.drop (c.buf.length - rem.length),
         cursor := c.cursor + (c.buf.length - rem.length) }, none) := by
    have hb := hbuf ct rfl
    have hr := hdec cipher ct pt rem hd
    rw [fconn, hb]
    exact Seek_in_range c rem.length (by rw [← hb]; exact hr)
  by_cases huuid : f2.doc.UUID ≠ cell.UUID
  · rw [if_pos huuid] at hrun
    simp only [Prod.mk.injEq] at hrun
    rw [← hrun.2] at hfail
    simp at hfail
  rw [if_neg huuid] at hrun
  by_cases hshort : f2.instanceID = 0 ∨ cell.StreamID = 0
  · rw [if_pos hshort] at hrun
    simp only [Prod.mk.injEq] at hrun
    rw [← hrun.1]
    exact hf2
  rw [if_neg hshort] at hrun
  rcases henq : (f2.SetInstanceID cell.InstanceID).streamSet.Enqueue env.unknownStream cell
    with ⟨ss, oe⟩
  rw [henq] at hrun
  rcases oe with _ | e
  · dsimp only at hrun
    rw [hseek] at hrun
    simp only [Prod.mk.injEq] at hrun
    rw [← hrun.2] at hfail
    simp at hfail
  · dsimp only at hrun
    simp only [Prod.mk.injEq] at hrun
    rw [← hrun.1]
    refine ⟨hf2.1, ?_⟩
    show ss = f.streamSet
    unfold StreamSet.Enqueue at henq
    split at henq
    · simp at henq
    · split at henq
      · simp only [Prod.mk.injEq] at henq
        rw [← henq.1]
        exact fss
      · simp at henq

/-- C18: let `Peek` return the buffered bytes and leave the cursor where it is,
and let `Decrypt` return a remainder no longer than the ciphertext.  Whenever
`fte.Recv` returns an error or reports unmatched, the read cursor is where it
was before the call and the stream set is as it was; an error of `Peek` and an
error of `Decrypt` are returned as they are. -/
theorem Recv_commits_only_on_success (env : Env) (f f' : fsm) (args : List Value)
    (r : Ret Bool) (hcur : (env.Peek f.conn).1.cursor = f.conn.cursor)
    (hbuf : ∀ ct, (env.Peek f.conn).2 = Except.ok ct → ct = (env.Peek f.conn).1.buf)
    (hdec : ∀ cipher ct pt rem, env.Decrypt cipher ct = Except.ok (pt, rem) →
      rem.length ≤ ct.length)
    (hrun : Recv env f args = (f', r)) :
    ((r = Ret.val false ∨ ∃ e, r = Ret.err e) →
      f'.conn.cursor = f.conn.cursor ∧ f'.streamSet = f.streamSet) ∧
    (∀ regex msgLen rest c e, args = Value.str regex :: Value.int msgLen :: rest →
      env.Peek f.conn = (c, Except.error e) → r = Ret.err e) ∧
    (∀ regex msgLen rest c ct f2 cipher e,
      args = Value.str regex :: Value.int msgLen :: rest →
      env.Peek f.conn = (c, Except.ok ct) → ct ≠ [] →
      ({ f with conn := c } : fsm).Cipher env regex msgLen = (f2, Ret.val cipher) →
      env.Decrypt cipher ct = Except.error e → r = Ret.err e) := by
  unfold Recv at hrun
  refine ⟨?_, ?_, ?_⟩
  · intro hfail
    rcases recv_args env f args with ⟨regex, msgLen, rest, rfl⟩ | ⟨e, he⟩
    · exact recv_failure_frame env f f' regex msgLen rest r hcur hbuf hdec hrun hfail
    · rw [he] at hrun
      simp only [Prod.mk.injEq] at hrun
      rw [← hrun.1]
      exact ⟨rfl, rfl⟩
  · intro regex msgLen rest c e hargs hp
    subst hargs
    have h : recv env f (Value.str regex :: Value.int msgLen :: rest) =
        ({ f with conn := c }, Ret.err e) := by
      unfold recv
      simp only [hp]
    rw [h] at hrun
    simp only [Prod.mk.injEq] at hrun
    exact hrun.2.symm
  · intro regex msgLen rest c ct f2 cipher e hargs hp hne hc hd
    subst hargs
    have hlen : ¬ ct.length = 0 := fun h => hne (List.length_eq_zero.mp h)
    have h : recv env f (Value.str regex :: Value.int msgLen :: rest) = (f2, Ret.err e) := by
      unfold recv
      simp only [hp, hlen, if_false, hc, hd]
    rw [h] at hrun
    simp only [Prod.mk.injEq] at hrun
    exact hrun.2.symm

/-- C18, at a concrete input (the test "ErrDecrypt"): the cipher fails with
"marker"; `fte.Recv` returns that error, the cursor has not moved and the stream
set is as it was. -/
theorem Recv_commits_only_on_success_witness :
    (Recv markerEnv (recvFsm 200) recvArgs).2 = Ret.err (Error.errorString "marker") ∧
    (Recv markerEnv (recvFsm 200) recvArgs).1.conn.cursor = (recvFsm 200).conn.cursor ∧
    (Recv markerEnv (recvFsm 200) recvArgs).1.streamSet = (recvFsm 200).streamSet :=
  ⟨by decide,
   (Recv_commits_only_on_success markerEnv (recvFsm 200)
      (Recv markerEnv (recvFsm 200) recvArgs).1 recvArgs
      (Recv markerEnv (recvFsm 200) recvArgs).2 (by decide)
      (fun ct h => by
        have h2 : Except.ok (recvFsm 200).conn.buf = (Except.ok ct : Except Error (List Nat)) := h
        injection h2 with h3
        exact h3.symm)
      (fun cipher ct pt rem h => by
        have h2 : (Except.error (Error.errorString "marker") :
          Except Error (List Nat × List Nat)) = Except.ok (pt, rem) := h
        injection h2)
      rfl).1 (Or.inr ⟨Error.errorString "marker", by decide⟩)⟩

/-- C19, the failing input: the FSM has the instance id 200 and the buffer "bar"
decrypts, with no remainder, to a cell with the FSM's UUID, the instance id 200
and the stream id 0.  `fte.Recv` returns no error and enqueues nothing, but it
reports unmatched and does not consume the ciphertext: the three bytes are
still buffered and the cursor has not moved, and a second call finds the same
cell and does the same. -/
theorem Recv_stream_zero_not_consumed :
    (recvFsm 200).instanceID = 200 ∧ (recvFsm 200).conn.buf.length = 3 ∧
    (Recv (recvEnv (testCell 100 200 0) []) (recvFsm 200) recvArgs).2 = Ret.val false ∧
    (Recv (recvEnv (testCell 100 200 0) []) (recvFsm 200) recvArgs).1.streamSet =
      (recvFsm 200).streamSet ∧
    (Recv (recvEnv (testCell 100 200 0) []) (recvFsm 200) recvArgs).1.conn.cursor =
      (recvFsm 200).conn.cursor ∧
    (Recv (recvEnv (testCell 100 200 0) []) (recvFsm 200) recvArgs).1.conn.cursor ≠
      (recvFsm 200).conn.cursor + (3 - 0) ∧
    (Recv (recvEnv (testCell 100 200 0) []) (recvFsm 200) recvArgs).1.conn.buf =
      (recvFsm 200).conn.buf ∧
    (Recv (recvEnv (testCell 100 200 0) [])
      (Recv (recvEnv (testCell 100 200 0) []) (recvFsm 200) recvArgs).1 recvArgs).2 =
      Ret.val false ∧
    (Recv (recvEnv (testCell 100 200 0) [])
      (Recv (recvEnv (testCell 100 200 0) []) (recvFsm 200) recvArgs).1 recvArgs).1.conn =
      (recvFsm 200).conn := by
  decide

/-- What `fte.Recv` does with a cell of stream 0: for an FSM with a nonzero
instance id and a decrypted well-formed cell with the FSM's UUID, the FSM's
instance id and the stream id 0, it returns no error and enqueues nothing; it
reports unmatched and leaves the connection as `Peek` left it, so with a `Peek`
that leaves the cursor alone the read cursor is where it was before the
call. -/
theorem Recv_stream_zero (env : Env) (f f2 : fsm) (regex : String) (msgLen : Int)
    (rest : List Value) (c : BufferedConn) (ct pt rem : List Nat) (cipher : Cipher)
    (cell : Cell) (hpeek : env.Peek f.conn = (c, Except.ok ct))
    (hcur : c.cursor = f.conn.cursor) (hne : ct ≠ [])
    (hcipher : ({ f with conn := c } : fsm).Cipher env regex msgLen = (f2, Ret.val cipher))
    (hdec : env.Decrypt cipher ct = Except.ok (pt, rem))
    (hcell : env.UnmarshalBinary pt = Except.ok cell) (huuid : cell.UUID = f.doc.UUID)
    (hid : cell.InstanceID = f.instanceID) (hzero : cell.StreamID = 0) :
    ∃ f', Recv env f (Value.str regex :: Value.int msgLen :: rest) = (f', Ret.val false) ∧
      f'.streamSet = f.streamSet ∧ f'.conn = c ∧ f'.conn.cursor = f.conn.cursor ∧
      f'.instanceID = f.instanceID := by
  obtain ⟨fdoc, fconn, fss, fid⟩ := Cipher_frame env { f with conn := c } regex msgLen
  rw [hcipher] at fdoc fconn fss fid
  dsimp only at fdoc fconn fss fid
  have h1 : ¬ f2.doc.UUID ≠ cell.UUID := by
    rw [fdoc, huuid]
    simp
  refine ⟨f2.SetInstanceID cell.InstanceID, ?_, fss, fconn, ?_, hid⟩
  · unfold Recv
    rw [recv_decoded env f f2 regex msgLen rest c ct pt rem cipher cell hpeek hne hcipher hdec
      hcell, if_neg h1, if_pos (Or.inr hzero)]
  · show f2.conn.cursor = f.conn.cursor
    rw [fconn]
    exact hcur

/-- A cell of stream 0 at a concrete input: it is left in the buffer. -/
theorem Recv_stream_zero_witness :
    ∃ f', Recv (recvEnv (testCell 100 200 0) []) (recvFsm 200)
        (Value.str "([a-z0-9]+)" :: Value.int 128 :: []) = (f', Ret.val false) ∧
      f'.streamSet = (recvFsm 200).streamSet ∧ f'.conn = (recvFsm 200).conn ∧
      f'.conn.cursor = (recvFsm 200).conn.cursor ∧ f'.instanceID = (recvFsm 200).instanceID :=
  Recv_stream_zero (recvEnv (testCell 100 200 0) []) (recvFsm 200)
    ((recvFsm 200).Cipher (recvEnv (testCell 100 200 0) []) "([a-z0-9]+)" 128).1
    "([a-z0-9]+)" 128 [] (recvFsm 200).conn [98, 97, 114] [102, 111, 111] []
    { id := 0, regex := "([a-z0-9]+)" } (testCell 100 200 0)
    rfl (by decide) (by decide) (by decide) rfl rfl (by decide) (by decide) (by decide)

/-! ## C20: the dialer -/

theorem mem_le_sum : ∀ (l : List Nat) (x : Nat), x ∈ l → x ≤ l.sum
  | [], x, h => by simp at h
  | y :: rest, x, h => by
    rw [List.sum_cons]
    rcases List.mem_cons.mp h with rfl | hin
    · omega
    · have := mem_le_sum rest x hin
      omega

theorem Create_fresh (ss : StreamSet) (draw : Nat) :
    (ss.Create draw).2 ≠ 0 ∧ (ss.Create draw).2 ∉ ss.streams ∧
      (ss.Create draw).1.streams = ss.streams ++ [(ss.Create draw).2] := by
  unfold StreamSet.Create
  refine ⟨by dsimp only; omega, ?_, rfl⟩
  intro hin
  have := mem_le_sum ss.streams _ hin
  dsimp only at this
  omega

theorem close_closed (env : Env) (d : Dialer) (h : d.locked = false) :
    (d.close env).1.closed = true := by
  unfold Dialer.close
  rw [if_neg (by simp [h])]
  split
  · rfl
  · split <;> rfl

theorem step_closed (env : Env) (d : Dialer) (op : DialerOp) (h : d.closed = true) :
    (d.step env op).closed = true := by
  cases op with
  | Open draw dialed =>
    show (d.Open env draw dialed).1.closed = true
    unfold Dialer.Open
    cases dialed <;> exact h
  | Close =>
    show (d.close env).1.closed = true
    cases hl : d.locked with
    | false => exact close_closed env d hl
    | true =>
      unfold Dialer.close
      rw [if_pos hl]
      exact h
  | Closed => exact h
  | Dial draw =>
    show (d.Dial draw).1.closed = true
    unfold Dialer.Dial
    split <;> exact h
  | driverCycle envs =>
    show (d.driverCycle env envs).closed = true
    unfold Dialer.driverCycle Dialer.Closed
    cases hl : d.locked with
    | false => simp [h]
    | true => simp [h]
  | driverExit =>
    show (d.close env).1.closed = true
    cases hl : d.locked with
    | false => exact close_closed env d hl
    | true =>
      unfold Dialer.close
      rw [if_pos hl]
      exact h

theorem run_closed (env : Env) :
    ∀ (ops : List DialerOp) (d : Dialer), d.closed = true → (d.run env ops).closed = true
  | [], _, h => h
  | op :: rest, d, h => run_closed env rest (d.step env op) (step_closed env d op h)

/-- A dialer that has an FSM and whose mutex is free keeps both whatever is
done with it: `close` panics, and keeps the mutex, only without an FSM. -/
theorem close_free (env : Env) (d : Dialer) (hl : d.locked = false) (hf : d.fsm.isSome = true) :
    (d.close env).1.locked = false ∧ (d.close env).1.fsm.isSome = true ∧
    ∃ r, (d.close env).2 = some r ∧ ∀ m, r ≠ Ret.panic m := by
  obtain ⟨f, hf'⟩ := Option.isSome_iff_exists.mp hf
  unfold Dialer.close
  rw [if_neg (by simp [hl]), hf']
  dsimp only
  rcases env.fsmClose f with ⟨f', _ | e⟩
  · exact ⟨hl, rfl, _, rfl, fun m h => by cases h⟩
  · exact ⟨hl, rfl, _, rfl, fun m h => by cases h⟩

theorem step_free (env : Env) (d : Dialer) (op : DialerOp) (hl : d.locked = false)
    (hf : d.fsm.isSome = true) :
    (d.step env op).locked = false ∧ (d.step env op).fsm.isSome = true := by
  cases op with
  | Open draw dialed =>
    show (d.Open env draw dialed).1.locked = false ∧ (d.Open env draw dialed).1.fsm.isSome = true
    unfold Dialer.Open
    cases dialed with
    | error e => exact ⟨hl, hf⟩
    | ok conn => exact ⟨hl, rfl⟩
  | Close => exact ⟨(close_free env d hl hf).1, (close_free env d hl hf).2.1⟩
  | Closed => exact ⟨hl, hf⟩
  | Dial draw =>
    show (d.Dial draw).1.locked = false ∧ (d.Dial draw).1.fsm.isSome = true
    unfold Dialer.Dial
    split <;> exact ⟨hl, hf⟩
  | driverCycle envs =>
    show (d.driverCycle env envs).locked = false ∧ (d.driverCycle env envs).fsm.isSome = true
    unfold Dialer.driverCycle
    split
    · exact ⟨hl, hf⟩
    · exact ⟨hl, hf⟩
    · split
      · exact ⟨hl, hf⟩
      · split <;> exact ⟨hl, rfl⟩
  | driverExit => exact ⟨(close_free env d hl hf).1, (close_free env d hl hf).2.1⟩

theorem run_free (env : Env) :
    ∀ (ops : List DialerOp) (d : Dialer), d.locked = false → d.fsm.isSome = true →
      (d.run env ops).locked = false ∧ (d.run env ops).fsm.isSome = true
  | [], _, hl, hf => ⟨hl, hf⟩
  | op :: rest, d, hl, hf =>
    run_free env rest (d.step env op) (step_free env d op hl hf).1 (step_free env d op hl hf).2

/-- A call of `Close` that returned, with or without an error, was made with the
mutex free on a dialer that has an FSM, and left the mutex free. -/
theorem Close_returned (env : Env) (d : Dialer) (r : Ret Unit)
    (h : (d.Close env).2 = some r) (hr : ∀ m, r ≠ Ret.panic m) :
    d.locked = false ∧ (d.Close env).1.locked = false ∧ (d.Close env).1.fsm.isSome = true := by
  cases hl : d.locked with
  | true =>
    unfold Dialer.Close Dialer.close at h
    rw [if_pos hl] at h
    cases h
  | false =>
    cases hf : d.fsm with
    | none =>
      unfold Dialer.Close Dialer.close at h
      rw [if_neg (by simp [hl]), hf] at h
      dsimp only at h
      injection h with h
      exact absurd h.symm (hr _)
    | some f =>
      have hf' : d.fsm.isSome = true := by rw [hf]; rfl
      exact ⟨rfl, (close_free env d hl hf').1, (close_free env d hl hf').2.1⟩

/-- What the dialer does guarantee.  While the mutex is free, `Dial` returns
`ErrDialerClosed`, and leaves the dialer and its stream set as they are, exactly
when the closed flag is set; otherwise it returns a stream created in the stream
set, with a fresh nonzero id, and a nil error.  `Close` then sets the flag, and
no operation on the dialer (calls of its methods, steps of its driver) clears
it.  After a `Close` that returned, every `Dial`, whatever was done with the
dialer in between, returns `ErrDialerClosed` and creates no stream. -/
theorem Dial_after_Close (env : Env) (d : Dialer) (draw : Nat) (ops : List DialerOp)
    (hfree : d.locked = false) :
    ((d.Dial draw).2 = some (Except.error Error.ErrDialerClosed) ↔ d.closed = true) ∧
    (d.closed = true → d.Dial draw = (d, some (Except.error Error.ErrDialerClosed))) ∧
    (d.closed = false →
      (d.Dial draw).2 = some (Except.ok (d.streamSet.Create draw).2) ∧
      (d.streamSet.Create draw).2 ≠ 0 ∧ (d.streamSet.Create draw).2 ∉ d.streamSet.streams ∧
      (d.Dial draw).1.streamSet.streams = d.streamSet.streams ++ [(d.streamSet.Create draw).2] ∧
      (d.Dial draw).1.closed = false) ∧
    (d.Close env).1.closed = true ∧
    (d.closed = true → (d.run env ops).closed = true) ∧
    (∀ r, (d.Close env).2 = some r → (∀ m, r ≠ Ret.panic m) →
      ((d.Close env).1.run env ops).Dial draw =
        ((d.Close env).1.run env ops, some (Except.error Error.ErrDialerClosed))) := by
  have hdial : ∀ d' : Dialer, d'.locked = false → d'.closed = true →
      d'.Dial draw = (d', some (Except.error Error.ErrDialerClosed)) := by
    intro d' hl h
    unfold Dialer.Dial Dialer.Closed
    rw [if_neg (by simp [hl]), h]
  have hopen : d.closed = false →
      d.Dial draw = ({ d with streamSet := (d.streamSet.Create draw).1 },
        some (Except.ok (d.streamSet.Create draw).2)) := by
    intro h
    unfold Dialer.Dial Dialer.Closed
    rw [if_neg (by simp [hfree]), h]
  refine ⟨?_, hdial d hfree, ?_, close_closed env d hfree, run_closed env ops d, ?_⟩
  · constructor
    · intro h
      cases hc : d.closed with
      | true => rfl
      | false =>
        rw [hopen hc] at h
        injection h with h
        cases h
    · intro h
      rw [hdial d hfree h]
  · intro h
    obtain ⟨c1, c2, c3⟩ := Create_fresh d.streamSet draw
    rw [hopen h]
    exact ⟨rfl, c1, c2, c3, h⟩
  · intro r hret hr
    obtain ⟨_, hl, hf⟩ := Close_returned env d r hret hr
    exact hdial _ (run_free env ops _ hl hf).1
      (run_closed env ops _ (close_closed env d hfree))

/-- The guarantee of the dialer at a concrete input: an opened dialer hands out
the stream 8; after `Close`, and a driver step and another `Open` after it,
`Dial` fails with `ErrDialerClosed` and the stream set is as it was. -/
theorem Dial_after_Close_witness :
    (openDialer.Dial 7).2 = some (Except.ok 8) ∧
    (((openDialer.Close quietEnv).1.run quietEnv
        [DialerOp.driverCycle [quietEnv], DialerOp.Open 3 (Except.ok idleConn)]).Dial 7).1.streamSet
      = openDialer.streamSet :=
  ⟨((Dial_after_Close quietEnv openDialer 7 [] (by decide)).2.2.1 (by decide)).1,
   by
    rw [(Dial_after_Close quietEnv openDialer 7
      [DialerOp.driverCycle [quietEnv], DialerOp.Open 3 (Except.ok idleConn)]
      (by decide)).2.2.2.2.2 (Ret.val ()) (by decide) (fun m h => by cases h)]
    decide⟩

/-- C20, the failing input: a dialer that was never opened has no FSM, so
`Close` panics at `d.fsm.Close()`; by then it has set the closed flag and holds
the mutex, which it never releases.  A `Dial` after this `Close` (the panic
recovered) finds the flag set but does not return `ErrDialerClosed`: it waits
for the mutex in `Closed` and never returns.  So do `Closed` and a second
`Close`. -/
theorem Dial_blocks_after_panicked_Close :
    unopenedDialer.fsm = none ∧ unopenedDialer.closed = false ∧
    unopenedDialer.locked = false ∧
    (unopenedDialer.Close quietEnv).2 = some (Ret.panic "nil pointer dereference") ∧
    (unopenedDialer.Close quietEnv).1.closed = true ∧
    (unopenedDialer.Close quietEnv).1.locked = true ∧
    ((unopenedDialer.Close quietEnv).1.Dial 7).2 = none ∧
    ((unopenedDialer.Close quietEnv).1.Dial 7).2 ≠ some (Except.error Error.ErrDialerClosed) ∧
    (unopenedDialer.Close quietEnv).1.Closed = none ∧
    ((unopenedDialer.Close quietEnv).1.Close quietEnv).2 = none :=
  ⟨rfl, rfl, rfl, rfl, rfl, rfl, rfl, (fun h => by cases h), rfl, rfl⟩

/-! ## C21: `Var` and `SetVar` -/

theorem lookup_filter_ne (k k' : String) (h : k' ≠ k) (vars : List (String × Value)) :
    (vars.filter (fun kv => kv.1 != k)).lookup k' = vars.lookup k' := by
  induction vars with
  | nil => rfl
  | cons kv rest ih =>
    obtain ⟨a, b⟩ := kv
    by_cases hak : a = k
    · subst hak
      have hk : (k' == a) = false := by simpa using h
      simp [List.filter, List.lookup, hk, ih]
    · have hf : (a != k) = true := by simpa using hak
      simp only [List.filter, hf, List.lookup]
      rw [ih]

/-- What `Var` and `SetVar` do guarantee: "model_uuid" and "party" read the
document UUID and the party, and the three reserved keys read the same whatever
`SetVar` has stored; for every other key `k`, `Var(k)` after `SetVar(k, v)` is
`v` and `Var(k)` after `Reset` is nil; `SetVar(k, v)` changes `Var(k')` for no
`k' ≠ k`. -/
theorem Var_SetVar_spec (env : Env) (f : fsm) (k : String) (v : Value) :
    f.Var "model_uuid" = Value.int f.doc.UUID ∧
    f.Var "party" = Value.str f.party ∧
    (f.SetVar k v).Var "model_instance_id" = f.Var "model_instance_id" ∧
    (f.SetVar k v).Var "model_uuid" = Value.int f.doc.UUID ∧
    (f.SetVar k v).Var "party" = Value.str f.party ∧
    (k ≠ "model_instance_id" → k ≠ "model_uuid" → k ≠ "party" →
      (f.SetVar k v).Var k = v ∧ (f.Reset env).Var k = Value.nil) ∧
    (∀ k', k' ≠ k → (f.SetVar k v).Var k' = f.Var k') := by
  refine ⟨by simp [fsm.Var], by simp [fsm.Var], by simp [fsm.Var], by simp [fsm.Var, fsm.SetVar],
    by simp [fsm.Var, fsm.SetVar], ?_, ?_⟩
  · intro h1 h2 h3
    constructor
    · simp [fsm.Var, fsm.SetVar, h1, h2, h3, List.lookup]
    · simp [fsm.Var, fsm.Reset, h1, h2, h3]
  · intro k' hk
    have hb : (k' == k) = false := by simpa using hk
    unfold fsm.Var fsm.SetVar
    simp only [List.lookup, hb]
    rw [lookup_filter_ne k k' hk]

/-- C21, the failing input: on the FSM of `recv_test.go` with the instance id
200, `Var("model_instance_id")` is the method value `fsm.InstanceID` (the case
returns the method, it does not call it) and not the integer 200; this is so
before and after `SetVar("model_instance_id", 200)`. -/
theorem Var_model_instance_id_is_method_value :
    (recvFsm 200).instanceID = 200 ∧
    (recvFsm 200).Var "model_instance_id" = Value.methodValue "InstanceID" ∧
    (recvFsm 200).Var "model_instance_id" ≠ Value.int 200 ∧
    ((recvFsm 200).SetVar "model_instance_id" (Value.int 200)).Var "model_instance_id" ≠
      Value.int 200 := by
  decide

/-! ## C22: the cipher cache -/

theorem Cipher_hit (env : Env) (f : fsm) (regex : String) (msgLen : Int) (c : Cipher)
    (h : f.ciphers.lookup { regex := regex, msgLen := msgLen } = some c) :
    f.Cipher env regex msgLen = (f, Ret.val c) := by
  unfold fsm.Cipher
  rw [h]

theorem Cipher_keeps_cached (env : Env) (f : fsm) (regex : String) (msgLen : Int)
    (k : cipherKey) (c : Cipher) (h : f.ciphers.lookup k = some c) :
    (f.Cipher env regex msgLen).1.ciphers.lookup k = some c := by
  unfold fsm.Cipher
  split
  · exact h
  · dsimp only
    split
    · exact h
    · simp [List.lookup_append, h]

theorem runCiphers_keeps_cached (k : cipherKey) (c : Cipher)
    (calls : List (Env × String × Int)) :
    ∀ f : fsm, f.ciphers.lookup k = some c → (runCiphers calls f).ciphers.lookup k = some c := by
  induction calls with
  | nil => intro f h; exact h
  | cons call rest ih =>
    intro f h
    obtain ⟨env, regex, msgLen⟩ := call
    exact ih _ (Cipher_keeps_cached env f regex msgLen k c h)

theorem Cipher_val_cached (env : Env) (f : fsm) (regex : String) (msgLen : Int) (c : Cipher)
    (h : (f.Cipher env regex msgLen).2 = Ret.val c) :
    (f.Cipher env regex msgLen).1.ciphers.lookup { regex := regex, msgLen := msgLen } =
      some c := by
  rcases hl : f.ciphers.lookup { regex := regex, msgLen := msgLen } with _ | cipher
  · unfold fsm.Cipher at h ⊢
    rw [hl] at h ⊢
    dsimp only at h ⊢
    rcases ho : env.cipherOpen { id := f.log.length, regex := regex } with _ | e
    · rw [ho] at h
      dsimp only at h ⊢
      injection h with h
      simp [List.lookup_append, hl, List.lookup, h]
    · rw [ho] at h
      exact absurd h (by simp)
  · unfold fsm.Cipher at h ⊢
    rw [hl] at h ⊢
    dsimp only at h ⊢
    injection h with h
    rw [hl, h]

/-- The ids of the cached ciphers stay below the length of the log: every call
of `Cipher` keeps it so, and `Reset` makes it so. -/
theorem Cipher_ids_below_log (env : Env) (f : fsm) (regex : String) (msgLen : Int)
    (h : ∀ kc ∈ f.ciphers, kc.2.id < f.log.length) :
    (∀ kc ∈ (f.Cipher env regex msgLen).1.ciphers,
      kc.2.id < (f.Cipher env regex msgLen).1.log.length) ∧
    (∀ kc ∈ (f.Reset env).ciphers, kc.2.id < (f.Reset env).log.length) := by
  constructor
  · unfold fsm.Cipher
    split
    · exact h
    · dsimp only
      split
      · intro kc hkc
        have := h kc hkc
        simp only [List.length_append, List.length_singleton]
        omega
      · intro kc hkc
        simp only [List.length_append, List.length_singleton]
        rcases List.mem_append.1 hkc with h1 | h1
        · have := h kc h1
          omega
        · simp only [List.mem_singleton] at h1
          subst h1
          simp
  · intro kc hkc
    simp [fsm.Reset] at hkc

/-- C22: once `Cipher(regex, msgLen)` has returned a cipher, a call for the same
pair after any run of further calls of `Cipher` (for any pairs, opening or
failing to open) returns that same cipher and leaves the FSM as it was, the log
of `Open` calls included.  A call for a pair that is not in the cache makes
exactly one call of `Open`, on the new cipher: when `Open` fails its error is
returned and the cache is unchanged; when it succeeds the new cipher is
returned and the cache is the old one with the new cipher under that pair.  The
new cipher is none of the cached ones when these were opened by this FSM (their
ids are below the length of the log). -/
theorem Cipher_cache (env : Env) (f : fsm) (regex : String) (msgLen : Int) :
    (∀ c, (f.Cipher env regex msgLen).2 = Ret.val c →
      ∀ (calls : List (Env × String × Int)) (env' : Env),
        (runCiphers calls (f.Cipher env regex msgLen).1).Cipher env' regex msgLen =
          (runCiphers calls (f.Cipher env regex msgLen).1, Ret.val c)) ∧
    (f.ciphers.lookup { regex := regex, msgLen := msgLen } = none →
      (f.Cipher env regex msgLen).1.log =
        f.log ++ [Event.cipherOpen { id := f.log.length, regex := regex }] ∧
      (∀ e, env.cipherOpen { id := f.log.length, regex := regex } = some e →
        (f.Cipher env regex msgLen).2 = Ret.err e ∧
        (f.Cipher env regex msgLen).1.ciphers = f.ciphers) ∧
      (env.cipherOpen { id := f.log.length, regex := regex } = none →
        (f.Cipher env regex msgLen).2 = Ret.val { id := f.log.length, regex := regex } ∧
        (f.Cipher env regex msgLen).1.ciphers =
          f.ciphers ++
            [({ regex := regex, msgLen := msgLen }, { id := f.log.length, regex := regex })] ∧
        (f.Cipher env regex msgLen).1.ciphers.lookup { regex := regex, msgLen := msgLen } =
          some { id := f.log.length, regex := regex }) ∧
      ((∀ kc ∈ f.ciphers, kc.2.id < f.log.length) →
        ∀ kc ∈ f.ciphers, kc.2 ≠ { id := f.log.length, regex := regex })) := by
  constructor
  · intro c hc calls env'
    exact Cipher_hit env' _ regex msgLen c
      (runCiphers_keeps_cached _ c calls _ (Cipher_val_cached env f regex msgLen c hc))
  · intro hnone
    refine ⟨?_, ?_, ?_, ?_⟩
    · unfold fsm.Cipher
      rw [hnone]
      dsimp only
      split <;> rfl
    · intro e he
      unfold fsm.Cipher
      rw [hnone]
      dsimp only
      rw [he]
      exact ⟨rfl, rfl⟩
    · intro ho
      unfold fsm.Cipher
      rw [hnone]
      dsimp only
      rw [ho]
      refine ⟨rfl, rfl, ?_⟩
      simp [List.lookup_append, hnone, List.lookup]
    · intro hinv kc hkc heq
      have := hinv kc hkc
      rw [heq] at this
      exact absurd this (Nat.lt_irrefl _)

/-- C22 at a sample: the server opens the cipher of ("[a-z]+", 128); after a call
that opens another cipher and a call whose `Open` fails, the pair still yields
the cipher 0 and nothing is opened, even where no cipher opens any more; and
where no cipher opens, the first call returns the error and caches nothing. -/
theorem Cipher_cache_witness :
    (greetServer.Cipher quietEnv "[a-z]+" 128).2 = Ret.val { id := 0, regex := "[a-z]+" } ∧
    (runCiphers [(quietEnv, "[0-9]+", 16), (noCipherEnv, "x", 1)]
        (greetServer.Cipher quietEnv "[a-z]+" 128).1).Cipher noCipherEnv "[a-z]+" 128 =
      (runCiphers [(quietEnv, "[0-9]+", 16), (noCipherEnv, "x", 1)]
        (greetServer.Cipher quietEnv "[a-z]+" 128).1, Ret.val { id := 0, regex := "[a-z]+" }) ∧
    greetServer.ciphers.lookup { regex := "[a-z]+", msgLen := 128 } = none ∧
    (greetServer.Cipher noCipherEnv "[a-z]+" 128).2 =
      Ret.err (Error.errorString "fte: cannot open cipher") ∧
    (greetServer.Cipher noCipherEnv "[a-z]+" 128).1.ciphers = greetServer.ciphers :=
  ⟨by decide,
   (Cipher_cache quietEnv greetServer "[a-z]+" 128).1 { id := 0, regex := "[a-z]+" } (by decide)
     [(quietEnv, "[0-9]+", 16), (noCipherEnv, "x", 1)] noCipherEnv,
   by decide,
   ((Cipher_cache noCipherEnv greetServer "[a-z]+" 128).2 (by decide)).2.1
     (Error.errorString "fte: cannot open cipher") (by decide)⟩

/-! ## C23: `Clone` -/

/-- What `Clone` does guarantee: the result has the document it was given and
the host, party, connection and stream set of the receiver; it is in the state
"start" with no step counted, no variable, no cipher and no listener.  When the
party is not the first sender of the new document the result has the
receiver's instance id and no PRNG; when it is, the result has a newly drawn
instance id and a PRNG seeded with it. -/
theorem Clone_shape (env : Env) (draw : Nat) (f : fsm) (doc : Document) :
    (f.Clone env draw doc).doc = doc ∧
    (f.Clone env draw doc).host = f.host ∧
    (f.Clone env draw doc).party = f.party ∧
    (f.Clone env draw doc).conn = f.conn ∧
    (f.Clone env draw doc).streamSet = f.streamSet ∧
    (f.Clone env draw doc).state = "start" ∧
    (f.Clone env draw doc).stepN = 0 ∧
    (f.Clone env draw doc).vars = [] ∧
    (f.Clone env draw doc).ciphers = [] ∧
    (f.Clone env draw doc).listeners = [] ∧
    (f.party ≠ doc.FirstSender →
      (f.Clone env draw doc).instanceID = f.instanceID ∧ (f.Clone env draw doc).rand = none) ∧
    (f.party = doc.FirstSender →
      (f.Clone env draw doc).instanceID = ((draw % 2 ^ 31 : Nat) : Int) ∧
      (f.Clone env draw doc).rand = some { seed := ((draw % 2 ^ 31 : Nat) : Int), pos := 0 }) := by
  unfold fsm.Clone fsm.initFirstSender
  by_cases hp : f.party = doc.FirstSender
  · simp [fsm.Reset, fsm.buildTransitions, hp]
  · simp [fsm.Reset, fsm.buildTransitions, hp]

/-- C23, the failing inputs.  The server with the variable "k" set to "v",
cloned for its own document: the clone reads "k" as nil, because `Clone` calls
`Reset` on the copy after it has copied the variable map.  The client with the
instance id 200, the first sender, cloned for its own document while
`rand.Int31()` returns 7: the clone has the instance id 7, because `Clone` calls
`initFirstSender` on the copy after it has copied the instance id. -/
theorem Clone_drops_variables_and_instance_id :
    taggedServer.Var "k" = Value.str "v" ∧
    (taggedServer.Clone quietEnv 0 greetDoc).Var "k" = Value.nil ∧
    twoStepClient.instanceID = 200 ∧
    twoStepClient.party = twoStepDoc.FirstSender ∧
    (twoStepClient.Clone quietEnv 7 twoStepDoc).instanceID = 7 := by
  decide

/-! ## C24: `io.puts` -/

theorem putsLoop_succ (fuel : Nat) (write : Writer) (data : List Nat) (f : fsm)
    (hd : data ≠ []) (h0 : 0 ≤ (write 0 data).n) (h1 : (write 0 data).n ≤ data.length) :
    putsLoop (fuel + 1) write data f =
      match (write 0 data).fatal with
      | none =>
        putsLoop fuel (fun i => write (i + 1)) (data.drop (write 0 data).n.toNat)
          { f with log := f.log ++ [Event.connWrite data] }
      | some e => ({ f with log := f.log ++ [Event.connWrite data] }, some (Ret.err e)) := by
  have hpos : data.length > 0 := List.length_pos.2 hd
  have hrange : ¬ ((write 0 data).n < 0 ∨ (data.length : Int) < (write 0 data).n) := by omega
  rw [putsLoop, if_pos hpos, if_neg hrange]
  unfold WriteReply.fatal
  rcases (write 0 data).err with _ | ⟨e, t⟩
  · simp [isTimeoutError]
  · cases t <;> simp [isTimeoutError]

theorem mem_dropLast_cons {α : Type} (a c : α) (l : List α) (h : c ∈ (a :: l).dropLast) :
    c = a ∨ c ∈ l.dropLast := by
  cases l with
  | nil => simp at h
  | cons b l =>
    rw [List.dropLast_cons₂] at h
    exact List.mem_cons.1 h

theorem getLast?_cons_of_some {α : Type} (a c : α) (l : List α) (h : l.getLast? = some c) :
    (a :: l).getLast? = some c := by
  cases l with
  | nil => simp at h
  | cons b l => rw [List.getLast?_cons_cons]; exact h

/-- Each call of `Write` in the loop is handed `data` without the bytes that the
calls before it counted, and is answered by the connection for its number. -/
theorem writeCalls_suffix (k : Nat) :
    ∀ (write : Writer) (data : List Nat) (i : Nat) (c : List Nat × WriteReply),
      (writeCalls k write data)[i]? = some c →
      c.1 = data.drop (((writeCalls k write data).take i).map (fun c => c.2.n.toNat)).sum ∧
      c.2 = write i c.1 := by
  induction k with
  | zero => intro write data i c h; simp [writeCalls] at h
  | succ k ih =>
    intro write data i c h
    cases i with
    | zero =>
      simp only [writeCalls, List.getElem?_cons_zero, Option.some.injEq] at h
      subst h
      simp
    | succ i =>
      simp only [writeCalls, List.getElem?_cons_succ] at h
      obtain ⟨h1, h2⟩ := ih _ _ i c h
      refine ⟨?_, h2⟩
      rw [h1]
      simp only [writeCalls, List.take_succ_cons, List.map_cons, List.sum_cons, List.drop_drop]

theorem writeCalls_length (k : Nat) :
    ∀ (write : Writer) (data : List Nat), (writeCalls k write data).length = k := by
  induction k with
  | zero => intro write data; rfl
  | succ k ih => intro write data; simp [writeCalls, ih]

/-- The loop of `Puts` on a connection whose `Write` reports a count between 0
and the length it was handed: it makes the first `k` calls of `Write` and no
other, and either returns nil after calls without a fatal error whose counts add
up to the length of `data`, or returns the fatal error of its last call, or is
still running at the bound with bytes left to send. -/
theorem putsLoop_spec (fuel : Nat) :
    ∀ (write : Writer) (data : List Nat) (f : fsm),
      (∀ i p, 0 ≤ (write i p).n ∧ (write i p).n ≤ p.length) →
      ∃ k, k ≤ fuel ∧
        (putsLoop fuel write data f).1 =
          { f with log := f.log ++ (writeCalls k write data).map (fun c => Event.connWrite c.1) } ∧
        (∀ c ∈ (writeCalls k write data).dropLast, c.2.fatal = none) ∧
        (((putsLoop fuel write data f).2 = some (Ret.val ()) ∧
            (∀ c ∈ writeCalls k write data, c.2.fatal = none) ∧
            ((writeCalls k write data).map (fun c => c.2.n)).sum = data.length ∧
            ((writeCalls k write data).map (fun c => c.1.take c.2.n.toNat)).flatten = data) ∨
          (∃ c e, (writeCalls k write data).getLast? = some c ∧ c.2.fatal = some e ∧
            (putsLoop fuel write data f).2 = some (Ret.err e)) ∨
          ((putsLoop fuel write data f).2 = none ∧ k = fuel ∧
            (∀ c ∈ writeCalls k write data, c.2.fatal = none) ∧
            ((writeCalls k write data).map (fun c => c.2.n)).sum < data.length)) := by
  induction fuel with
  | zero =>
    intro write data f _
    refine ⟨0, le_refl _, ?_, ?_, ?_⟩
    · simp only [putsLoop, writeCalls, List.map_nil, List.append_nil]
      split <;> rfl
    · simp [writeCalls]
    · by_cases hd : data = []
      · left
        subst hd
        simp [putsLoop, writeCalls]
      · right
        right
        have hpos : 0 < data.length := List.length_pos.2 hd
        simp [putsLoop, writeCalls, hpos]
  | succ fuel ih =>
    intro write data f hw
    by_cases hd : data = []
    · subst hd
      refine ⟨0, Nat.zero_le _, ?_, ?_, Or.inl ?_⟩
      · simp [putsLoop, writeCalls]
      · simp [writeCalls]
      · simp [putsLoop, writeCalls]
    · obtain ⟨h0, h1⟩ := hw 0 data
      rw [putsLoop_succ fuel write data f hd h0 h1]
      rcases hfat : (write 0 data).fatal with _ | e
      · dsimp only
        obtain ⟨k, hk, hf, hdl, hres⟩ :=
          ih (fun i => write (i + 1)) (data.drop (write 0 data).n.toNat)
            { f with log := f.log ++ [Event.connWrite data] } (fun i p => hw (i + 1) p)
        have hmem : ∀ c ∈ writeCalls (k + 1) write data,
            (∀ c ∈ writeCalls k (fun i => write (i + 1)) (data.drop (write 0 data).n.toNat),
              c.2.fatal = none) → c.2.fatal = none := by
          intro c hc hall
          simp only [writeCalls, List.mem_cons] at hc
          rcases hc with h | h
          · rw [h]
            exact hfat
          · exact hall c h
        have hlen : ((data.drop (write 0 data).n.toNat).length : Int) =
            (data.length : Int) - (write 0 data).n := by
          rw [List.length_drop]
          omega
        refine ⟨k + 1, by omega, ?_, ?_, ?_⟩
        · rw [hf]
          simp [writeCalls, List.append_assoc]
        · intro c hc
          simp only [writeCalls] at hc
          rcases mem_dropLast_cons _ _ _ hc with h | h
          · rw [h]
            exact hfat
          · exact hdl c h
        · rcases hres with ⟨hv, hall, hsum, hcat⟩ | ⟨c, e, hlast, hce, hr⟩ | ⟨hn, hkf, hall, hsum⟩
          · left
            refine ⟨hv, fun c hc => hmem c hc hall, ?_, ?_⟩
            · simp only [writeCalls, List.map_cons, List.sum_cons]
              rw [hsum, hlen]
              omega
            · simp only [writeCalls, List.map_cons, List.flatten_cons]
              rw [hcat]
              exact List.take_append_drop _ _
          · right
            left
            refine ⟨c, e, ?_, hce, hr⟩
            simp only [writeCalls]
            exact getLast?_cons_of_some _ _ _ hlast
          · right
            right
            refine ⟨hn, by omega, fun c hc => hmem c hc hall, ?_⟩
            simp only [writeCalls, List.map_cons, List.sum_cons]
            omega
      · dsimp only
        refine ⟨1, by omega, ?_, ?_, Or.inr (Or.inl ⟨(data, write 0 data), e, ?_, hfat, rfl⟩)⟩
        · simp [writeCalls]
        · simp [writeCalls]
        · simp [writeCalls]

/-- The loop of `Puts` returns within `len(data)` calls of `Write` on a
connection where every call handed bytes either counts at least one of them or
reports an error that is not a timeout. -/
theorem putsLoop_returns (fuel : Nat) :
    ∀ (write : Writer) (data : List Nat) (f : fsm),
      (∀ i p, 0 ≤ (write i p).n ∧ (write i p).n ≤ p.length) →
      (∀ i p, p ≠ [] → 0 < (write i p).n ∨ (write i p).fatal ≠ none) →
      data.length ≤ fuel → (putsLoop fuel write data f).2 ≠ none := by
  induction fuel with
  | zero =>
    intro write data f _ _ hlen
    have hd : ¬ data.length > 0 := by omega
    simp [putsLoop, hd]
  | succ fuel ih =>
    intro write data f hw hp hlen
    by_cases hd : data = []
    · subst hd
      simp [putsLoop]
    · obtain ⟨h0, h1⟩ := hw 0 data
      rw [putsLoop_succ fuel write data f hd h0 h1]
      rcases hfat : (write 0 data).fatal with _ | e
      · dsimp only
        have hpos : 0 < (write 0 data).n := by
          rcases hp 0 data hd with h | h
          · exact h
          · exact absurd hfat h
        refine ih _ _ _ (fun i p => hw (i + 1) p) (fun i p => hp (i + 1) p) ?_
        rw [List.length_drop]
        omega
      · simp

/-- C24: `io.puts` with a string first argument, on a connection whose `Write`
reports a count between 0 and the length it was handed.  It makes `k` calls of
`Write` and changes nothing else; call number `i` is handed the bytes of `data`
without the first bytes that the calls before it counted, whether or not those
calls reported a timeout; no call but the last reports an error that is not a
timeout.  Then either it returns nil, no call reported such an error, the counts
add up to the length of `data` and the accepted bytes in order are `data`; or it
returns the error of its last call, which is not a timeout; or it is still
running after `fuel` calls with bytes left.  With no argument, or a first
argument that is not a string, it returns an error and calls nothing. -/
theorem Puts_spec (write : Writer) (fuel : Nat) (f : fsm) (data : String)
    (rest : List Value) (hw : ∀ i p, 0 ≤ (write i p).n ∧ (write i p).n ≤ p.length) :
    (∃ k, k ≤ fuel ∧
      (Puts write fuel f (Value.str data :: rest)).1 =
        { f with
          log := f.log ++
            (writeCalls k write (stringBytes data)).map (fun c => Event.connWrite c.1) } ∧
      (∀ i c, (writeCalls k write (stringBytes data))[i]? = some c →
        c.1 = (stringBytes data).drop
          (((writeCalls k write (stringBytes data)).take i).map (fun c => c.2.n.toNat)).sum ∧
        c.2 = write i c.1) ∧
      (∀ c ∈ (writeCalls k write (stringBytes data)).dropLast, c.2.fatal = none) ∧
      (((Puts write fuel f (Value.str data :: rest)).2 = some (Ret.val ()) ∧
          (∀ c ∈ writeCalls k write (stringBytes data), c.2.fatal = none) ∧
          ((writeCalls k write (stringBytes data)).map (fun c => c.2.n)).sum =
            (stringBytes data).length ∧
          ((writeCalls k write (stringBytes data)).map
            (fun c => c.1.take c.2.n.toNat)).flatten = stringBytes data) ∨
        (∃ c e, (writeCalls k write (stringBytes data)).getLast? = some c ∧
          c.2.fatal = some e ∧
          (Puts write fuel f (Value.str data :: rest)).2 = some (Ret.err e)) ∨
        ((Puts write fuel f (Value.str data :: rest)).2 = none ∧ k = fuel ∧
          (∀ c ∈ writeCalls k write (stringBytes data), c.2.fatal = none) ∧
          ((writeCalls k write (stringBytes data)).map (fun c => c.2.n)).sum <
            (stringBytes data).length))) ∧
    Puts write fuel f [] =
      (f, some (Ret.err (Error.errorString "io.puts: not enough arguments"))) ∧
    (∀ a, (∀ s, a ≠ Value.str s) →
      Puts write fuel f (a :: rest) =
        (f, some (Ret.err (Error.errorString "io.puts: invalid argument type")))) := by
  refine ⟨?_, rfl, ?_⟩
  · obtain ⟨k, hk, hf, hdl, hres⟩ := putsLoop_spec fuel write (stringBytes data) f hw
    exact ⟨k, hk, hf, writeCalls_suffix k write (stringBytes data), hdl, hres⟩
  · intro a ha
    cases a with
    | str s => exact absurd rfl (ha s)
    | nil => rfl
    | int i => rfl
    | methodValue name => rfl

/-- C24 at samples.  On the connection that accepts one byte of "hi" and times
out, `io.puts` calls `Write` with "hi" and then with "i" and returns nil; on the
connection that breaks at its second call it returns "broken pipe" after that
call; without a string it returns an error and writes nothing. -/
theorem Puts_spec_witness :
    (∀ i p, 0 ≤ (slowWriter i p).n ∧ (slowWriter i p).n ≤ p.length) ∧
    Puts slowWriter 5 greetServer [Value.str "hi"] =
      ({ greetServer with log := [Event.connWrite [104, 105], Event.connWrite [105]] },
        some (Ret.val ())) ∧
    Puts brokenWriter 5 greetServer [Value.str "hi"] =
      ({ greetServer with log := [Event.connWrite [104, 105], Event.connWrite [105]] },
        some (Ret.err (Error.errorString "broken pipe"))) ∧
    Puts slowWriter 5 greetServer [] =
      (greetServer, some (Ret.err (Error.errorString "io.puts: not enough arguments"))) ∧
    Puts slowWriter 5 greetServer [Value.int 7] =
      (greetServer, some (Ret.err (Error.errorString "io.puts: invalid argument type"))) :=
  ⟨fun i p => by unfold slowWriter; split <;> simp,
   by decide, by decide,
   (Puts_spec slowWriter 5 greetServer "hi" []
     (fun i p => by unfold slowWriter; split <;> simp)).2.1,
   (Puts_spec slowWriter 5 greetServer "hi" []
     (fun i p => by unfold slowWriter; split <;> simp)).2.2 (Value.int 7)
     (fun s h => by cases h)⟩

/-! ## C25: what a failed call of `Next` leaves behind -/

theorem next_state (env : Env) (f : fsm) : (f.next env).1.state = f.state :=
  (next_control env f).2.2.2.1

theorem initLoop_err_state (env : Env) :
    ∀ (n : Nat) (f0 g : fsm) (e : Error), initLoop env n f0 = (g, Ret.err e) → g.state = ""
  | 0, f0, g, e, h => by simp [initLoop] at h
  | n + 1, f0, g, e, h => by
    rw [initLoop] at h
    rcases hnext : f0.next env with ⟨g', r⟩
    rw [hnext] at h
    rcases r with s | e2 | m
    · dsimp only at h
      by_cases hs : s = ""
      · rw [if_neg (not_not.2 hs)] at h
        simp at h
      · rw [if_pos hs] at h
        exact initLoop_err_state env n _ g e h
    · dsimp only at h
      injection h with h1 h2
      rw [← h1]
    · simp at h

theorem init_err_state (env : Env) (f g : fsm) (e : Error)
    (h : f.init env = (g, Ret.err e)) : g.state = "" := by
  unfold fsm.init at h
  split at h
  · simp at h
  · exact initLoop_err_state env _ _ g e h

theorem Next_state_of_init_val (env : Env) (f g : fsm) (e : Error)
    (hinit : f.init env = (g, Ret.val ())) (h : (f.Next env).2 = Ret.err e) :
    (f.Next env).1.state = g.state := by
  have hs := next_state env g
  unfold fsm.Next at h ⊢
  rw [hinit] at h ⊢
  dsimp only at h ⊢
  rcases hnext : g.next env with ⟨h', r⟩
  rw [hnext] at h hs
  rcases r with s | e2 | m
  · dsimp only at h hs ⊢
    by_cases hs' : s = ""
    · rw [if_pos hs']
      exact hs
    · rw [if_neg hs'] at h
      simp at h
  · exact hs
  · simp at h

/-- C25, amended.  A call of `Next` that returns an error leaves `stepN` as it
was.  It leaves `state` as it was when it did not initialise the PRNG (the PRNG
existed, or the instance id was 0).  In general `state` is what `init` left when
`init` returned no error and the step after it failed, and it is the empty
string when `init` returned the error, from a step of its replay. -/
theorem Next_error_frame (env : Env) (f : fsm) (e : Error)
    (h : (f.Next env).2 = Ret.err e) :
    (f.Next env).1.stepN = f.stepN ∧
    (f.rand.isSome ∨ f.instanceID = 0 → (f.Next env).1.state = f.state) ∧
    ((f.init env).2 = Ret.val () → (f.Next env).1.state = (f.init env).1.state) ∧
    (∀ e', (f.init env).2 = Ret.err e' → e' = e ∧ (f.Next env).1.state = "") := by
  refine ⟨?_, ?_, ?_, ?_⟩
  · have hstep := Next_stepN env f
    rw [h] at hstep
    simpa [countOK] using hstep
  · intro hno
    have hinit : f.init env = (f, Ret.val ()) := by
      unfold fsm.init
      rw [if_pos hno]
    exact Next_state_of_init_val env f f e hinit h
  · intro hv
    exact Next_state_of_init_val env f (f.init env).1 e (Prod.ext rfl hv) h
  · intro e' he'
    have hinit : f.init env = ((f.init env).1, Ret.err e') := Prod.ext rfl he'
    have hN : f.Next env = ((f.init env).1, Ret.err e') := by
      unfold fsm.Next
      rw [hinit]
    rw [hN] at h ⊢
    injection h with h
    exact ⟨h, init_err_state env f _ e' hinit⟩

/-- C25 amended, at samples: the server without instance id that waits in
"start" gets `ErrNoTransition` and stays in "start"; the server that learned its
instance id after one step fails in the replay and is left at step 1. -/
theorem Next_error_frame_witness :
    (gatedServer.Next deafEnv).2 = Ret.err Error.ErrNoTransition ∧
    (gatedServer.Next deafEnv).1.state = gatedServer.state ∧
    (hungServer.Next eofEnv).2 = Ret.err (Error.errorString "EOF") ∧
    (hungServer.Next eofEnv).1.stepN = hungServer.stepN :=
  ⟨by decide,
   (Next_error_frame deafEnv gatedServer Error.ErrNoTransition (by decide)).2.1
     (Or.inr (by decide)),
   by decide,
   (Next_error_frame eofEnv hungServer (Error.errorString "EOF") (by decide)).1⟩

/-- C25, the counterexample: the server took its one step to "a" without a
PRNG, reading the greeting, and then learned the instance id 200.  The next call
of `Next` seeds the PRNG and replays that step from "start"; the read now fails
with "EOF", `Next` returns this error, and the state is the empty string, not
"a".  The step counter is still 1. -/
theorem Next_failed_replay_loses_state :
    hungServer.state = "a" ∧ hungServer.stepN = 1 ∧
    hungServer.rand = none ∧ hungServer.instanceID = 200 ∧
    (hungServer.Next eofEnv).2 = Ret.err (Error.errorString "EOF") ∧
    (hungServer.Next eofEnv).1.state = "" ∧
    (hungServer.Next eofEnv).1.state ≠ hungServer.state ∧
    (hungServer.Next eofEnv).1.stepN = 1 := by
  decide

end Marionette
